import Mathlib

/-!
# MUDLink: a shallow embedding of the link engine

Embedding of `src/mudlink.h`, `src/utils/mudl_cobs.cpp`, `src/utils/crc16_ccitt.cpp` and
`src/utils/micros_base_64.cpp`.

Conventions of the embedding:

* bytes and machine integers are `Nat`; a store into a narrower C type is written with an
  explicit `% 2 ^ w`;
* a C array is a `List Nat`; the four arrays of the engine have `MUDL_BUFFERS_SIZE` slots
  (`MUDL_Link.WF`);
* an array access of the engine whose index can leave the array is written with
  `arrayLoad` / `arrayStore`, which return `none` outside the array (undefined behaviour in C);
  the operations that contain such an access return an `Option`;
* file-scope and function-static variables (`crcTable`, the statics of `microsBase64`) live in
  `Globals`; the platform counter `micros()` is a stream `micros : Nat → Nat`, its `k`-th call
  returning `micros k % 2 ^ 32`;
* the three `float` statistics (EWMA averages) are not part of the embedding.
-/

namespace Mudlink

/-! ## Constants of `mudlink.h` -/

abbrev MUDL_MAX_PACKET_SIZE : Nat := 248
abbrev MUDL_BUFFERS_SIZE : Nat := 256
abbrev MUDL_MAX_NUM_RETRIES : Nat := 10
abbrev MUDL_RETRY_EXP_BASE : Nat := 2
abbrev MUDL_RETRY_INITIAL_MULTIPLE : Nat := 6

/-! ## Array helpers -/

/-- Read `a[i]` of an engine array; `none` when `i` is outside `0 .. MUDL_BUFFERS_SIZE - 1`. -/
def arrayLoad (a : List Nat) (i : Int) : Option Nat :=
  if 0 ≤ i ∧ i < (MUDL_BUFFERS_SIZE : Int) then some (a.getD i.toNat 0) else none

/-- Write `a[i] = v` of an engine array, the index being an unsigned value; `none` when `i`
is outside `0 .. MUDL_BUFFERS_SIZE - 1`. -/
def arrayStore (a : List Nat) (i : Nat) (v : Nat) : Option (List Nat) :=
  if i < MUDL_BUFFERS_SIZE then some (a.set i v) else none

/-- The call `memcpy(dst, src, n)` on arrays that hold at least `n` bytes each. -/
def memcpy (dst src : List Nat) (n : Nat) : List Nat :=
  src.take n ++ dst.drop n

/-! ## `utils/mudl_cobs.cpp` -/

/-- The `for` loop of `mudl_cobsEncode` followed by the final `*codep = code`.
The first argument is the input not yet read: its head `b` is `*byte` and the length of its
tail is the value of `length` after the decrement in the loop condition. `encode` and `codep`
are offsets into `buffer`. `code` stays in `1 .. 0xfe` at the loop head, so `++code` never
wraps its `uint8_t`. -/
def cobsEncodeLoop : List Nat → List Nat → Nat → Nat → Nat → List Nat × Nat
  | [], buffer, encode, codep, code => (buffer.set codep code, encode)
  | b :: rest, buffer, encode, codep, code =>
    let buffer1 := if b ≠ 0 then buffer.set encode b else buffer
    let encode1 := if b ≠ 0 then encode + 1 else encode
    let code1 := if b ≠ 0 then code + 1 else code
    if b = 0 ∨ code1 = 0xff then
      cobsEncodeLoop rest (buffer1.set codep code1)
        (if b = 0 ∨ rest.length ≠ 0 then encode1 + 1 else encode1) encode1 1
    else
      cobsEncodeLoop rest buffer1 encode1 codep code1

/-- The function `mudl_cobsEncode(data, length, buffer)`: returns the output buffer after the
call and the encoded length `encode - buffer`. `data` must hold `length` bytes. -/
def mudl_cobsEncode (data : List Nat) (length : Nat) (buffer : List Nat) : List Nat × Nat :=
  cobsEncodeLoop (data.take length) buffer 1 0 1

/-- The `for` loop of `mudl_cobsDecode`. The first argument counts the iterations left
(`buffer + length - byte`), `byte` and `decode` are offsets. With `inPlace` the input pointer
and the output pointer are the same array (`data`), otherwise the input is `buffer`. -/
def cobsDecodeLoop (inPlace : Bool) (buffer : List Nat) :
    Nat → Nat → List Nat → Nat → Nat → Nat → List Nat × Nat
  | 0, _, data, decode, _, _ => (data, decode)
  | n + 1, byte, data, decode, code, block =>
    if block ≠ 0 then
      let v := if inPlace then data.getD byte 0 else buffer.getD byte 0
      cobsDecodeLoop inPlace buffer n (byte + 1) (data.set decode v) (decode + 1) code (block - 1)
    else
      let data1 := if code ≠ 0xff then data.set decode 0 else data
      let decode1 := if code ≠ 0xff then decode + 1 else decode
      let c := if inPlace then data1.getD byte 0 else buffer.getD byte 0
      if c = 0 then (data1, decode1)
      else cobsDecodeLoop inPlace buffer n (byte + 1) data1 decode1 c (c - 1)

/-- The function `mudl_cobsDecode(buffer, length, data)` on two distinct arrays: returns the
output array after the call and the number of bytes decoded. -/
def mudl_cobsDecode (buffer : List Nat) (length : Nat) (data : List Nat) : List Nat × Nat :=
  cobsDecodeLoop false buffer length 0 data 0 0xff 0

/-- The call `mudl_cobsDecode(buffer, length, buffer)`: decoding in place. -/
def mudl_cobsDecodeInPlace (buffer : List Nat) (length : Nat) : List Nat × Nat :=
  cobsDecodeLoop true buffer length 0 buffer 0 0xff 0

/-! ## `utils/crc16_ccitt.cpp` -/

abbrev polynomial : Nat := 0x1021
abbrev initialValue : Nat := 0xFFFF

/-- One pass of the inner `j` loop of `crc16_generate_table` on the `uint16_t crc`. -/
def crcShift (crc : Nat) : Nat :=
  if crc &&& 0x8000 ≠ 0 then ((crc <<< 1) ^^^ polynomial) % 2 ^ 16 else (crc <<< 1) % 2 ^ 16

/-- The value stored in `crcTable[i]` by `crc16_generate_table`. -/
def crcTableEntry (i : Nat) : Nat :=
  crcShift^[8] ((i <<< 8) % 2 ^ 16)

/-- The contents of `crcTable` after `crc16_generate_table()`. -/
def generatedCrcTable : List Nat :=
  (List.range 256).map crcTableEntry

/-- One pass of the loop of `crc16_ccitt`: `index` is a `uint8_t`, `crc` a `uint16_t`. -/
def crcUpdate (crcTable : List Nat) (crc b : Nat) : Nat :=
  let index := ((crc >>> 8) ^^^ b) % 2 ^ 8
  (crcTable.getD index 0 ^^^ (crc <<< 8)) % 2 ^ 16

/-- The function `crc16_ccitt(data, len)` with the global `crcTable` as a parameter; `data` is
the array from the pointer on, and reading past its end is `none`. -/
def crc16_ccitt (crcTable : List Nat) (data : List Nat) (len : Nat) : Option Nat :=
  if len ≤ data.length then some ((data.take len).foldl (crcUpdate crcTable) initialValue)
  else none

/-! ## Reference CRC-16/CCITT (from the specification, not from the code) -/

/-- Reference CRC-16/CCITT, one bit: the 16-bit register moves left by one place and the
polynomial 0x1021 is xored in when the bit that leaves the register is set (MSB first, no
reflection). -/
def crc16_reference_shift (crc : Nat) : Nat :=
  if crc.testBit 15 then ((2 * crc) % 2 ^ 16) ^^^ 0x1021 else (2 * crc) % 2 ^ 16

/-- Reference CRC-16/CCITT, one byte: the byte is xored into the high half of the register,
which is then shifted eight times. -/
def crc16_reference_byte (crc b : Nat) : Nat :=
  crc16_reference_shift^[8] (crc ^^^ (b * 2 ^ 8))

/-- Reference CRC-16/CCITT of a byte sequence: initial value 0xFFFF, no final xor. -/
def crc16_reference (s : List Nat) : Nat :=
  s.foldl crc16_reference_byte 0xFFFF
/-! ## Globals and `utils/micros_base_64.cpp` -/

/-- File-scope state: the CRC table (zero until generated), the two statics of
`microsBase64`, and the number of `micros()` calls made so far. -/
structure Globals where
  crcTable : List Nat := List.replicate 256 0
  lastMicros : Nat := 0
  overflows : Nat := 0
  microsCalls : Nat := 0
deriving DecidableEq, Repr

/-- The function `crc16_generate_table()`. -/
def crc16_generate_table (g : Globals) : Globals :=
  { g with crcTable := generatedCrcTable }

/-- The function `microsBase64()`: reads `micros()` once, returns the new statics and the
64-bit value. -/
def microsBase64 (micros : Nat → Nat) (g : Globals) : Globals × Nat :=
  let currentMicros := micros g.microsCalls % 2 ^ 32
  let overflows := if currentMicros < g.lastMicros then (g.overflows + 1) % 2 ^ 64 else g.overflows
  ({ g with lastMicros := currentMicros, overflows := overflows,
            microsCalls := g.microsCalls + 1 },
   ((overflows <<< 32) % 2 ^ 64) ||| currentMicros)

/-! ## `mudl_stats_type.h` and the state of `MUDL_Link` -/

/-- The integer fields of `MUDLStats`. -/
structure MUDLStats where
  rxSuccessCount : Nat := 0
  rxFailureCount : Nat := 0
  txSuccessCount : Nat := 0
  txFailureCount : Nat := 0
  txTotalRetries : Nat := 0
  outgoingTimeoutLengthHighWaterMark : Nat := 0
deriving DecidableEq, Repr

/-- The data members of `MUDL_Link` (the transport `impl` is an argument of `loop`). -/
structure MUDL_Link where
  baudrate : Nat
  microsecondsPerByte : Nat
  retryAbsMaxInterval : Nat
  keepAliveTxInterval : Nat
  keepAliveRxInterval : Nat
  incomingMessageStash : List Nat
  incomingMessageStashLen : Nat := 0
  incomingMessageSequenceNum : Nat := 0
  ackingSequenceNum : Nat := 0
  ackRequired : Bool := false
  outgoingMessageStash : List Nat
  outgoingMessageStashLen : Nat := 0
  outgoingMessageSequenceNum : Nat := 12
  outgoingLastTxTime : Nat := 0
  outgoingTimeoutLength : Nat := 0
  outgoingRetryCount : Nat := 0
  lastEverOutgoing : Nat := 0
  lastEverIncoming : Nat := 0
  rxBuffer : List Nat
  rxBufferWp : Nat := 0
  rxBufferLen : Nat := 0
  txBuffer : List Nat
  txBufferRp : Nat := 0
  txBufferLen : Nat := 0
  stats : MUDLStats := {}
  outgoingMessageStartTime : Nat := 0
deriving DecidableEq, Repr

namespace MUDL_Link

/-- The four arrays have their declared size. -/
def WF (s : MUDL_Link) : Prop :=
  s.incomingMessageStash.length = MUDL_BUFFERS_SIZE ∧
  s.outgoingMessageStash.length = MUDL_BUFFERS_SIZE ∧
  s.rxBuffer.length = MUDL_BUFFERS_SIZE ∧
  s.txBuffer.length = MUDL_BUFFERS_SIZE

instance (s : MUDL_Link) : Decidable s.WF := by
  unfold WF; infer_instance

/-- The constructor `MUDL_Link(_impl, _baudrate)` with the member initialisers. The arrays
have no initialiser in the source; they start zeroed here. -/
def new (_baudrate : Nat) : MUDL_Link :=
  let microsecondsPerByte := 1000000 / (_baudrate / 10)
  let retryAbsMaxInterval := (microsecondsPerByte * 100000) % 2 ^ 32
  { baudrate := _baudrate
    microsecondsPerByte := microsecondsPerByte
    retryAbsMaxInterval := retryAbsMaxInterval
    keepAliveTxInterval := retryAbsMaxInterval >>> 2
    keepAliveRxInterval := retryAbsMaxInterval >>> 1
    incomingMessageStash := List.replicate MUDL_BUFFERS_SIZE 0
    outgoingMessageStash := List.replicate MUDL_BUFFERS_SIZE 0
    rxBuffer := List.replicate MUDL_BUFFERS_SIZE 0
    txBuffer := List.replicate MUDL_BUFFERS_SIZE 0 }

/-- The method `begin()`: the transport setup has no effect on the engine state. -/
def begin (g : Globals) (s : MUDL_Link) : Globals × MUDL_Link :=
  (crc16_generate_table g, s)

/-- The method `clearToRead()`. -/
def clearToRead (s : MUDL_Link) : Bool :=
  decide (s.incomingMessageStashLen > 0)

/-- The method `read(dest, maxLen)`: returns the engine, the caller's buffer and the
returned length. -/
def read (s : MUDL_Link) (dest : List Nat) (maxLen : Nat) : MUDL_Link × List Nat × Nat :=
  if ¬ s.clearToRead then (s, dest, 0)
  else
    let maxLen1 := if maxLen > MUDL_MAX_PACKET_SIZE then MUDL_MAX_PACKET_SIZE else maxLen
    let stashLen := if s.incomingMessageStashLen > maxLen1 then maxLen1 % 2 ^ 8
                    else s.incomingMessageStashLen
    ({ s with ackingSequenceNum := s.incomingMessageSequenceNum
              ackRequired := true
              incomingMessageStashLen := 0 },
     memcpy dest s.incomingMessageStash stashLen, stashLen)

/-- The method `isOpen()`. -/
def isOpen (micros : Nat → Nat) (g : Globals) (s : MUDL_Link) : Globals × Bool :=
  let r := microsBase64 micros g
  (r.1, decide ((s.lastEverIncoming + s.keepAliveRxInterval) % 2 ^ 64 > r.2))

/-- The method `clearToSend()`. -/
def clearToSend (s : MUDL_Link) : Bool :=
  decide (s.outgoingMessageStashLen = 0)

/-- The method `send(data, len)`. -/
def send (micros : Nat → Nat) (g : Globals) (s : MUDL_Link) (data : List Nat) (len : Nat) :
    Globals × MUDL_Link :=
  if ¬ s.clearToSend then (g, s)
  else
    let len1 := if len > MUDL_MAX_PACKET_SIZE then MUDL_MAX_PACKET_SIZE else len
    let r := microsBase64 micros g
    (r.1, { s with outgoingMessageStash := memcpy s.outgoingMessageStash data len1
                   outgoingMessageStashLen := len1 % 2 ^ 8
                   outgoingMessageSequenceNum := (s.outgoingMessageSequenceNum + 1) % 2 ^ 8
                   outgoingMessageStartTime := r.2 })

/-- The method `resetAllOutgoingStates()`. -/
def resetAllOutgoingStates (s : MUDL_Link) : MUDL_Link :=
  { s with outgoingMessageStashLen := 0, outgoingLastTxTime := 0, outgoingRetryCount := 0 }

/-- The method `onPacketRx()`. The two `float` averages it updates are not modelled; the
call of `microsBase64()` that feeds them is. -/
def onPacketRx (micros : Nat → Nat) (g : Globals) (s : MUDL_Link) :
    Option (Globals × MUDL_Link) := do
  let incomingAckNum ← arrayLoad s.rxBuffer ((s.rxBufferLen : Int) - 4)
  let incomingSequenceNum ← arrayLoad s.rxBuffer ((s.rxBufferLen : Int) - 3)
  let (g1, s1) :=
    if incomingAckNum = s.outgoingMessageSequenceNum ∧ s.outgoingMessageStashLen ≠ 0 then
      ((microsBase64 micros g).1,
       resetAllOutgoingStates
         { s with stats := { s.stats with
                    txSuccessCount := (s.stats.txSuccessCount + 1) % 2 ^ 32 } })
    else (g, s)
  if s1.rxBufferLen > 4 then
    if s1.incomingMessageSequenceNum = incomingSequenceNum then
      if s1.incomingMessageStashLen ≠ 0 then some (g1, s1)
      else some (g1, { s1 with ackRequired := true })
    else
      let n := (s1.rxBufferLen - 4) % 2 ^ 8
      some (g1, { s1 with incomingMessageSequenceNum := incomingSequenceNum
                          incomingMessageStashLen := n
                          incomingMessageStash := memcpy s1.incomingMessageStash s1.rxBuffer n })
  else some (g1, s1)

/-- The method `txTimeoutGenerator()`: arithmetic in `uint32_t`. -/
def txTimeoutGenerator (s : MUDL_Link) : MUDL_Link × Nat :=
  let retryTime0 :=
    (MUDL_RETRY_INITIAL_MULTIPLE * (((s.txBufferLen + 1) * s.microsecondsPerByte) % 2 ^ 32))
      % 2 ^ 32
  let retryTime :=
    (fun t => if (t * MUDL_RETRY_EXP_BASE) % 2 ^ 32 > s.retryAbsMaxInterval
              then s.retryAbsMaxInterval else (t * MUDL_RETRY_EXP_BASE) % 2 ^ 32)^[s.outgoingRetryCount]
      retryTime0
  (if retryTime > s.stats.outgoingTimeoutLengthHighWaterMark then
     { s with stats := { s.stats with outgoingTimeoutLengthHighWaterMark := retryTime } }
   else s,
   retryTime)

/-- The method `loadTxBufferWithAck()`. The encoder reads `txBuffer[10..13]` and writes
`txBuffer[0..4]`, so its input is taken before the call. -/
def loadTxBufferWithAck (g : Globals) (s : MUDL_Link) : Option MUDL_Link := do
  let preEncodeOffset : Nat := 10
  let b0 ← arrayStore s.txBuffer (0 + preEncodeOffset) s.ackingSequenceNum
  let b1 ← arrayStore b0 (1 + preEncodeOffset) s.outgoingMessageSequenceNum
  let crc ← crc16_ccitt g.crcTable (b1.drop preEncodeOffset) 2
  let b2 ← arrayStore b1 (2 + preEncodeOffset) ((crc >>> 8) % 2 ^ 8)
  let b3 ← arrayStore b2 (3 + preEncodeOffset) (crc &&& 255)
  let r := mudl_cobsEncode (b3.drop preEncodeOffset) 4 b3
  let b4 ← arrayStore r.1 r.2 0
  some { s with txBuffer := b4, txBufferLen := (r.2 + 1) % 2 ^ 8, txBufferRp := 0 }

/-- The method `loadTxBufferFromStash()`. -/
def loadTxBufferFromStash (g : Globals) (s : MUDL_Link) : Option MUDL_Link := do
  let len := s.outgoingMessageStashLen
  let m0 ← arrayStore s.outgoingMessageStash len s.ackingSequenceNum
  let m1 ← arrayStore m0 (len + 1) s.outgoingMessageSequenceNum
  let crc ← crc16_ccitt g.crcTable m1 (len + 2)
  let m2 ← arrayStore m1 (len + 2) ((crc >>> 8) % 2 ^ 8)
  let m3 ← arrayStore m2 (len + 3) (crc &&& 255)
  let r := mudl_cobsEncode m3 (len + 4) s.txBuffer
  let b ← arrayStore r.1 r.2 0
  let s1 := { s with outgoingMessageStash := m3, txBuffer := b,
                     txBufferLen := (r.2 + 1) % 2 ^ 8, txBufferRp := 0 }
  let t := txTimeoutGenerator s1
  some { t.1 with outgoingTimeoutLength := t.2 }

/-- One pass of the body of `while(impl->available())` in `loop()`, `b` being the byte
returned by `impl->read()`. -/
def rxByte (micros : Nat → Nat) (g : Globals) (s : MUDL_Link) (b : Nat) :
    Option (Globals × MUDL_Link) := do
  let buf ← arrayStore s.rxBuffer s.rxBufferWp b
  let wp0 := (s.rxBufferWp + 1) % 2 ^ 16
  let wp := if wp0 ≥ MUDL_BUFFERS_SIZE * 2 then 0 else wp0
  let last ← arrayLoad buf ((wp : Int) - 1)
  if last = 0 then
    let dec := mudl_cobsDecodeInPlace buf 255
    let rxBufferLen : Nat := (dec.2 + (2 ^ 16 - 1)) % 2 ^ 16
    let crc ← crc16_ccitt g.crcTable dec.1 ((((rxBufferLen : Int) - 2) % 2 ^ 32).toNat)
    let hi ← arrayLoad dec.1 ((rxBufferLen : Int) - 2)
    let lo ← arrayLoad dec.1 ((rxBufferLen : Int) - 1)
    let tx_crc := ((hi <<< 8) ||| lo) % 2 ^ 16
    if crc = tx_crc then
      let r := microsBase64 micros g
      let p ← onPacketRx micros r.1
        { s with rxBuffer := dec.1, rxBufferWp := wp, rxBufferLen := rxBufferLen
                 lastEverIncoming := r.2
                 stats := { s.stats with
                   rxSuccessCount := (s.stats.rxSuccessCount + 1) % 2 ^ 32 } }
      some (p.1, { p.2 with rxBufferLen := 0, rxBufferWp := 0 })
    else
      some (g, { s with rxBuffer := dec.1, rxBufferLen := 0, rxBufferWp := 0
                        stats := { s.stats with
                          rxFailureCount := (s.stats.rxFailureCount + 1) % 2 ^ 32 } })
  else
    some (g, { s with rxBuffer := buf, rxBufferWp := wp })

/-- The receive buffer of `s` once the delimiter `0x00` has been stored at the write pointer
and `loop()` has decoded the buffer in place: the decoded array and the value returned by
`mudl_cobsDecode`. The decoded payload length `L` of the frame is that value minus one. -/
def rxDecoded (s : MUDL_Link) : List Nat × Nat :=
  mudl_cobsDecodeInPlace (s.rxBuffer.set s.rxBufferWp 0) 255

/-- The decoded payload length `L` of the frame closed by a delimiter at the write pointer:
the decoded length without the trailing zero. -/
def rxPayloadLen (s : MUDL_Link) : Nat :=
  (rxDecoded s).2 - 1

/-- The CRC test of `loop()` on the frame closed by a delimiter at the write pointer: the
CRC-16 over the first `L - 2` decoded bytes equals the big-endian value `(hi << 8) | lo` of
the last two. -/
def rxCrcOk (g : Globals) (s : MUDL_Link) : Prop :=
  crc16_ccitt g.crcTable (rxDecoded s).1 (rxPayloadLen s - 2) =
    some ((((rxDecoded s).1.getD (rxPayloadLen s - 2) 0 <<< 8)
      ||| (rxDecoded s).1.getD (rxPayloadLen s - 1) 0) % 2 ^ 16)

instance (g : Globals) (s : MUDL_Link) : Decidable (rxCrcOk g s) := by
  unfold rxCrcOk; infer_instance

/-- The RX loop of `loop()`: `rx` lists the bytes the transport hands over during the call. -/
def loopRx (micros : Nat → Nat) : Globals → MUDL_Link → List Nat → Option (Globals × MUDL_Link)
  | g, s, [] => some (g, s)
  | g, s, b :: rx =>
    match rxByte micros g s b with
    | none => none
    | some p => loopRx micros p.1 p.2 rx

/-- The block `if(!txBufferLen){ ... }` of `loop()`; `now` is a `uint32_t`. -/
def loopTxLoad (micros : Nat → Nat) (g : Globals) (s : MUDL_Link) :
    Option (Globals × MUDL_Link) :=
  if s.txBufferLen = 0 then
    let r := microsBase64 micros g
    let now := r.2 % 2 ^ 32
    if s.outgoingMessageStashLen ≠ 0 ∧ s.outgoingLastTxTime = 0 then do
      let s1 ← loadTxBufferFromStash r.1 { s with outgoingLastTxTime := now }
      some (r.1, { s1 with ackRequired := false, lastEverOutgoing := now })
    else if s.outgoingLastTxTime ≠ 0 ∧
        (now + 2 ^ 64 - s.outgoingLastTxTime) % 2 ^ 64 > s.outgoingTimeoutLength then
      let s0 := { s with stats := { s.stats with
                           txTotalRetries := (s.stats.txTotalRetries + 1) % 2 ^ 32 }
                         outgoingRetryCount := (s.outgoingRetryCount + 1) % 2 ^ 8 }
      if s0.outgoingRetryCount > MUDL_MAX_NUM_RETRIES then
        some (r.1, resetAllOutgoingStates
          { s0 with stats := { s0.stats with
                      txFailureCount := (s0.stats.txFailureCount + 1) % 2 ^ 32 } })
      else do
        let s1 ← loadTxBufferFromStash r.1 { s0 with outgoingLastTxTime := now }
        some (r.1, { s1 with ackRequired := false, lastEverOutgoing := now })
    else if s.ackRequired then do
      let s1 ← loadTxBufferWithAck r.1 s
      some (r.1, { s1 with ackRequired := false, lastEverOutgoing := now })
    else if (s.lastEverOutgoing + s.keepAliveTxInterval) % 2 ^ 64 < now then do
      let s1 ← loadTxBufferWithAck r.1 s
      some (r.1, { s1 with ackRequired := false, lastEverOutgoing := now })
    else some (r.1, s)
  else some (g, s)

/-- The `for` loop that pushes bytes to the transport: the first argument is what is left of
`fifoAvail`, the last one collects the bytes given to `impl->write`. -/
def txPushLoop : Nat → MUDL_Link → List Nat → MUDL_Link × List Nat
  | 0, s, out => (s, out)
  | k + 1, s, out =>
    let b := s.txBuffer.getD s.txBufferRp 0
    let rp := (s.txBufferRp + 1) % 2 ^ 8
    if rp ≥ s.txBufferLen then ({ s with txBufferRp := 0, txBufferLen := 0 }, out ++ [b])
    else txPushLoop k { s with txBufferRp := rp } (out ++ [b])

/-- The block `if(txBufferLen){ ... }` of `loop()`, `fifoAvail` being the value of
`impl->availableForWrite()`. -/
def loopTxPush (s : MUDL_Link) (fifoAvail : Nat) : MUDL_Link × List Nat :=
  if s.txBufferLen ≠ 0 then txPushLoop fifoAvail s [] else (s, [])

/-- The method `loop()`: `rx` are the bytes read from the transport, `fifoAvail` its write
capacity; the result carries the bytes written to the transport. -/
def loop (micros : Nat → Nat) (g : Globals) (s : MUDL_Link) (rx : List Nat) (fifoAvail : Nat) :
    Option (Globals × MUDL_Link × List Nat) := do
  let p ← loopRx micros g s rx
  let q ← loopTxLoad micros p.1 p.2
  let w := loopTxPush q.2 fifoAvail
  some (q.1, w.1, w.2)

end MUDL_Link

/-! ## Runs: repeated calls, used to state claims about sequences of calls -/

/-- The statics of `microsBase64` after `k` successive calls. -/
def microsBase64Iter (micros : Nat → Nat) : Nat → Globals → Globals
  | 0, g => g
  | k + 1, g => microsBase64Iter micros k (microsBase64 micros g).1

/-- The number of readings, among those of the next `n` calls of `microsBase64`, that are
smaller than the reading before them (the first is compared with the static `lastMicros`). -/
def microsDecreases (micros : Nat → Nat) : Nat → Globals → Nat
  | 0, _ => 0
  | n + 1, g =>
    (if micros g.microsCalls % 2 ^ 32 < g.lastMicros then 1 else 0)
      + microsDecreases micros n (microsBase64 micros g).1

/-- The result of `n` successive calls of `loop()` with no inbound byte and a transport that
takes `fifoAvail` bytes per call; the bytes each call writes to the transport are collected,
first call first. -/
def tickRun (micros : Nat → Nat) (fifoAvail : Nat) :
    Nat → Globals → MUDL_Link → Option (Globals × MUDL_Link × List (List Nat))
  | 0, g, s => some (g, s, [])
  | n + 1, g, s =>
    match MUDL_Link.loop micros g s [] fifoAvail with
    | none => none
    | some r =>
      match tickRun micros fifoAvail n r.1 r.2.1 with
      | none => none
      | some q => some (q.1, q.2.1, r.2.2 :: q.2.2)

/-- A call the application makes on an engine: `loop()` with the bytes the transport hands
over during the call and its write capacity, or `read(dest, maxLen)`. -/
inductive Op where
  | tick (rx : List Nat) (fifoAvail : Nat)
  | read (dest : List Nat) (maxLen : Nat)
deriving DecidableEq, Repr

/-- The engine after one call, with the bytes the call writes to the transport. -/
def step (micros : Nat → Nat) (g : Globals) (s : MUDL_Link) :
    Op → Option (Globals × MUDL_Link × List Nat)
  | Op.tick rx fifoAvail => MUDL_Link.loop micros g s rx fifoAvail
  | Op.read dest maxLen => some (g, (MUDL_Link.read s dest maxLen).1, [])

/-- The engine after a sequence of calls, first call first, with the bytes each call writes
to the transport. -/
def run (micros : Nat → Nat) :
    List Op → Globals → MUDL_Link → Option (Globals × MUDL_Link × List (List Nat))
  | [], g, s => some (g, s, [])
  | op :: ops, g, s =>
    match step micros g s op with
    | none => none
    | some r =>
      match run micros ops r.1 r.2.1 with
      | none => none
      | some q => some (q.1, q.2.1, r.2.2 :: q.2.2)

/-- The outbound side of an engine that took the message `m` under the sequence number `q`:
the message is still in the stash, and it is either pending or has been dropped from the
outbound state (acknowledged or given up) by `resetAllOutgoingStates`. `T` is the CRC table. -/
def HoldsMessage (T m : List Nat) (q : Nat) (g : Globals) (s : MUDL_Link) : Prop :=
  g.crcTable = T ∧
  s.outgoingMessageStash.length = MUDL_BUFFERS_SIZE ∧ s.txBuffer.length = MUDL_BUFFERS_SIZE ∧
  s.outgoingMessageStash.take m.length = m ∧ s.outgoingMessageSequenceNum = q ∧
  (s.outgoingMessageStashLen = m.length ∨
    (s.outgoingMessageStashLen = 0 ∧ s.outgoingLastTxTime = 0))

instance (T m : List Nat) (q : Nat) (g : Globals) (s : MUDL_Link) :
    Decidable (HoldsMessage T m q g s) := by
  unfold HoldsMessage; infer_instance

/-! ## Sample states used by the examples -/

/-- A clock whose `k`-th reading is `1000 * (k + 1)` microseconds. -/
def sampleMicros : Nat → Nat :=
  fun k => 1000 * (k + 1)

/-- The globals after `begin()`. -/
def sampleGlobals : Globals :=
  crc16_generate_table {}

/-- An engine at 115200 baud that has accepted the message `[1, 2, 3]` (its `our_seq` is 13). -/
def sampleSender : MUDL_Link :=
  (MUDL_Link.send sampleMicros sampleGlobals (MUDL_Link.new 115200) [1, 2, 3] 3).2

/-- A receiver whose buffer holds the bytes `05 01 02 03 04` and waits for the delimiter: the
payload `[1, 2, 3, 4]` has four bytes and a wrong CRC. -/
def sampleBadCrc : MUDL_Link :=
  { MUDL_Link.new 115200 with
    rxBuffer := [5, 1, 2, 3, 4] ++ List.replicate 251 0, rxBufferWp := 5 }

/-- The engine `sampleSender` with the encoded ack-only frame of payload `[13, 0, 0x6B, 0x53]`
in its receive buffer (`0x6B53` is the CRC of `[13, 0]`), waiting for the delimiter. -/
def sampleAcked : MUDL_Link :=
  { sampleSender with
    rxBuffer := [2, 13, 3, 0x6B, 0x53] ++ List.replicate 251 0, rxBufferWp := 5 }

/-- A receiver that holds the unread message `[1, 2, 3]` of sequence number 13 and has the
encoded data frame of payload `[1, 2, 3, 0, 13, 0xDE, 0xC8]` in its receive buffer again
(`0xDEC8` is the CRC of `[1, 2, 3, 0, 13]`), waiting for the delimiter. -/
def sampleDuplicate : MUDL_Link :=
  { MUDL_Link.new 115200 with
    incomingMessageStash := [1, 2, 3] ++ List.replicate 253 0
    incomingMessageStashLen := 3
    incomingMessageSequenceNum := 13
    rxBuffer := [4, 1, 2, 3, 4, 13, 0xDE, 0xC8] ++ List.replicate 248 0, rxBufferWp := 8 }

/-- A fresh receiver whose buffer holds the bytes `03 FF FF` and waits for the delimiter: the
payload `[0xFF, 0xFF]` has two bytes. -/
def sampleShortFrame : MUDL_Link :=
  { MUDL_Link.new 115200 with
    rxBuffer := [3, 0xFF, 0xFF] ++ List.replicate 253 0, rxBufferWp := 3 }

/-- The engine state in which `txTimeoutGenerator` runs for a baudrate, a loaded frame length
and a retry count. -/
def backoffState (baudrate txBufferLen retryCount : Nat) : MUDL_Link :=
  { MUDL_Link.new baudrate with txBufferLen := txBufferLen, outgoingRetryCount := retryCount }

/-- An idle engine at 115200 baud whose last frame left at 4 294 000 000 us. -/
def sampleIdle : MUDL_Link :=
  { MUDL_Link.new 115200 with lastEverOutgoing := 4294000000 }

/-- The globals after `begin()`, the previous reading of `micros()` being 4 294 000 000. -/
def sampleLateGlobals : Globals :=
  { sampleGlobals with lastMicros := 4294000000 }

/-- A clock that reads 1 500 000 at every call: after the reading 4 294 000 000 the counter
has wrapped. -/
def sampleWrappedMicros : Nat → Nat :=
  fun _ => 1500000

/-- A clock that reads 0 at its first two calls (the call of `send` and the first call of
`loop`) and then advances by ten seconds per call. -/
def sampleZeroMicros : Nat → Nat :=
  fun k => (k - 1) * 10000000

/-- The engine `sampleSender`, its `send` having read the clock `sampleZeroMicros`. -/
def sampleZeroSender : Globals × MUDL_Link :=
  MUDL_Link.send sampleZeroMicros sampleGlobals (MUDL_Link.new 115200) [1, 2, 3] 3

/-- A sender like `sampleSender` whose 8-bit `our_seq` has come round to 0. -/
def sampleSeqZeroSender : MUDL_Link :=
  { sampleSender with outgoingMessageSequenceNum := 0 }

/-- A clock that reads 1000, 2000 and 3000 microseconds and, from its fourth reading on,
50 000 microseconds. -/
def sampleJumpMicros : Nat → Nat :=
  fun k => if k < 3 then 1000 * (k + 1) else 50000

/-- A peer at 115200 baud that holds the message `[9]` under `our_seq = 7` and acknowledges
nothing of ours (`ack_seq = 0`). -/
def samplePeer : MUDL_Link :=
  { MUDL_Link.new 115200 with
    outgoingMessageStash := [9] ++ List.replicate 255 0
    outgoingMessageStashLen := 1
    outgoingMessageSequenceNum := 7 }

/-- The engine `sampleSender` after a call of `loop()` that loads and writes the data frame of
`[1, 2, 3]`, the clock being `sampleJumpMicros`. -/
def sampleLoaded : Globals × MUDL_Link × List Nat :=
  (MUDL_Link.loop sampleJumpMicros sampleGlobals sampleSender [] 256).getD
    (sampleGlobals, sampleSender, [])

/-- The engine `sampleLoaded` after a call of `loop()` that receives the data frame of
`samplePeer`, `02 09 04 07 22 EA 00`. -/
def sampleLoadedInbound : Globals × MUDL_Link × List (List Nat) :=
  (run sampleJumpMicros [Op.tick [2, 9, 4, 7, 0x22, 0xEA, 0] 256] sampleLoaded.1
    sampleLoaded.2.1).getD (sampleGlobals, sampleSender, [])

/-! ## Lemmas -/

open MUDL_Link

theorem getD_set_eq (l : List Nat) (i j v : Nat) :
    (l.set i v).getD j 0 = if i = j ∧ i < l.length then v else l.getD j 0 := by
  simp only [List.getD_eq_getElem?_getD, List.getElem?_set]
  by_cases h : i = j
  · subst h
    by_cases h2 : i < l.length
    · simp [h2]
    · simp [h2]
      simp at h2
      simp [List.getElem?_eq_none h2]
  · simp [h]

theorem take_set_of_le (l : List Nat) (i n v : Nat) (h : n ≤ i) :
    (l.set i v).take n = l.take n := by
  apply List.ext_getElem?
  intro j
  rw [List.getElem?_take, List.getElem?_take]
  split
  · rw [List.getElem?_set_ne (by omega)]
  · rfl

theorem take_succ_set (l : List Nat) (d v : Nat) (h : d < l.length) :
    (l.set d v).take (d + 1) = l.take d ++ [v] := by
  rw [List.take_succ, take_set_of_le _ _ _ _ (le_refl d)]
  simp [h]

theorem cobsEncodeLoop_zero (rest buf : List Nat) (enc codep code : Nat) :
    cobsEncodeLoop (0 :: rest) buf enc codep code
      = cobsEncodeLoop rest (buf.set codep code) (enc + 1) enc 1 := by
  simp [cobsEncodeLoop]

theorem cobsEncodeLoop_copy (b : Nat) (rest buf : List Nat) (enc codep code : Nat)
    (hb : b ≠ 0) (hc : code + 1 ≠ 255) :
    cobsEncodeLoop (b :: rest) buf enc codep code
      = cobsEncodeLoop rest (buf.set enc b) (enc + 1) codep (code + 1) := by
  simp [cobsEncodeLoop, hb, hc]

theorem cobsEncodeLoop_full (b : Nat) (rest buf : List Nat) (enc codep code : Nat)
    (hb : b ≠ 0) (hc : code + 1 = 255) :
    cobsEncodeLoop (b :: rest) buf enc codep code
      = cobsEncodeLoop rest ((buf.set enc b).set codep 255)
          (if rest.length ≠ 0 then enc + 2 else enc + 1) (enc + 1) 1 := by
  simp [cobsEncodeLoop, hb, hc]

theorem cobsEncodeLoop_cases (b : Nat) (code : Nat) :
    b = 0 ∨ (b ≠ 0 ∧ code + 1 ≠ 255) ∨ (b ≠ 0 ∧ code + 1 = 255) := by
  by_cases hb : b = 0
  · exact Or.inl hb
  · by_cases hc : code + 1 = 255
    · exact Or.inr (Or.inr ⟨hb, hc⟩)
    · exact Or.inr (Or.inl ⟨hb, hc⟩)

theorem cobsEncodeLoop_length (rest : List Nat) :
    ∀ buf enc codep code, (cobsEncodeLoop rest buf enc codep code).1.length = buf.length := by
  induction rest with
  | nil => intro buf enc codep code; simp [cobsEncodeLoop]
  | cons b rest ih =>
    intro buf enc codep code
    rcases cobsEncodeLoop_cases b code with hb | ⟨hb, hc⟩ | ⟨hb, hc⟩
    · subst hb; rw [cobsEncodeLoop_zero, ih]; simp
    · rw [cobsEncodeLoop_copy _ _ _ _ _ _ hb hc, ih]; simp
    · rw [cobsEncodeLoop_full _ _ _ _ _ _ hb hc, ih]; simp

theorem cobsEncodeLoop_le (rest : List Nat) :
    ∀ buf enc codep code, enc + rest.length ≤ (cobsEncodeLoop rest buf enc codep code).2 := by
  induction rest with
  | nil => intro buf enc codep code; simp [cobsEncodeLoop]
  | cons b rest ih =>
    intro buf enc codep code
    rcases cobsEncodeLoop_cases b code with hb | ⟨hb, hc⟩ | ⟨hb, hc⟩
    · subst hb; rw [cobsEncodeLoop_zero]
      refine le_trans ?_ (ih _ _ _ _); simp only [List.length_cons]; omega
    · rw [cobsEncodeLoop_copy _ _ _ _ _ _ hb hc]
      refine le_trans ?_ (ih _ _ _ _); simp only [List.length_cons]; omega
    · rw [cobsEncodeLoop_full _ _ _ _ _ _ hb hc]
      refine le_trans ?_ (ih _ _ _ _); simp only [List.length_cons]; split_ifs <;> omega

/-- With fewer than 254 bytes left in the block no block is closed by its length. -/
theorem cobsEncodeLoop_short (rest : List Nat) :
    ∀ buf enc codep code, code + rest.length ≤ 254 →
      (cobsEncodeLoop rest buf enc codep code).2 = enc + rest.length := by
  induction rest with
  | nil => intro buf enc codep code _; simp [cobsEncodeLoop]
  | cons b rest ih =>
    intro buf enc codep code h
    simp only [List.length_cons] at h
    rcases cobsEncodeLoop_cases b code with hb | ⟨hb, hc⟩ | ⟨hb, hc⟩
    · subst hb; rw [cobsEncodeLoop_zero, ih _ _ _ _ (by omega)]; simp only [List.length_cons]; omega
    · rw [cobsEncodeLoop_copy _ _ _ _ _ _ hb hc, ih _ _ _ _ (by omega)]
      simp only [List.length_cons]; omega
    · omega

/-- The encoder only writes at `codep` and at or after `encode`. -/
theorem cobsEncodeLoop_frame (rest : List Nat) :
    ∀ buf enc codep code k, k < enc → k ≠ codep →
      (cobsEncodeLoop rest buf enc codep code).1.getD k 0 = buf.getD k 0 := by
  induction rest with
  | nil =>
    intro buf enc codep code k hk hne
    simp only [cobsEncodeLoop, getD_set_eq]
    rw [if_neg]; intro h; exact hne h.1.symm
  | cons b rest ih =>
    intro buf enc codep code k hk hne
    rcases cobsEncodeLoop_cases b code with hb | ⟨hb, hc⟩ | ⟨hb, hc⟩
    · subst hb; rw [cobsEncodeLoop_zero, ih _ _ _ _ _ (by omega) (by omega), getD_set_eq]
      rw [if_neg]; intro h; exact hne h.1.symm
    · rw [cobsEncodeLoop_copy _ _ _ _ _ _ hb hc, ih _ _ _ _ _ (by omega) hne, getD_set_eq]
      rw [if_neg]; intro h; omega
    · rw [cobsEncodeLoop_full _ _ _ _ _ _ hb hc,
        ih _ _ _ _ _ (by split_ifs <;> omega) (by omega), getD_set_eq, getD_set_eq]
      rw [if_neg, if_neg]
      · intro h; omega
      · intro h; exact hne h.1.symm

/-- The code byte of the open block ends up at least as large as the running code. -/
theorem cobsEncodeLoop_code (rest : List Nat) :
    ∀ buf enc codep code, codep < enc →
      (cobsEncodeLoop rest buf enc codep code).2 ≤ buf.length →
      code ≤ (cobsEncodeLoop rest buf enc codep code).1.getD codep 0 := by
  induction rest with
  | nil =>
    intro buf enc codep code hlt hn
    simp only [cobsEncodeLoop] at hn ⊢
    rw [getD_set_eq, if_pos ⟨rfl, by omega⟩]
  | cons b rest ih =>
    intro buf enc codep code hlt hn
    rcases cobsEncodeLoop_cases b code with hb | ⟨hb, hc⟩ | ⟨hb, hc⟩
    · subst hb; rw [cobsEncodeLoop_zero] at hn ⊢
      have hle := cobsEncodeLoop_le rest (buf.set codep code) (enc + 1) enc 1
      rw [cobsEncodeLoop_frame _ _ _ _ _ _ (by omega) (by omega), getD_set_eq,
        if_pos ⟨rfl, by omega⟩]
    · rw [cobsEncodeLoop_copy _ _ _ _ _ _ hb hc] at hn ⊢
      have := ih (buf.set enc b) (enc + 1) codep (code + 1) (by omega) (by simpa using hn)
      omega
    · rw [cobsEncodeLoop_full _ _ _ _ _ _ hb hc] at hn ⊢
      have hle := cobsEncodeLoop_le rest ((buf.set enc b).set codep 255)
        (if rest.length ≠ 0 then enc + 2 else enc + 1) (enc + 1) 1
      rw [cobsEncodeLoop_frame _ _ _ _ _ _ (by split_ifs <;> omega) (by omega), getD_set_eq,
        if_pos ⟨rfl, by simp only [List.length_set]; split_ifs at hle hn <;> omega⟩]
      omega

/-- No encoded byte is zero. -/
theorem cobsEncodeLoop_nonzero (rest : List Nat) :
    ∀ buf enc codep code, code ≠ 0 →
      (∀ k, k < enc → k ≠ codep → buf.getD k 0 ≠ 0) →
      (cobsEncodeLoop rest buf enc codep code).2 ≤ buf.length →
      ∀ k, k < (cobsEncodeLoop rest buf enc codep code).2 →
        (cobsEncodeLoop rest buf enc codep code).1.getD k 0 ≠ 0 := by
  induction rest with
  | nil =>
    intro buf enc codep code hc hbuf hn k hk
    simp only [cobsEncodeLoop] at hn hk ⊢
    rw [getD_set_eq]
    split_ifs with h
    · exact hc
    · exact hbuf k hk (fun e => h ⟨e.symm, by omega⟩)
  | cons b rest ih =>
    intro buf enc codep code hcode hbuf hn k hk
    rcases cobsEncodeLoop_cases b code with hb | ⟨hb, hc⟩ | ⟨hb, hc⟩
    · subst hb; rw [cobsEncodeLoop_zero] at hn hk ⊢
      have hle := cobsEncodeLoop_le rest (buf.set codep code) (enc + 1) enc 1
      refine ih _ _ _ _ (by omega) ?_ (by simpa using hn) k hk
      intro j hj hje
      rw [getD_set_eq]
      split_ifs with h
      · exact hcode
      · exact hbuf j (by omega) (fun e => h ⟨e.symm, by omega⟩)
    · rw [cobsEncodeLoop_copy _ _ _ _ _ _ hb hc] at hn hk ⊢
      have hle := cobsEncodeLoop_le rest (buf.set enc b) (enc + 1) codep (code + 1)
      refine ih _ _ _ _ (by omega) ?_ (by simpa using hn) k hk
      intro j hj hje
      rw [getD_set_eq]
      split_ifs with h
      · exact hb
      · exact hbuf j (by omega) hje
    · rw [cobsEncodeLoop_full _ _ _ _ _ _ hb hc] at hn hk ⊢
      generalize hE : (if rest.length ≠ 0 then enc + 2 else enc + 1) = e at *
      have he : enc + 1 ≤ e ∧ e ≤ enc + 2 := by rw [← hE]; split_ifs <;> omega
      have hle := cobsEncodeLoop_le rest ((buf.set enc b).set codep 255) e (enc + 1) 1
      refine ih _ _ _ _ (by omega) ?_ (by simpa using hn) k hk
      intro j hj hje
      rw [getD_set_eq, getD_set_eq]
      simp only [List.length_set]
      split_ifs with h1 h2
      · omega
      · exact hb
      · refine hbuf j ?_ ?_
        · by_contra hcon; apply h2; omega
        · intro e; apply h1; refine ⟨e.symm, ?_⟩; omega

theorem cobsDecodeLoop_copy (ip : Bool) (B : List Nat) (n i : Nat) (D : List Nat)
    (d code block : Nat) (h : block ≠ 0) :
    cobsDecodeLoop ip B (n + 1) i D d code block
      = cobsDecodeLoop ip B n (i + 1)
          (D.set d (if ip then D.getD i 0 else B.getD i 0)) (d + 1) code (block - 1) := by
  simp [cobsDecodeLoop, h]

theorem cobsDecodeLoop_next (ip : Bool) (B : List Nat) (n i : Nat) (D : List Nat)
    (d code : Nat) (h : code ≠ 255) :
    cobsDecodeLoop ip B (n + 1) i D d code 0
      = if (if ip then (D.set d 0).getD i 0 else B.getD i 0) = 0 then (D.set d 0, d + 1)
        else cobsDecodeLoop ip B n (i + 1) (D.set d 0) (d + 1)
          (if ip then (D.set d 0).getD i 0 else B.getD i 0)
          ((if ip then (D.set d 0).getD i 0 else B.getD i 0) - 1) := by
  simp [cobsDecodeLoop, h]

theorem cobsDecodeLoop_next_ff (ip : Bool) (B : List Nat) (n i : Nat) (D : List Nat)
    (d : Nat) :
    cobsDecodeLoop ip B (n + 1) i D d 255 0
      = if (if ip then D.getD i 0 else B.getD i 0) = 0 then (D, d)
        else cobsDecodeLoop ip B n (i + 1) D d
          (if ip then D.getD i 0 else B.getD i 0)
          ((if ip then D.getD i 0 else B.getD i 0) - 1) := by
  simp [cobsDecodeLoop]

/-- The decoder, placed inside the block the encoder has open, follows the encoder to the end of
its output and writes the bytes the encoder still had to read. -/
theorem cobs_sim (B out : List Nat) (n : Nat) (rest : List Nat) :
    ∀ buf enc codep code D d,
      cobsEncodeLoop rest buf enc codep code = (out, n) →
      codep < enc → 1 ≤ code → code ≤ 254 → n ≤ buf.length →
      (∀ k, k < n → B.getD k 0 = out.getD k 0) →
      d + rest.length ≤ D.length →
      ∃ D' cf, D'.length = D.length ∧ D'.take (d + rest.length) = D.take d ++ rest ∧
        1 ≤ cf ∧ (code + rest.length ≤ 254 → cf ≤ 254) ∧
        ∀ r, n - enc ≤ r →
          cobsDecodeLoop false B r enc D d (out.getD codep 0) (out.getD codep 0 - code)
            = cobsDecodeLoop false B (r - (n - enc)) n D' (d + rest.length) cf 0 := by
  induction rest with
  | nil =>
    intro buf enc codep code D d hE hlt h1 h2 hn hB hD
    simp only [cobsEncodeLoop, Prod.mk.injEq] at hE
    obtain ⟨ho, hnn⟩ := hE
    subst hnn
    refine ⟨D, code, rfl, by simp, h1, fun _ => h2, ?_⟩
    intro r _
    have : out.getD codep 0 = code := by
      rw [← ho, getD_set_eq, if_pos ⟨rfl, by omega⟩]
    rw [this]; simp
  | cons b rest ih =>
    intro buf enc codep code D d hE hlt h1 h2 hn hB hD
    simp only [List.length_cons] at hD
    rcases cobsEncodeLoop_cases b code with hb | ⟨hb, hc⟩ | ⟨hb, hc⟩
    · subst hb
      rw [cobsEncodeLoop_zero] at hE
      have ho : out = (cobsEncodeLoop rest (buf.set codep code) (enc + 1) enc 1).1 := by rw [hE]
      have hnn : n = (cobsEncodeLoop rest (buf.set codep code) (enc + 1) enc 1).2 := by rw [hE]
      have hle := cobsEncodeLoop_le rest (buf.set codep code) (enc + 1) enc 1
      rw [← hnn] at hle
      have hcp : out.getD codep 0 = code := by
        rw [ho, cobsEncodeLoop_frame _ _ _ _ _ _ (by omega) (by omega), getD_set_eq,
          if_pos ⟨rfl, by omega⟩]
      have hce : 1 ≤ out.getD enc 0 := by
        rw [ho]; exact cobsEncodeLoop_code _ _ _ _ _ (by omega) (by rw [← hnn]; simpa using hn)
      obtain ⟨D', cf, hl, ht, hcf, hcf2, hrun⟩ :=
        ih (buf.set codep code) (enc + 1) enc 1 (D.set d 0) (d + 1) hE (by omega) (by omega)
          (by omega) (by simpa using hn) hB (by simp only [List.length_set]; omega)
      refine ⟨D', cf, by simpa using hl, ?_, hcf, ?_, ?_⟩
      · rw [List.length_cons, show d + (rest.length + 1) = d + 1 + rest.length by omega, ht,
          take_succ_set _ _ _ (by omega)]
        simp
      · intro _; apply hcf2; simp only [List.length_cons] at *; omega
      · intro r hr
        obtain ⟨r', rfl⟩ : ∃ r', r = r' + 1 := ⟨r - 1, by omega⟩
        rw [hcp, Nat.sub_self, cobsDecodeLoop_next _ _ _ _ _ _ _ (by omega)]
        simp only [Bool.false_eq_true, if_false]
        rw [hB enc (by omega), if_neg (by omega), hrun r' (by omega)]
        congr 1
        · omega
        · simp only [List.length_cons]; omega
    · rw [cobsEncodeLoop_copy _ _ _ _ _ _ hb hc] at hE
      have ho : out = (cobsEncodeLoop rest (buf.set enc b) (enc + 1) codep (code + 1)).1 := by
        rw [hE]
      have hnn : n = (cobsEncodeLoop rest (buf.set enc b) (enc + 1) codep (code + 1)).2 := by
        rw [hE]
      have hle := cobsEncodeLoop_le rest (buf.set enc b) (enc + 1) codep (code + 1)
      rw [← hnn] at hle
      have hcp : code + 1 ≤ out.getD codep 0 := by
        rw [ho]; exact cobsEncodeLoop_code _ _ _ _ _ (by omega) (by rw [← hnn]; simpa using hn)
      have hbe : out.getD enc 0 = b := by
        rw [ho, cobsEncodeLoop_frame _ _ _ _ _ _ (by omega) (by omega), getD_set_eq,
          if_pos ⟨rfl, by omega⟩]
      obtain ⟨D', cf, hl, ht, hcf, hcf2, hrun⟩ :=
        ih (buf.set enc b) (enc + 1) codep (code + 1) (D.set d b) (d + 1) hE (by omega)
          (by omega) (by omega) (by simpa using hn) hB (by simp only [List.length_set]; omega)
      refine ⟨D', cf, by simpa using hl, ?_, hcf, ?_, ?_⟩
      · rw [List.length_cons, show d + (rest.length + 1) = d + 1 + rest.length by omega, ht,
          take_succ_set _ _ _ (by omega)]
        simp
      · intro _; apply hcf2; simp only [List.length_cons] at *; omega
      · intro r hr
        obtain ⟨r', rfl⟩ : ∃ r', r = r' + 1 := ⟨r - 1, by omega⟩
        rw [cobsDecodeLoop_copy _ _ _ _ _ _ _ _ (by omega)]
        simp only [Bool.false_eq_true, if_false]
        rw [hB enc (by omega), hbe,
          show out.getD codep 0 - code - 1 = out.getD codep 0 - (code + 1) by omega,
          hrun r' (by omega)]
        congr 1
        · omega
        · simp only [List.length_cons]; omega
    · rw [cobsEncodeLoop_full _ _ _ _ _ _ hb hc] at hE
      have hcode : code = 254 := by omega
      subst hcode
      by_cases hrest : rest = []
      · subst hrest
        simp only [List.length_nil, ne_eq, not_true_eq_false, if_false, cobsEncodeLoop,
          Prod.mk.injEq] at hE
        obtain ⟨ho, hnn⟩ := hE
        subst hnn
        have hcp : out.getD codep 0 = 255 := by
          rw [← ho, getD_set_eq, if_neg (by omega), getD_set_eq,
            if_pos ⟨rfl, by simp only [List.length_set]; omega⟩]
        have hbe : out.getD enc 0 = b := by
          rw [← ho, getD_set_eq, if_neg (by omega), getD_set_eq, if_neg (by omega),
            getD_set_eq, if_pos ⟨rfl, by omega⟩]
        refine ⟨D.set d b, 255, by simp, ?_, by omega, ?_, ?_⟩
        · simp only [List.length_nil, List.length_cons] at hD ⊢
          rw [take_succ_set _ _ _ (by omega)]
        · intro h; simp at h
        · intro r hr
          obtain ⟨r', rfl⟩ : ∃ r', r = r' + 1 := ⟨r - 1, by omega⟩
          rw [hcp, cobsDecodeLoop_copy _ _ _ _ _ _ _ _ (by omega)]
          simp only [Bool.false_eq_true, if_false]
          rw [hB enc (by omega), hbe]
          congr 1
          omega
      · have hlen : rest.length ≠ 0 := by
          intro h; exact hrest (List.length_eq_zero.mp h)
        rw [if_pos hlen] at hE
        have ho : out = (cobsEncodeLoop rest ((buf.set enc b).set codep 255) (enc + 2)
            (enc + 1) 1).1 := by rw [hE]
        have hnn : n = (cobsEncodeLoop rest ((buf.set enc b).set codep 255) (enc + 2)
            (enc + 1) 1).2 := by rw [hE]
        have hle := cobsEncodeLoop_le rest ((buf.set enc b).set codep 255) (enc + 2) (enc + 1) 1
        rw [← hnn] at hle
        have hcp : out.getD codep 0 = 255 := by
          rw [ho, cobsEncodeLoop_frame _ _ _ _ _ _ (by omega) (by omega), getD_set_eq,
            if_pos ⟨rfl, by simp only [List.length_set]; omega⟩]
        have hbe : out.getD enc 0 = b := by
          rw [ho, cobsEncodeLoop_frame _ _ _ _ _ _ (by omega) (by omega), getD_set_eq,
            if_neg (by omega), getD_set_eq, if_pos ⟨rfl, by omega⟩]
        have hce : 1 ≤ out.getD (enc + 1) 0 := by
          rw [ho]
          exact cobsEncodeLoop_code _ _ _ _ _ (by omega) (by rw [← hnn]; simpa using hn)
        obtain ⟨D', cf, hl, ht, hcf, hcf2, hrun⟩ :=
          ih ((buf.set enc b).set codep 255) (enc + 2) (enc + 1) 1 (D.set d b) (d + 1) hE
            (by omega) (by omega) (by omega) (by simpa using hn) hB
            (by simp only [List.length_set]; omega)
        refine ⟨D', cf, by simpa using hl, ?_, hcf, ?_, ?_⟩
        · rw [List.length_cons, show d + (rest.length + 1) = d + 1 + rest.length by omega, ht,
            take_succ_set _ _ _ (by omega)]
          simp
        · intro h; simp only [List.length_cons] at h; omega
        · intro r hr
          obtain ⟨r', rfl⟩ : ∃ r', r = r' + 2 := ⟨r - 2, by omega⟩
          rw [hcp, cobsDecodeLoop_copy _ _ _ _ _ _ _ _ (by omega)]
          simp only [Bool.false_eq_true, if_false]
          rw [hB enc (by omega), hbe, show 255 - 254 - 1 = 0 by rfl, cobsDecodeLoop_next_ff]
          simp only [Bool.false_eq_true, if_false]
          rw [hB (enc + 1) (by omega), if_neg (by omega), hrun r' (by omega)]
          congr 1
          · omega
          · simp only [List.length_cons]; omega

theorem getD_of_length_le (l : List Nat) (k : Nat) (h : l.length ≤ k) : l.getD k 0 = 0 := by
  simp [List.getD_eq_getElem?_getD, List.getElem?_eq_none h]

theorem take_eq_of_getD (l1 l2 : List Nat) (n : Nat) (hlen : l1.length = l2.length)
    (h : ∀ k, k < n → l1.getD k 0 = l2.getD k 0) : l1.take n = l2.take n := by
  apply List.ext_getElem?
  intro k
  rw [List.getElem?_take, List.getElem?_take]
  split
  · next hk =>
    have := h k hk
    by_cases hl : k < l1.length
    · have hl2 : k < l2.length := by omega
      simp only [List.getD_eq_getElem?_getD, List.getElem?_eq_getElem hl,
        List.getElem?_eq_getElem hl2, Option.getD_some] at this
      rw [List.getElem?_eq_getElem hl, List.getElem?_eq_getElem hl2, this]
    · rw [List.getElem?_eq_none (by omega), List.getElem?_eq_none (by omega)]
  · rfl

theorem getD_of_take_eq (l p : List Nat) (n k : Nat) (h : l.take n = p) (hk : k < n) :
    l.getD k 0 = p.getD k 0 := by
  subst h
  simp only [List.getD_eq_getElem?_getD, List.getElem?_take, if_pos hk]

/-- Decoding in place reads every byte before it is overwritten: it returns the same length
and the same decoded bytes as decoding a copy `B` of the buffer into another array. -/
theorem cobsDecodeLoop_inPlace (B0 B : List Nat) :
    ∀ n i M X d code block, M.length = X.length →
      (∀ k, i ≤ k → M.getD k 0 = B.getD k 0) →
      (∀ k, k < d → M.getD k 0 = X.getD k 0) →
      d ≤ i → (d = i → block = 0 ∧ code = 255) →
      (cobsDecodeLoop true B0 n i M d code block).2 = (cobsDecodeLoop false B n i X d code block).2 ∧
      (cobsDecodeLoop true B0 n i M d code block).1.length = M.length ∧
      (cobsDecodeLoop false B n i X d code block).1.length = X.length ∧
      ∀ k, k < (cobsDecodeLoop true B0 n i M d code block).2 →
        (cobsDecodeLoop true B0 n i M d code block).1.getD k 0
          = (cobsDecodeLoop false B n i X d code block).1.getD k 0 := by
  intro n
  induction n with
  | zero =>
    intro i M X d code block hlen hB hX hdi hd
    simp only [cobsDecodeLoop]
    exact ⟨trivial, trivial, trivial, hX⟩
  | succ n ih =>
    intro i M X d code block hlen hB hX hdi hd
    have hset : ∀ v k, k < d + 1 → (M.set d v).getD k 0 = (X.set d v).getD k 0 := by
      intro v k hk
      rw [getD_set_eq, getD_set_eq, hlen]
      split_ifs with h
      · rfl
      · by_cases hkd : k = d
        · subst hkd
          rw [getD_of_length_le M k (by rw [hlen]; by_contra hc; exact h ⟨rfl, by omega⟩),
            getD_of_length_le X k (by by_contra hc; exact h ⟨rfl, by omega⟩)]
        · exact hX k (by omega)
    by_cases hblock : block = 0
    · subst hblock
      by_cases hcode : code = 255
      · subst hcode
        rw [cobsDecodeLoop_next_ff, cobsDecodeLoop_next_ff]
        simp only [if_true, Bool.false_eq_true, if_false]
        rw [hB i (le_refl i)]
        split_ifs with hc
        · exact ⟨rfl, rfl, rfl, hX⟩
        · exact ih (i + 1) M X d _ _ hlen (fun k hk => hB k (by omega)) hX (by omega)
            (fun h => by omega)
      · have hlt : d < i := by
          rcases Nat.lt_or_ge d i with h | h
          · exact h
          · exact absurd (hd (by omega)).2 hcode
        rw [cobsDecodeLoop_next _ _ _ _ _ _ _ hcode, cobsDecodeLoop_next _ _ _ _ _ _ _ hcode]
        simp only [if_true, Bool.false_eq_true, if_false]
        have hrd : (M.set d 0).getD i 0 = B.getD i 0 := by
          rw [getD_set_eq, if_neg (by omega), hB i (le_refl i)]
        rw [hrd]
        split_ifs with hc
        · exact ⟨rfl, by simp, by simp, hset 0⟩
        · have := ih (i + 1) (M.set d 0) (X.set d 0) (d + 1) (B.getD i 0) (B.getD i 0 - 1)
            (by simpa using hlen)
            (fun k hk => by rw [getD_set_eq, if_neg (by omega)]; exact hB k (by omega))
            (hset 0) (by omega) (fun h => by omega)
          simpa using this
    · rw [cobsDecodeLoop_copy _ _ _ _ _ _ _ _ hblock, cobsDecodeLoop_copy _ _ _ _ _ _ _ _ hblock]
      simp only [if_true, Bool.false_eq_true, if_false]
      rw [hB i (le_refl i)]
      have := ih (i + 1) (M.set d (B.getD i 0)) (X.set d (B.getD i 0)) (d + 1) code (block - 1)
        (by simpa using hlen)
        (fun k hk => by rw [getD_set_eq, if_neg (by omega)]; exact hB k (by omega))
        (hset _) (by omega) (fun h => by
          have : d = i := by omega
          exact absurd (hd this).1 hblock)
      simpa using this

/-- Decoding, from its start, a buffer `B` that begins with the encoder's output. -/
theorem cobs_decode_encoded (B out : List Nat) (n : Nat) (s buf D : List Nat)
    (hE : cobsEncodeLoop s buf 1 0 1 = (out, n)) (hn : n ≤ buf.length)
    (hB : ∀ k, k < n → B.getD k 0 = out.getD k 0) (hD : s.length ≤ D.length) :
    ∃ D' cf, D'.length = D.length ∧ D'.take s.length = s ∧ 1 ≤ cf ∧
      (s.length ≤ 253 → cf ≤ 254) ∧
      ∀ r, n ≤ r →
        cobsDecodeLoop false B r 0 D 0 255 0 = cobsDecodeLoop false B (r - n) n D' s.length cf 0 := by
  have hnn : n = (cobsEncodeLoop s buf 1 0 1).2 := by rw [hE]
  have ho : out = (cobsEncodeLoop s buf 1 0 1).1 := by rw [hE]
  have hle := cobsEncodeLoop_le s buf 1 0 1
  rw [← hnn] at hle
  have hc0 : 1 ≤ out.getD 0 0 := by
    rw [ho]; exact cobsEncodeLoop_code _ _ _ _ _ (by omega) (by rw [← hnn]; exact hn)
  obtain ⟨D', cf, hl, ht, hcf, hcf2, hrun⟩ :=
    cobs_sim B out n s buf 1 0 1 D 0 hE (by omega) (by omega) (by omega) hn hB (by omega)
  refine ⟨D', cf, hl, by simpa using ht, hcf, fun h => hcf2 (by omega), ?_⟩
  intro r hr
  obtain ⟨r', rfl⟩ : ∃ r', r = r' + 1 := ⟨r - 1, by omega⟩
  rw [cobsDecodeLoop_next_ff]
  simp only [Bool.false_eq_true, if_false]
  rw [hB 0 (by omega), if_neg (by omega), hrun r' (by omega)]
  congr 1
  · omega
  · omega


theorem crc16_reference_shift_lt (x : Nat) : crc16_reference_shift x < 2 ^ 16 := by
  unfold crc16_reference_shift
  split_ifs
  · exact Nat.xor_lt_two_pow (Nat.mod_lt _ (by norm_num)) (by norm_num)
  · exact Nat.mod_lt _ (by norm_num)

theorem crcShift_eq_reference (x : Nat) : crcShift x = crc16_reference_shift x := by
  unfold crcShift crc16_reference_shift
  have h1 : (x &&& 0x8000 ≠ 0) ↔ x.testBit 15 = true := by
    constructor
    · intro h
      by_contra hc
      apply h
      apply Nat.eq_of_testBit_eq
      intro i
      simp only [Nat.testBit_and, Nat.zero_testBit]
      by_cases hi : i = 15
      · subst hi; simp [hc]
      · have : (0x8000 : Nat).testBit i = false := by
          rw [show (0x8000 : Nat) = 2 ^ 15 by norm_num, Nat.testBit_two_pow]
          simp; omega
        simp [this]
    · intro h hc
      have := congrArg (fun z => Nat.testBit z 15) hc
      simp only [Nat.testBit_and, Nat.zero_testBit, h, Bool.true_and] at this
      rw [show (0x8000 : Nat) = 2 ^ 15 by norm_num, Nat.testBit_two_pow_self] at this
      exact absurd this (by decide)
  have h2 : ((x <<< 1) ^^^ polynomial) % 2 ^ 16 = ((2 * x) % 2 ^ 16) ^^^ 0x1021 := by
    apply Nat.eq_of_testBit_eq
    intro i
    simp only [Nat.testBit_mod_two_pow, Nat.testBit_xor, Nat.shiftLeft_eq, pow_one,
      Nat.mul_comm x 2]
    by_cases hi : i < 16
    · simp [hi]
    · have : (0x1021 : Nat).testBit i = false :=
        Nat.testBit_lt_two_pow (lt_of_lt_of_le (by norm_num : (0x1021 : Nat) < 2 ^ 16)
          (Nat.pow_le_pow_right (by norm_num) (by omega)))
      simp [hi, polynomial, this]
  have h3 : (x <<< 1) % 2 ^ 16 = (2 * x) % 2 ^ 16 := by
    rw [Nat.shiftLeft_eq, pow_one, Nat.mul_comm]
  by_cases hb : x.testBit 15 = true
  · rw [if_pos (h1.mpr hb), if_pos hb, h2]
  · rw [if_neg (fun h => hb (h1.mp h)), if_neg hb, h3]

theorem two_mul_xor_mod (x y : Nat) :
    (2 * (x ^^^ y)) % 2 ^ 16 = ((2 * x) % 2 ^ 16) ^^^ ((2 * y) % 2 ^ 16) := by
  apply Nat.eq_of_testBit_eq
  intro i
  have hm : ∀ z : Nat, 2 * z = z <<< 1 := by
    intro z; rw [Nat.shiftLeft_eq, pow_one, Nat.mul_comm]
  simp only [hm, Nat.testBit_mod_two_pow, Nat.testBit_xor, Nat.testBit_shiftLeft]
  by_cases hi : i < 16 <;> by_cases h1 : 1 ≤ i <;> simp [hi, h1]

theorem crc16_reference_shift_xor (x y : Nat) :
    crc16_reference_shift (x ^^^ y) = crc16_reference_shift x ^^^ crc16_reference_shift y := by
  unfold crc16_reference_shift
  rw [Nat.testBit_xor, two_mul_xor_mod]
  generalize (2 * x) % 2 ^ 16 = a
  generalize (2 * y) % 2 ^ 16 = b
  have e1 : ∀ p q r : Nat, (p ^^^ r) ^^^ (q ^^^ r) = p ^^^ q := by
    intro p q r
    apply Nat.eq_of_testBit_eq; intro i
    simp only [Nat.testBit_xor]
    cases p.testBit i <;> cases q.testBit i <;> cases r.testBit i <;> rfl
  have e2 : ∀ p q r : Nat, (p ^^^ r) ^^^ q = (p ^^^ q) ^^^ r := by
    intro p q r
    apply Nat.eq_of_testBit_eq; intro i
    simp only [Nat.testBit_xor]
    cases p.testBit i <;> cases q.testBit i <;> cases r.testBit i <;> rfl
  have e3 : ∀ p q r : Nat, p ^^^ (q ^^^ r) = (p ^^^ q) ^^^ r := by
    intro p q r
    apply Nat.eq_of_testBit_eq; intro i
    simp only [Nat.testBit_xor]
    cases p.testBit i <;> cases q.testBit i <;> cases r.testBit i <;> rfl
  cases hx : x.testBit 15 <;> cases hy : y.testBit 15 <;> simp [e1, e2, e3]

theorem crc16_reference_shift_iter_xor (k : Nat) : ∀ x y : Nat,
    crc16_reference_shift^[k] (x ^^^ y)
      = crc16_reference_shift^[k] x ^^^ crc16_reference_shift^[k] y := by
  induction k with
  | zero => intro x y; rfl
  | succ k ih =>
    intro x y
    simp only [Function.iterate_succ, Function.comp_apply]
    rw [crc16_reference_shift_xor, ih]

theorem crc16_reference_shift_low (lo : Nat) (h : lo < 256) :
    crc16_reference_shift^[8] lo = lo * 2 ^ 8 := by
  interval_cases lo <;> rfl

theorem crc16_reference_shift_iter_lt (k : Nat) (x : Nat) (hx : x < 2 ^ 16) :
    crc16_reference_shift^[k] x < 2 ^ 16 := by
  induction k generalizing x with
  | zero => exact hx
  | succ k ih =>
    rw [Function.iterate_succ, Function.comp_apply]
    exact ih _ (crc16_reference_shift_lt x)

theorem crcShift_iter_eq_reference (k : Nat) (x : Nat) :
    crcShift^[k] x = crc16_reference_shift^[k] x := by
  have : crcShift = crc16_reference_shift := funext crcShift_eq_reference
  rw [this]

theorem generatedCrcTable_getD (i : Nat) (h : i < 256) :
    generatedCrcTable.getD i 0 = crc16_reference_shift^[8] (i * 2 ^ 8) := by
  unfold generatedCrcTable
  rw [List.getD_eq_getElem?_getD, List.getElem?_map, List.getElem?_range h]
  simp only [Option.map_some', Option.getD_some, crcTableEntry, crcShift_iter_eq_reference]
  congr 1
  rw [Nat.shiftLeft_eq]
  exact Nat.mod_eq_of_lt (by omega)

theorem crc_split (crc b : Nat) :
    crc ^^^ (b * 2 ^ 8) = ((((crc >>> 8) ^^^ b)) * 2 ^ 8) ^^^ (crc % 2 ^ 8) := by
  apply Nat.eq_of_testBit_eq
  intro i
  simp only [← Nat.shiftLeft_eq, Nat.testBit_xor, Nat.testBit_shiftLeft, Nat.testBit_shiftRight,
    Nat.testBit_mod_two_pow]
  by_cases hi : 8 ≤ i
  · have : 8 + (i - 8) = i := by omega
    simp [hi, this, show ¬ i < 8 by omega]
  · simp [hi, show i < 8 by omega]

theorem crc_index_lt (crc b : Nat) (hc : crc < 2 ^ 16) (hb : b < 256) :
    (crc >>> 8) ^^^ b < 256 := by
  have : crc >>> 8 < 2 ^ 8 := by
    rw [Nat.shiftRight_eq_div_pow]
    omega
  exact Nat.xor_lt_two_pow this (by simpa using hb)

theorem xor_shift_mod (t crc : Nat) (ht : t < 2 ^ 16) :
    (t ^^^ (crc <<< 8)) % 2 ^ 16 = t ^^^ ((crc % 2 ^ 8) * 2 ^ 8) := by
  apply Nat.eq_of_testBit_eq
  intro i
  simp only [← Nat.shiftLeft_eq, Nat.testBit_xor, Nat.testBit_shiftLeft,
    Nat.testBit_mod_two_pow]
  by_cases hi : i < 16
  · by_cases h8 : 8 ≤ i
    · simp [hi, h8, show i - 8 < 8 by omega]
    · simp [hi, h8]
  · have : t.testBit i = false :=
      Nat.testBit_lt_two_pow (lt_of_lt_of_le ht (Nat.pow_le_pow_right (by norm_num) (by omega)))
    simp [hi, this, show ¬ (i - 8 < 8) by omega]

/-- One table-driven step agrees with eight reference shifts. -/
theorem crcUpdate_eq_reference (crc b : Nat) (hc : crc < 2 ^ 16) (hb : b < 256) :
    crcUpdate generatedCrcTable crc b = crc16_reference_byte crc b := by
  have hidx := crc_index_lt crc b hc hb
  unfold crcUpdate crc16_reference_byte
  simp only []
  rw [Nat.mod_eq_of_lt (show (crc >>> 8 ^^^ b) < 2 ^ 8 from hidx), generatedCrcTable_getD _ hidx,
    xor_shift_mod _ _ (crc16_reference_shift_iter_lt 8 _ (by omega)),
    crc_split crc b, crc16_reference_shift_iter_xor,
    crc16_reference_shift_low (crc % 2 ^ 8) (Nat.mod_lt _ (by norm_num))]

theorem crc16_reference_byte_lt (crc b : Nat) : crc16_reference_byte crc b < 2 ^ 16 := by
  unfold crc16_reference_byte
  rw [show (8 : Nat) = 7 + 1 by rfl, Function.iterate_succ_apply']
  exact crc16_reference_shift_lt _

theorem foldl_crcUpdate_eq_reference (s : List Nat) (hs : ∀ b ∈ s, b < 256) :
    ∀ crc, crc < 2 ^ 16 →
      s.foldl (crcUpdate generatedCrcTable) crc = s.foldl crc16_reference_byte crc := by
  induction s with
  | nil => intro crc _; rfl
  | cons b s ih =>
    intro crc hc
    simp only [List.foldl_cons]
    rw [crcUpdate_eq_reference crc b hc (hs b (List.mem_cons_self _ _))]
    exact ih (fun x hx => hs x (List.mem_cons_of_mem _ hx)) _ (crc16_reference_byte_lt _ _)


set_option maxRecDepth 100000 in
/-- The check value of CRC-16/CCITT-FALSE. -/
theorem crc16_reference_check :
    crc16_reference [0x31, 0x32, 0x33, 0x34, 0x35, 0x36, 0x37, 0x38, 0x39] = 0x29B1 := by
  decide

theorem cobsDecodeLoop_data_length (ip : Bool) (B : List Nat) :
    ∀ n i D d code block, (cobsDecodeLoop ip B n i D d code block).1.length = D.length := by
  intro n
  induction n with
  | zero => intros; rfl
  | succ n ih =>
    intro i D d code block
    simp only [cobsDecodeLoop]
    split_ifs <;> simp [ih]

theorem cobsDecodeLoop_le (ip : Bool) (B : List Nat) :
    ∀ n i D d code block, (cobsDecodeLoop ip B n i D d code block).2 ≤ d + n := by
  intro n
  induction n with
  | zero => intros; simp [cobsDecodeLoop]
  | succ n ih =>
    intro i D d code block
    simp only [cobsDecodeLoop]
    split_ifs
    all_goals first
      | (refine le_trans (ih _ _ _ _ _) ?_; omega)
      | (simp only []; omega)

theorem rxDecoded_length (s : MUDL_Link) : (rxDecoded s).1.length = s.rxBuffer.length := by
  simp [rxDecoded, mudl_cobsDecodeInPlace, cobsDecodeLoop_data_length]

theorem rxDecoded_le (s : MUDL_Link) : (rxDecoded s).2 ≤ 255 := by
  have := cobsDecodeLoop_le true (s.rxBuffer.set s.rxBufferWp 0) 255 0
    (s.rxBuffer.set s.rxBufferWp 0) 0 255 0
  simpa [rxDecoded, mudl_cobsDecodeInPlace] using this

/-- What `rxByte` does with a delimiter that closes a frame of at least two payload bytes. -/
theorem rxByte_delimiter (micros : Nat → Nat) (g : Globals) (s : MUDL_Link)
    (hwp : s.rxBufferWp < 256) (hlen : s.rxBuffer.length = 256) (h3 : 3 ≤ (rxDecoded s).2) :
    rxByte micros g s 0 =
      if ((rxDecoded s).1.take ((rxDecoded s).2 - 3)).foldl (crcUpdate g.crcTable) initialValue
          = (((rxDecoded s).1.getD ((rxDecoded s).2 - 3) 0 <<< 8)
              ||| (rxDecoded s).1.getD ((rxDecoded s).2 - 2) 0) % 2 ^ 16 then
        (onPacketRx micros (microsBase64 micros g).1
          { s with rxBuffer := (rxDecoded s).1, rxBufferWp := s.rxBufferWp + 1
                   rxBufferLen := (rxDecoded s).2 - 1
                   lastEverIncoming := (microsBase64 micros g).2
                   stats := { s.stats with
                     rxSuccessCount := (s.stats.rxSuccessCount + 1) % 2 ^ 32 } }).bind
          (fun p => some (p.1, { p.2 with rxBufferLen := 0, rxBufferWp := 0 }))
      else
        some (g, { s with rxBuffer := (rxDecoded s).1, rxBufferLen := 0, rxBufferWp := 0
                          stats := { s.stats with
                            rxFailureCount := (s.stats.rxFailureCount + 1) % 2 ^ 32 } }) := by
  have hle := rxDecoded_le s
  have hdl := rxDecoded_length s
  have e1 : ((rxDecoded s).2 + (2 ^ 16 - 1)) % 2 ^ 16 = (rxDecoded s).2 - 1 := by omega
  have hwp1 : (s.rxBufferWp + 1) % 2 ^ 16 = s.rxBufferWp + 1 := by omega
  have hget : (s.rxBuffer.set s.rxBufferWp 0).getD s.rxBufferWp 0 = 0 := by
    rw [getD_set_eq, if_pos ⟨rfl, by omega⟩]
  have hrd : mudl_cobsDecodeInPlace (s.rxBuffer.set s.rxBufferWp 0) 255 = rxDecoded s := rfl
  have hwp2 : ¬ (s.rxBufferWp + 1 ≥ 256 * 2) := by omega
  have i1 : ((s.rxBufferWp + 1 : Nat) : Int) - 1 = (s.rxBufferWp : Int) := by omega
  have i2 : (((rxDecoded s).2 - 1 : Nat) : Int) - 2 = (((rxDecoded s).2 - 3 : Nat) : Int) := by
    omega
  have i3 : (((rxDecoded s).2 - 1 : Nat) : Int) - 1 = (((rxDecoded s).2 - 2 : Nat) : Int) := by
    omega
  have i4 : ((((rxDecoded s).2 - 3 : Nat) : Int) % 2 ^ 32).toNat = (rxDecoded s).2 - 3 := by
    omega
  have c1 : (0 : Int) ≤ (s.rxBufferWp : Int) ∧ (s.rxBufferWp : Int) < ((256 : Nat) : Int) :=
    ⟨by omega, by omega⟩
  have c2 : (0 : Int) ≤ (((rxDecoded s).2 - 3 : Nat) : Int) ∧
      (((rxDecoded s).2 - 3 : Nat) : Int) < ((256 : Nat) : Int) := ⟨by omega, by omega⟩
  have c3 : (0 : Int) ≤ (((rxDecoded s).2 - 2 : Nat) : Int) ∧
      (((rxDecoded s).2 - 2 : Nat) : Int) < ((256 : Nat) : Int) := ⟨by omega, by omega⟩
  have hcl : (rxDecoded s).2 - 3 ≤ (rxDecoded s).1.length := by omega
  unfold rxByte
  simp only [arrayStore, arrayLoad, MUDL_BUFFERS_SIZE, hwp, if_true, Option.bind_eq_bind,
    Option.some_bind, hwp1, hrd, e1, if_neg hwp2, i1, i2, i3, i4, c1, c2, c3, and_self,
    Int.toNat_ofNat, hget, crc16_ccitt, hcl]

theorem loopRx_append (micros : Nat → Nat) (xs ys : List Nat) :
    ∀ g s, loopRx micros g s (xs ++ ys)
      = (loopRx micros g s xs).bind (fun p => loopRx micros p.1 p.2 ys) := by
  induction xs with
  | nil => intro g s; simp [loopRx]
  | cons x xs ih =>
    intro g s
    simp only [List.cons_append, loopRx]
    cases h : rxByte micros g s x with
    | none => simp
    | some p => simp [ih]

/-- A byte that is not the delimiter is stored and the write pointer moves on. -/
theorem rxByte_nonzero (micros : Nat → Nat) (g : Globals) (s : MUDL_Link) (b : Nat)
    (hwp : s.rxBufferWp < 256) (hlen : s.rxBuffer.length = 256) (hb : b ≠ 0) :
    rxByte micros g s b
      = some (g, { s with rxBuffer := s.rxBuffer.set s.rxBufferWp b
                          rxBufferWp := s.rxBufferWp + 1 }) := by
  have hwp1 : (s.rxBufferWp + 1) % 2 ^ 16 = s.rxBufferWp + 1 := by omega
  have hwp2 : ¬ (s.rxBufferWp + 1 ≥ 256 * 2) := by omega
  have i1 : ((s.rxBufferWp + 1 : Nat) : Int) - 1 = (s.rxBufferWp : Int) := by omega
  have c1 : (0 : Int) ≤ (s.rxBufferWp : Int) ∧ (s.rxBufferWp : Int) < ((256 : Nat) : Int) :=
    ⟨by omega, by omega⟩
  have hget : (s.rxBuffer.set s.rxBufferWp b).getD s.rxBufferWp 0 = b := by
    rw [getD_set_eq, if_pos ⟨rfl, by omega⟩]
  unfold rxByte
  simp only [arrayStore, arrayLoad, MUDL_BUFFERS_SIZE, hwp, if_true, Option.bind_eq_bind,
    Option.some_bind, hwp1, if_neg hwp2, i1, c1, and_self, Int.toNat_ofNat, hget, if_neg hb]

theorem set_eq_take_cons_drop (l : List Nat) (i v : Nat) (h : i < l.length) :
    l.set i v = l.take i ++ v :: l.drop (i + 1) := by
  rw [List.set_eq_take_append_cons_drop, if_pos h]

/-- A run of non-zero bytes is copied into the receive buffer. -/
theorem loopRx_nonzero (micros : Nat → Nat) (bs : List Nat) :
    ∀ (g : Globals) (s : MUDL_Link), s.rxBuffer.length = 256 →
      s.rxBufferWp + bs.length ≤ 256 → (∀ b ∈ bs, b ≠ 0) →
      loopRx micros g s bs
        = some (g, { s with
            rxBuffer := s.rxBuffer.take s.rxBufferWp ++ bs
                          ++ s.rxBuffer.drop (s.rxBufferWp + bs.length)
            rxBufferWp := s.rxBufferWp + bs.length }) := by
  induction bs with
  | nil =>
    intro g s hlen _ _
    simp [loopRx]
  | cons b bs ih =>
    intro g s hlen hwp hnz
    simp only [List.length_cons] at hwp
    rw [loopRx, rxByte_nonzero micros g s b (by omega) hlen (hnz b (List.mem_cons_self _ _))]
    simp only []
    rw [ih _ _ (by simpa using hlen) (by simp only []; omega)
      (fun x hx => hnz x (List.mem_cons_of_mem _ hx))]
    simp only [Option.some.injEq, Prod.mk.injEq, true_and, MUDL_Link.mk.injEq, and_true,
      List.length_cons]
    refine ⟨?_, by omega⟩
    rw [List.take_succ, take_set_of_le _ _ _ _ (le_refl _),
      List.drop_set_of_lt _ _ (by omega)]
    have : (s.rxBuffer.set s.rxBufferWp b)[s.rxBufferWp]? = some b := by
      rw [List.getElem?_set_self (by omega)]
    rw [this]
    simp [Nat.add_assoc, Nat.add_comm 1]

theorem loopRx_single (micros : Nat → Nat) (g : Globals) (s : MUDL_Link) (b : Nat) :
    loopRx micros g s [b] = rxByte micros g s b := by
  simp only [loopRx]
  cases rxByte micros g s b <;> rfl

/-- The bytes the encoder returns are all non-zero. -/
theorem cobsEncodeLoop_take_nonzero (s buffer : List Nat)
    (hb : (cobsEncodeLoop s buffer 1 0 1).2 ≤ buffer.length) :
    ∀ x ∈ (cobsEncodeLoop s buffer 1 0 1).1.take (cobsEncodeLoop s buffer 1 0 1).2, x ≠ 0 := by
  intro x hmem hx
  subst hx
  obtain ⟨k, hk, hk0⟩ := List.getElem_of_mem hmem
  simp only [List.length_take, cobsEncodeLoop_length] at hk
  have hne := cobsEncodeLoop_nonzero s buffer 1 0 1 (by omega)
    (fun j hj hj0 => absurd (show j = 0 by omega) hj0) hb k (by omega)
  apply hne
  rw [List.getElem_take] at hk0
  rw [List.getD_eq_getElem?_getD, List.getElem?_eq_getElem (by rw [cobsEncodeLoop_length]; omega)]
  simpa using hk0

/-- In-place decoding of a receive buffer that holds an encoded payload and its delimiter. -/
theorem rxDecoded_frame (p txbuf out : List Nat) (n : Nat) (s : MUDL_Link)
    (hp : p.length ≤ 252) (hE : cobsEncodeLoop p txbuf 1 0 1 = (out, n))
    (htx : n ≤ txbuf.length) (hlen : s.rxBuffer.length = 256) (hwp : s.rxBufferWp = n)
    (hbuf : ∀ k, k < n → s.rxBuffer.getD k 0 = out.getD k 0) :
    (rxDecoded s).2 = p.length + 1 ∧ (rxDecoded s).1.take p.length = p ∧
      (rxDecoded s).1.length = 256 := by
  have hn : n = 1 + p.length := by
    have := cobsEncodeLoop_short p txbuf 1 0 1 (by omega)
    rw [hE] at this; exact this
  obtain ⟨h2, hl1, hl2, hpt⟩ := cobsDecodeLoop_inPlace (s.rxBuffer.set s.rxBufferWp 0)
    (s.rxBuffer.set s.rxBufferWp 0) 255 0 (s.rxBuffer.set s.rxBufferWp 0)
    (s.rxBuffer.set s.rxBufferWp 0) 0 255 0 rfl (fun _ _ => rfl) (fun _ _ => rfl) (le_refl 0)
    (fun _ => ⟨rfl, rfl⟩)
  obtain ⟨D', cf, hl, ht, hcf, hcf2, hrun⟩ :=
    cobs_decode_encoded (s.rxBuffer.set s.rxBufferWp 0) out n p txbuf
      (s.rxBuffer.set s.rxBufferWp 0) hE htx
      (fun k hk => by rw [getD_set_eq, if_neg (by omega)]; exact hbuf k hk)
      (by simp only [List.length_set]; omega)
  have hrun2 := hrun 255 (by omega)
  rw [show 255 - n = (254 - n) + 1 by omega,
    cobsDecodeLoop_next false _ (254 - n) n D' p.length cf
      (by have := hcf2 (by omega); omega)] at hrun2
  simp only [Bool.false_eq_true, if_false] at hrun2
  have hz : (s.rxBuffer.set s.rxBufferWp 0).getD n 0 = 0 := by
    rw [getD_set_eq, if_pos ⟨hwp, by omega⟩]
  rw [hz] at hrun2
  simp only [if_true] at hrun2
  rw [hrun2] at h2 hpt hl2
  simp only [rxDecoded, mudl_cobsDecodeInPlace]
  refine ⟨h2, ?_, by rw [hl1]; simpa using hlen⟩
  rw [take_eq_of_getD _ (D'.set p.length 0) p.length (by rw [hl1]; simp [hl])
    (fun k hk => hpt k (by rw [h2]; simp only []; omega)),
    take_set_of_le _ _ _ _ (le_refl _), ht]

/-- Feeding an encoded payload and its delimiter to a receiver whose buffer is empty ends in
the processing of the delimiter on a buffer that decodes to the payload. -/
theorem loopRx_frame (micros : Nat → Nat) (g : Globals) (s : MUDL_Link) (p txbuf : List Nat)
    (hp : p.length ≤ 252) (htx : txbuf.length = 256) (hlen : s.rxBuffer.length = 256)
    (hwp : s.rxBufferWp = 0) :
    ∃ s1 : MUDL_Link,
      s1 = { s with
        rxBuffer := (cobsEncodeLoop p txbuf 1 0 1).1.take (cobsEncodeLoop p txbuf 1 0 1).2
                      ++ s.rxBuffer.drop (cobsEncodeLoop p txbuf 1 0 1).2
        rxBufferWp := (cobsEncodeLoop p txbuf 1 0 1).2 } ∧
      loopRx micros g s
          ((cobsEncodeLoop p txbuf 1 0 1).1.take (cobsEncodeLoop p txbuf 1 0 1).2)
        = some (g, s1) ∧
      loopRx micros g s
          ((cobsEncodeLoop p txbuf 1 0 1).1.take (cobsEncodeLoop p txbuf 1 0 1).2 ++ [0])
        = rxByte micros g s1 0 ∧
      s1.rxBufferWp = p.length + 1 ∧ s1.rxBuffer.length = 256 ∧
      (rxDecoded s1).2 = p.length + 1 ∧ (rxDecoded s1).1.take p.length = p ∧
      (rxDecoded s1).1.length = 256 := by
  have hn : (cobsEncodeLoop p txbuf 1 0 1).2 = 1 + p.length :=
    cobsEncodeLoop_short p txbuf 1 0 1 (by omega)
  have hol : (cobsEncodeLoop p txbuf 1 0 1).1.length = 256 := by
    rw [cobsEncodeLoop_length, htx]
  have htl : ((cobsEncodeLoop p txbuf 1 0 1).1.take (cobsEncodeLoop p txbuf 1 0 1).2).length
      = 1 + p.length := by
    rw [List.length_take, hol, hn]; omega
  have hl1 : ((cobsEncodeLoop p txbuf 1 0 1).1.take (cobsEncodeLoop p txbuf 1 0 1).2
      ++ s.rxBuffer.drop (cobsEncodeLoop p txbuf 1 0 1).2).length = 256 := by
    rw [List.length_append, htl, List.length_drop, hlen, hn]; omega
  have htl2 : ((cobsEncodeLoop p txbuf 1 0 1).1.take (1 + p.length)).length
      = 1 + p.length := by rw [List.length_take, hol]; omega
  refine ⟨_, rfl, ?_, ?_, by simp only []; omega, hl1, ?_⟩
  · rw [loopRx_nonzero micros _ g s hlen (by rw [hwp, htl]; omega)
      (cobsEncodeLoop_take_nonzero p txbuf (by rw [hn, htx]; omega))]
    simp only [hwp, List.take_zero, List.nil_append, Nat.zero_add, hn, htl2]
  · rw [loopRx_append, loopRx_nonzero micros _ g s hlen (by rw [hwp, htl]; omega)
      (cobsEncodeLoop_take_nonzero p txbuf (by rw [hn, htx]; omega))]
    simp only [Option.some_bind, loopRx_single, hwp, List.take_zero, List.nil_append,
      Nat.zero_add, hn, htl2]
  · refine rxDecoded_frame p txbuf (cobsEncodeLoop p txbuf 1 0 1).1
      (cobsEncodeLoop p txbuf 1 0 1).2 _ hp rfl (by rw [hn, htx]; omega) hl1 rfl ?_
    intro k hk
    simp only []
    rw [List.getD_append _ _ _ _ (by rw [htl]; omega)]
    simp only [List.getD_eq_getElem?_getD, List.getElem?_take, if_pos hk]

theorem crcUpdate_lt (T : List Nat) (crc b : Nat) : crcUpdate T crc b < 2 ^ 16 := by
  unfold crcUpdate
  exact Nat.mod_lt _ (by norm_num)

theorem foldl_crcUpdate_lt (T : List Nat) (l : List Nat) :
    ∀ crc, crc < 2 ^ 16 → l.foldl (crcUpdate T) crc < 2 ^ 16 := by
  induction l with
  | nil => intro crc h; exact h
  | cons b l ih => intro crc _; exact ih _ (crcUpdate_lt T crc b)

theorem crc_hi_eq (crc : Nat) (h : crc < 2 ^ 16) : (crc >>> 8) % 2 ^ 8 = crc / 256 := by
  rw [Nat.shiftRight_eq_div_pow]
  omega

theorem crc_lo_eq (crc : Nat) : crc &&& 255 = crc % 256 :=
  Nat.and_pow_two_sub_one_eq_mod crc 8

/-- The receiver's big-endian reassembly of the two CRC bytes gives the CRC back. -/
theorem crc_big_endian (crc : Nat) (h : crc < 2 ^ 16) :
    (((crc / 256) <<< 8) ||| (crc % 256)) % 2 ^ 16 = crc := by
  apply Nat.eq_of_testBit_eq
  intro i
  rw [show crc / 256 = crc >>> 8 by rw [Nat.shiftRight_eq_div_pow],
    show crc % 256 = crc % 2 ^ 8 by norm_num]
  simp only [Nat.testBit_mod_two_pow, Nat.testBit_or, Nat.testBit_shiftLeft,
    Nat.testBit_shiftRight]
  by_cases hi : i < 16
  · by_cases h8 : 8 ≤ i
    · have : 8 + (i - 8) = i := by omega
      simp [hi, h8, this, show ¬ i < 8 by omega]
    · simp [hi, h8, show i < 8 by omega]
  · have : crc.testBit i = false :=
      Nat.testBit_lt_two_pow (lt_of_lt_of_le h (Nat.pow_le_pow_right (by norm_num) (by omega)))
    simp [hi, this]

theorem txTimeoutGenerator_fields (s : MUDL_Link) :
    (txTimeoutGenerator s).1.txBuffer = s.txBuffer ∧
    (txTimeoutGenerator s).1.txBufferLen = s.txBufferLen ∧
    (txTimeoutGenerator s).1.txBufferRp = s.txBufferRp ∧
    (txTimeoutGenerator s).1.outgoingMessageStash = s.outgoingMessageStash ∧
    (txTimeoutGenerator s).1.outgoingMessageStashLen = s.outgoingMessageStashLen := by
  unfold txTimeoutGenerator
  simp only []
  split_ifs <;> exact ⟨rfl, rfl, rfl, rfl, rfl⟩

/-- The four stores that append `ack_seq`, `our_seq` and the CRC to the outbound stash. -/
theorem stash_tail (st m : List Nat) (a q hi lo : Nat) (hst : st.take m.length = m)
    (hsl : m.length + 4 ≤ st.length) :
    ((st.set m.length a).set (m.length + 1) q).take (m.length + 2) = m ++ [a, q] ∧
    ((((st.set m.length a).set (m.length + 1) q).set (m.length + 2) hi).set
        (m.length + 3) lo).take (m.length + 4) = m ++ [a, q, hi, lo] := by
  have h1 : (st.set m.length a).take (m.length + 1) = m ++ [a] := by
    rw [take_succ_set _ _ _ (by omega), hst]
  have h2 : ((st.set m.length a).set (m.length + 1) q).take (m.length + 2) = m ++ [a, q] := by
    rw [take_succ_set _ _ _ (by simp only [List.length_set]; omega), h1]; simp
  refine ⟨h2, ?_⟩
  rw [take_succ_set _ _ _ (by simp only [List.length_set]; omega),
    take_succ_set _ _ _ (by simp only [List.length_set]; omega), h2]
  simp

/-- What `loadTxBufferFromStash` builds for a pending message `m`. -/
theorem loadTxBufferFromStash_frame (g : Globals) (s : MUDL_Link) (m : List Nat)
    (hm : m.length ≤ 248) (hl : s.outgoingMessageStashLen = m.length)
    (hst : s.outgoingMessageStash.take m.length = m)
    (hsl : s.outgoingMessageStash.length = 256) (htl : s.txBuffer.length = 256) :
    ∃ crc s1,
      crc = (m ++ [s.ackingSequenceNum, s.outgoingMessageSequenceNum]).foldl
              (crcUpdate g.crcTable) initialValue ∧
      loadTxBufferFromStash g s = some s1 ∧
      s1.txBufferLen = m.length + 6 ∧ s1.txBufferRp = 0 ∧
      s1.txBuffer.length = 256 ∧
      s1.txBuffer.take (m.length + 6)
        = (cobsEncodeLoop (m ++ [s.ackingSequenceNum, s.outgoingMessageSequenceNum,
              crc / 256, crc % 256]) s.txBuffer 1 0 1).1.take (m.length + 5) ++ [0] ∧
      s1.outgoingMessageStash.take (m.length + 4)
        = m ++ [s.ackingSequenceNum, s.outgoingMessageSequenceNum, crc / 256, crc % 256] ∧
      s1.outgoingMessageStashLen = m.length := by
  have hcrc : (m ++ [s.ackingSequenceNum, s.outgoingMessageSequenceNum]).foldl
      (crcUpdate g.crcTable) initialValue < 2 ^ 16 := foldl_crcUpdate_lt _ _ _ (by norm_num)
  generalize hc : (m ++ [s.ackingSequenceNum, s.outgoingMessageSequenceNum]).foldl
      (crcUpdate g.crcTable) initialValue = crc at hcrc
  obtain ⟨t2, t4⟩ := stash_tail s.outgoingMessageStash m s.ackingSequenceNum
    s.outgoingMessageSequenceNum (crc / 256) (crc % 256) hst (by omega)
  have hn : (cobsEncodeLoop (m ++ [s.ackingSequenceNum, s.outgoingMessageSequenceNum,
      crc / 256, crc % 256]) s.txBuffer 1 0 1).2 = m.length + 5 := by
    rw [cobsEncodeLoop_short _ _ _ _ _ (by simp; omega)]; simp; omega
  have g1 : m.length < 256 := by omega
  have g2 : m.length + 1 < 256 := by omega
  have g3 : m.length + 2 < 256 := by omega
  have g4 : m.length + 3 < 256 := by omega
  have g5 : m.length + 5 < 256 := by omega
  have g6 : m.length + 2 ≤ ((s.outgoingMessageStash.set m.length s.ackingSequenceNum).set
      (m.length + 1) s.outgoingMessageSequenceNum).length := by
    simp only [List.length_set]; omega
  have e6 : (m.length + 5 + 1) % 2 ^ 8 = m.length + 6 := by omega
  have hload : loadTxBufferFromStash g s = some
      { (txTimeoutGenerator { s with
            outgoingMessageStash :=
              (((s.outgoingMessageStash.set m.length s.ackingSequenceNum).set (m.length + 1)
                s.outgoingMessageSequenceNum).set (m.length + 2) (crc / 256)).set
                (m.length + 3) (crc % 256)
            txBuffer := (cobsEncodeLoop (m ++ [s.ackingSequenceNum,
              s.outgoingMessageSequenceNum, crc / 256, crc % 256]) s.txBuffer 1 0 1).1.set
                (m.length + 5) 0
            txBufferLen := m.length + 6
            txBufferRp := 0 }).1 with
        outgoingTimeoutLength := (txTimeoutGenerator { s with
            outgoingMessageStash :=
              (((s.outgoingMessageStash.set m.length s.ackingSequenceNum).set (m.length + 1)
                s.outgoingMessageSequenceNum).set (m.length + 2) (crc / 256)).set
                (m.length + 3) (crc % 256)
            txBuffer := (cobsEncodeLoop (m ++ [s.ackingSequenceNum,
              s.outgoingMessageSequenceNum, crc / 256, crc % 256]) s.txBuffer 1 0 1).1.set
                (m.length + 5) 0
            txBufferLen := m.length + 6
            txBufferRp := 0 }).2 } := by
    unfold loadTxBufferFromStash
    simp only [hl, arrayStore, MUDL_BUFFERS_SIZE, g1, g2, g3, g4, if_true, Option.bind_eq_bind,
      Option.some_bind, crc16_ccitt, g6, t2, hc, crc_hi_eq crc hcrc, crc_lo_eq,
      mudl_cobsEncode, t4, hn, g5, e6]
  refine ⟨crc, _, rfl, hload, ?_⟩
  obtain ⟨f1, f2, f3, f4, f5⟩ := txTimeoutGenerator_fields { s with
            outgoingMessageStash :=
              (((s.outgoingMessageStash.set m.length s.ackingSequenceNum).set (m.length + 1)
                s.outgoingMessageSequenceNum).set (m.length + 2) (crc / 256)).set
                (m.length + 3) (crc % 256)
            txBuffer := (cobsEncodeLoop (m ++ [s.ackingSequenceNum,
              s.outgoingMessageSequenceNum, crc / 256, crc % 256]) s.txBuffer 1 0 1).1.set
                (m.length + 5) 0
            txBufferLen := m.length + 6
            txBufferRp := 0 }
  simp only [] at f1 f2 f3 f4 f5 ⊢
  rw [f1, f2, f3, f4, f5]
  refine ⟨rfl, rfl, by simp [cobsEncodeLoop_length, htl], ?_, t4, hl⟩
  rw [take_succ_set _ _ _ (by rw [cobsEncodeLoop_length]; omega)]

/-- The effect of `onPacketRx` on a frame of at least four payload bytes. -/
theorem onPacketRx_spec (micros : Nat → Nat) (g : Globals) (s : MUDL_Link)
    (h4 : 4 ≤ s.rxBufferLen) (h256 : s.rxBufferLen ≤ 256) :
    ∃ g1 s1, onPacketRx micros g s = some (g1, s1) ∧
      g1.crcTable = g.crcTable ∧
      s1.rxBuffer = s.rxBuffer ∧ s1.rxBufferLen = s.rxBufferLen ∧
      s1.rxBufferWp = s.rxBufferWp ∧ s1.txBuffer = s.txBuffer ∧
      s1.outgoingMessageStash = s.outgoingMessageStash ∧
      s1.stats.rxSuccessCount = s.stats.rxSuccessCount ∧
      s1.stats.rxFailureCount = s.stats.rxFailureCount ∧
      (s.rxBuffer.getD (s.rxBufferLen - 4) 0 = s.outgoingMessageSequenceNum ∧
          s.outgoingMessageStashLen ≠ 0 →
        s1.stats.txSuccessCount = (s.stats.txSuccessCount + 1) % 2 ^ 32 ∧
        s1.outgoingMessageStashLen = 0 ∧ s1.outgoingLastTxTime = 0 ∧
        s1.outgoingRetryCount = 0) ∧
      (¬ (s.rxBuffer.getD (s.rxBufferLen - 4) 0 = s.outgoingMessageSequenceNum ∧
          s.outgoingMessageStashLen ≠ 0) →
        s1.stats.txSuccessCount = s.stats.txSuccessCount ∧
        s1.outgoingMessageStashLen = s.outgoingMessageStashLen ∧
        s1.outgoingLastTxTime = s.outgoingLastTxTime ∧
        s1.outgoingRetryCount = s.outgoingRetryCount) ∧
      (s.rxBufferLen ≤ 4 ∨ (s.incomingMessageSequenceNum = s.rxBuffer.getD (s.rxBufferLen - 3) 0
          ∧ s.incomingMessageStashLen ≠ 0) →
        s1.incomingMessageStash = s.incomingMessageStash ∧
        s1.incomingMessageStashLen = s.incomingMessageStashLen ∧
        s1.incomingMessageSequenceNum = s.incomingMessageSequenceNum ∧
        s1.ackRequired = s.ackRequired) ∧
      (4 < s.rxBufferLen → s.incomingMessageSequenceNum = s.rxBuffer.getD (s.rxBufferLen - 3) 0 →
          s.incomingMessageStashLen = 0 →
        s1.incomingMessageStash = s.incomingMessageStash ∧
        s1.incomingMessageStashLen = s.incomingMessageStashLen ∧
        s1.incomingMessageSequenceNum = s.incomingMessageSequenceNum ∧
        s1.ackRequired = true) ∧
      (4 < s.rxBufferLen → s.incomingMessageSequenceNum ≠ s.rxBuffer.getD (s.rxBufferLen - 3) 0 →
        s1.incomingMessageStash
          = memcpy s.incomingMessageStash s.rxBuffer ((s.rxBufferLen - 4) % 2 ^ 8) ∧
        s1.incomingMessageStashLen = (s.rxBufferLen - 4) % 2 ^ 8 ∧
        s1.incomingMessageSequenceNum = s.rxBuffer.getD (s.rxBufferLen - 3) 0 ∧
        s1.ackRequired = s.ackRequired) := by
  have i1 : ((s.rxBufferLen : Nat) : Int) - 4 = ((s.rxBufferLen - 4 : Nat) : Int) := by omega
  have i2 : ((s.rxBufferLen : Nat) : Int) - 3 = ((s.rxBufferLen - 3 : Nat) : Int) := by omega
  have c1 : (0 : Int) ≤ ((s.rxBufferLen - 4 : Nat) : Int) ∧
      ((s.rxBufferLen - 4 : Nat) : Int) < ((256 : Nat) : Int) := ⟨by omega, by omega⟩
  have c2 : (0 : Int) ≤ ((s.rxBufferLen - 3 : Nat) : Int) ∧
      ((s.rxBufferLen - 3 : Nat) : Int) < ((256 : Nat) : Int) := ⟨by omega, by omega⟩
  unfold onPacketRx
  simp only [arrayLoad, MUDL_BUFFERS_SIZE, i1, i2, c1, c2, and_self, if_true,
    Option.bind_eq_bind, Option.some_bind, Int.toNat_ofNat, resetAllOutgoingStates]
  by_cases hack : s.rxBuffer.getD (s.rxBufferLen - 4) 0 = s.outgoingMessageSequenceNum ∧
      s.outgoingMessageStashLen ≠ 0
  · rw [if_pos hack]
    simp only []
    by_cases hL : s.rxBufferLen > 4
    · rw [if_pos hL]
      by_cases hseq : s.incomingMessageSequenceNum = s.rxBuffer.getD (s.rxBufferLen - 3) 0
      · rw [if_pos hseq]
        by_cases hst : s.incomingMessageStashLen ≠ 0
        · rw [if_pos hst]
          exact ⟨_, _, rfl, rfl, rfl, rfl, rfl, rfl, rfl, rfl, rfl,
            fun _ => ⟨rfl, rfl, rfl, rfl⟩,
            fun h => absurd hack h,
            fun _ => ⟨rfl, rfl, rfl, rfl⟩,
            fun _ _ h => absurd h hst,
            fun _ h => absurd hseq h⟩
        · rw [if_neg hst]
          exact ⟨_, _, rfl, rfl, rfl, rfl, rfl, rfl, rfl, rfl, rfl,
            fun _ => ⟨rfl, rfl, rfl, rfl⟩,
            fun h => absurd hack h,
            fun h => h.elim (fun h1 => absurd hL (by omega)) (fun h1 => absurd h1.2 hst),
            fun _ _ _ => ⟨rfl, rfl, rfl, rfl⟩,
            fun _ h => absurd hseq h⟩
      · rw [if_neg hseq]
        exact ⟨_, _, rfl, rfl, rfl, rfl, rfl, rfl, rfl, rfl, rfl,
          fun _ => ⟨rfl, rfl, rfl, rfl⟩,
          fun h => absurd hack h,
          fun h => h.elim (fun h1 => absurd hL (by omega)) (fun h1 => absurd h1.1 hseq),
          fun _ h _ => absurd h hseq,
          fun _ _ => ⟨rfl, rfl, rfl, rfl⟩⟩
    · rw [if_neg hL]
      exact ⟨_, _, rfl, rfl, rfl, rfl, rfl, rfl, rfl, rfl, rfl,
        fun _ => ⟨rfl, rfl, rfl, rfl⟩,
        fun h => absurd hack h,
        fun _ => ⟨rfl, rfl, rfl, rfl⟩,
        fun h _ _ => absurd h hL,
        fun h _ => absurd h hL⟩
  · rw [if_neg hack]
    simp only []
    by_cases hL : s.rxBufferLen > 4
    · rw [if_pos hL]
      by_cases hseq : s.incomingMessageSequenceNum = s.rxBuffer.getD (s.rxBufferLen - 3) 0
      · rw [if_pos hseq]
        by_cases hst : s.incomingMessageStashLen ≠ 0
        · rw [if_pos hst]
          exact ⟨_, _, rfl, rfl, rfl, rfl, rfl, rfl, rfl, rfl, rfl,
            fun h => absurd h hack,
            fun _ => ⟨rfl, rfl, rfl, rfl⟩,
            fun _ => ⟨rfl, rfl, rfl, rfl⟩,
            fun _ _ h => absurd h hst,
            fun _ h => absurd hseq h⟩
        · rw [if_neg hst]
          exact ⟨_, _, rfl, rfl, rfl, rfl, rfl, rfl, rfl, rfl, rfl,
            fun h => absurd h hack,
            fun _ => ⟨rfl, rfl, rfl, rfl⟩,
            fun h => h.elim (fun h1 => absurd hL (by omega)) (fun h1 => absurd h1.2 hst),
            fun _ _ _ => ⟨rfl, rfl, rfl, rfl⟩,
            fun _ h => absurd hseq h⟩
      · rw [if_neg hseq]
        exact ⟨_, _, rfl, rfl, rfl, rfl, rfl, rfl, rfl, rfl, rfl,
          fun h => absurd h hack,
          fun _ => ⟨rfl, rfl, rfl, rfl⟩,
          fun h => h.elim (fun h1 => absurd hL (by omega)) (fun h1 => absurd h1.1 hseq),
          fun _ h _ => absurd h hseq,
          fun _ _ => ⟨rfl, rfl, rfl, rfl⟩⟩
    · rw [if_neg hL]
      exact ⟨_, _, rfl, rfl, rfl, rfl, rfl, rfl, rfl, rfl, rfl,
        fun h => absurd h hack,
        fun _ => ⟨rfl, rfl, rfl, rfl⟩,
        fun _ => ⟨rfl, rfl, rfl, rfl⟩,
        fun h _ _ => absurd h hL,
        fun h _ => absurd h hL⟩

theorem rxCrcOk_iff (g : Globals) (s : MUDL_Link) (hlen : s.rxBuffer.length = 256) :
    rxCrcOk g s ↔
      ((rxDecoded s).1.take ((rxDecoded s).2 - 3)).foldl (crcUpdate g.crcTable) initialValue
        = (((rxDecoded s).1.getD ((rxDecoded s).2 - 3) 0 <<< 8)
            ||| (rxDecoded s).1.getD ((rxDecoded s).2 - 2) 0) % 2 ^ 16 := by
  have hle := rxDecoded_le s
  have hdl := rxDecoded_length s
  have e1 : (rxDecoded s).2 - 1 - 2 = (rxDecoded s).2 - 3 := by omega
  have e2 : (rxDecoded s).2 - 1 - 1 = (rxDecoded s).2 - 2 := by omega
  have hcl : (rxDecoded s).2 - 3 ≤ (rxDecoded s).1.length := by omega
  unfold rxCrcOk rxPayloadLen crc16_ccitt
  rw [e1, e2, if_pos hcl]
  exact Option.some_inj

/-- A delimiter that closes a CRC-valid frame of at least four payload bytes: the frame is
counted, time-stamped and processed. -/
theorem rxByte_valid (micros : Nat → Nat) (g : Globals) (s : MUDL_Link)
    (hwp : s.rxBufferWp < 256) (hlen : s.rxBuffer.length = 256)
    (hL : 4 ≤ rxPayloadLen s) (hcrc : rxCrcOk g s) :
    ∃ g1 s1, rxByte micros g s 0 = some (g1, s1) ∧
      g1.crcTable = g.crcTable ∧
      s1.rxBuffer = (rxDecoded s).1 ∧ s1.rxBufferLen = 0 ∧ s1.rxBufferWp = 0 ∧
      s1.txBuffer = s.txBuffer ∧
      s1.outgoingMessageStash = s.outgoingMessageStash ∧
      s1.stats.rxSuccessCount = (s.stats.rxSuccessCount + 1) % 2 ^ 32 ∧
      s1.stats.rxFailureCount = s.stats.rxFailureCount ∧
      (((rxDecoded s).1.getD (rxPayloadLen s - 4) 0 = s.outgoingMessageSequenceNum ∧
          s.outgoingMessageStashLen ≠ 0 →
        s1.stats.txSuccessCount = (s.stats.txSuccessCount + 1) % 2 ^ 32 ∧
        s1.outgoingMessageStashLen = 0 ∧ s1.outgoingLastTxTime = 0 ∧
        s1.outgoingRetryCount = 0) ∧
      (¬ ((rxDecoded s).1.getD (rxPayloadLen s - 4) 0 = s.outgoingMessageSequenceNum ∧
          s.outgoingMessageStashLen ≠ 0) →
        s1.stats.txSuccessCount = s.stats.txSuccessCount ∧
        s1.outgoingMessageStashLen = s.outgoingMessageStashLen ∧
        s1.outgoingLastTxTime = s.outgoingLastTxTime ∧
        s1.outgoingRetryCount = s.outgoingRetryCount)) ∧
      ((rxPayloadLen s ≤ 4 ∨
          (s.incomingMessageSequenceNum = (rxDecoded s).1.getD (rxPayloadLen s - 3) 0
          ∧ s.incomingMessageStashLen ≠ 0) →
        s1.incomingMessageStash = s.incomingMessageStash ∧
        s1.incomingMessageStashLen = s.incomingMessageStashLen ∧
        s1.incomingMessageSequenceNum = s.incomingMessageSequenceNum ∧
        s1.ackRequired = s.ackRequired) ∧
      (4 < rxPayloadLen s →
          s.incomingMessageSequenceNum = (rxDecoded s).1.getD (rxPayloadLen s - 3) 0 →
          s.incomingMessageStashLen = 0 →
        s1.incomingMessageStash = s.incomingMessageStash ∧
        s1.incomingMessageStashLen = s.incomingMessageStashLen ∧
        s1.incomingMessageSequenceNum = s.incomingMessageSequenceNum ∧
        s1.ackRequired = true) ∧
      (4 < rxPayloadLen s →
          s.incomingMessageSequenceNum ≠ (rxDecoded s).1.getD (rxPayloadLen s - 3) 0 →
        s1.incomingMessageStash
          = memcpy s.incomingMessageStash (rxDecoded s).1 ((rxPayloadLen s - 4) % 2 ^ 8) ∧
        s1.incomingMessageStashLen = (rxPayloadLen s - 4) % 2 ^ 8 ∧
        s1.incomingMessageSequenceNum = (rxDecoded s).1.getD (rxPayloadLen s - 3) 0 ∧
        s1.ackRequired = s.ackRequired)) := by
  have hle := rxDecoded_le s
  have hL2 : 4 ≤ (rxDecoded s).2 - 1 := hL
  rw [rxByte_delimiter micros g s hwp hlen (by omega), if_pos ((rxCrcOk_iff g s hlen).mp hcrc)]
  obtain ⟨g1, s1, hrun, hg, h1, h2, h3, h4, h5, h6, h7, h8, h9, h10, h11, h12⟩ :=
    onPacketRx_spec micros (microsBase64 micros g).1
      { s with rxBuffer := (rxDecoded s).1, rxBufferWp := s.rxBufferWp + 1
               rxBufferLen := (rxDecoded s).2 - 1
               lastEverIncoming := (microsBase64 micros g).2
               stats := { s.stats with
                 rxSuccessCount := (s.stats.rxSuccessCount + 1) % 2 ^ 32 } }
      (by simp only []; omega) (by simp only []; omega)
  rw [hrun]
  simp only [] at hg h1 h2 h3 h4 h5 h6 h7 h8 h9 h10 h11 h12
  refine ⟨g1, { s1 with rxBufferLen := 0, rxBufferWp := 0 }, rfl, hg, h1, rfl, rfl, h4, h5, h6,
    h7, ⟨h8, h9⟩, h10, h11, h12⟩

theorem payload_parts (D m : List Nat) (a q hi lo : Nat)
    (hD : D.take (m.length + 4) = m ++ [a, q, hi, lo]) :
    D.take (m.length + 2) = m ++ [a, q] ∧ D.take m.length = m ∧
    D.getD m.length 0 = a ∧ D.getD (m.length + 1) 0 = q ∧
    D.getD (m.length + 2) 0 = hi ∧ D.getD (m.length + 3) 0 = lo := by
  have h2 : D.take (m.length + 2) = (D.take (m.length + 4)).take (m.length + 2) := by
    rw [List.take_take]; congr 1; omega
  have h0 : D.take m.length = (D.take (m.length + 4)).take m.length := by
    rw [List.take_take]; congr 1; omega
  have hg : ∀ k, k < m.length + 4 → D.getD k 0 = (m ++ [a, q, hi, lo]).getD k 0 :=
    fun k hk => getD_of_take_eq D _ _ k hD hk
  refine ⟨?_, ?_, ?_, ?_, ?_, ?_⟩
  · rw [h2, hD, List.take_append_eq_append_take]
    simp
  · rw [h0, hD, List.take_append_eq_append_take]
    simp
  · rw [hg _ (by omega), List.getD_append_right _ _ _ _ (le_refl _)]; simp
  · rw [hg _ (by omega), List.getD_append_right _ _ _ _ (by omega)]; simp
  · rw [hg _ (by omega), List.getD_append_right _ _ _ _ (by omega)]; simp
  · rw [hg _ (by omega), List.getD_append_right _ _ _ _ (by omega)]; simp

/-- Reception of a data frame built from a message `m`, the acknowledgement `a`, the sequence
number `q` and the CRC computed with the receiver's table. -/
theorem loopRx_data_frame (micros : Nat → Nat) (g : Globals) (r : MUDL_Link)
    (m txbuf : List Nat) (a q : Nat) (hm1 : 1 ≤ m.length) (hm2 : m.length ≤ 248)
    (htx : txbuf.length = 256) (hlen : r.rxBuffer.length = 256) (hwp : r.rxBufferWp = 0) :
    ∃ g1 r1 s1,
      loopRx micros g r
        ((cobsEncodeLoop (m ++ [a, q,
            (m ++ [a, q]).foldl (crcUpdate g.crcTable) initialValue / 256,
            (m ++ [a, q]).foldl (crcUpdate g.crcTable) initialValue % 256])
          txbuf 1 0 1).1.take (m.length + 5) ++ [0]) = some (g1, r1) ∧
      loopRx micros g r
        ((cobsEncodeLoop (m ++ [a, q,
            (m ++ [a, q]).foldl (crcUpdate g.crcTable) initialValue / 256,
            (m ++ [a, q]).foldl (crcUpdate g.crcTable) initialValue % 256])
          txbuf 1 0 1).1.take (m.length + 5)) = some (g, s1) ∧
      s1.rxBuffer.length = 256 ∧ s1.rxBufferWp = m.length + 5 ∧
      rxByte micros g s1 0 = some (g1, r1) ∧
      rxPayloadLen s1 = m.length + 4 ∧ rxCrcOk g s1 ∧
      (rxDecoded s1).1.take (m.length + 4) = m ++ [a, q,
            (m ++ [a, q]).foldl (crcUpdate g.crcTable) initialValue / 256,
            (m ++ [a, q]).foldl (crcUpdate g.crcTable) initialValue % 256] ∧
      g1.crcTable = g.crcTable ∧
      r1.rxBuffer.length = 256 ∧ r1.rxBufferWp = 0 ∧
      r1.stats.rxSuccessCount = (r.stats.rxSuccessCount + 1) % 2 ^ 32 ∧
      r1.stats.rxFailureCount = r.stats.rxFailureCount ∧
      (r.incomingMessageSequenceNum ≠ q →
        r1.incomingMessageStash = m ++ r.incomingMessageStash.drop m.length ∧
        r1.incomingMessageStashLen = m.length ∧
        r1.incomingMessageSequenceNum = q ∧ r1.ackRequired = r.ackRequired) ∧
      (r.incomingMessageSequenceNum = q →
        r1.incomingMessageStash = r.incomingMessageStash ∧
        r1.incomingMessageStashLen = r.incomingMessageStashLen ∧
        r1.incomingMessageSequenceNum = q ∧
        r1.ackRequired = (if r.incomingMessageStashLen = 0 then true else r.ackRequired)) := by
  have hcrc : (m ++ [a, q]).foldl (crcUpdate g.crcTable) initialValue < 2 ^ 16 :=
    foldl_crcUpdate_lt _ _ _ (by norm_num)
  generalize hc : (m ++ [a, q]).foldl (crcUpdate g.crcTable) initialValue = crc at hcrc
  have hpl : (m ++ [a, q, crc / 256, crc % 256]).length = m.length + 4 := by simp
  have hn : (cobsEncodeLoop (m ++ [a, q, crc / 256, crc % 256]) txbuf 1 0 1).2
      = m.length + 5 := by
    rw [cobsEncodeLoop_short _ _ _ _ _ (by rw [hpl]; omega), hpl]; omega
  obtain ⟨s1, hs1, hpre, hrun, hw1, hl1, hd2, hdt, hdl⟩ :=
    loopRx_frame micros g r (m ++ [a, q, crc / 256, crc % 256]) txbuf (by rw [hpl]; omega) htx
      hlen hwp
  rw [hn] at hrun hpre
  rw [hpl] at hw1 hd2 hdt
  obtain ⟨p2, p0, pa, pq, phi, plo⟩ := payload_parts _ m a q _ _ hdt
  have hPL : rxPayloadLen s1 = m.length + 4 := by unfold rxPayloadLen; rw [hd2]; rfl
  have hok : rxCrcOk g s1 := by
    rw [rxCrcOk_iff g s1 hl1, hd2,
      show m.length + 4 + 1 - 3 = m.length + 2 by omega,
      show m.length + 4 + 1 - 2 = m.length + 3 by omega, p2, hc, phi, plo,
      crc_big_endian crc hcrc]
  obtain ⟨g1, r1, hrx, hg, h1, _, h3, _, _, h6, h7, _, h10, h11, h12⟩ :=
    rxByte_valid micros g s1 (by omega) hl1 (by omega) hok
  rw [hPL] at h10 h11 h12
  rw [show m.length + 4 - 3 = m.length + 1 by omega, pq] at h10 h11 h12
  rw [show (m.length + 4 - 4) % 2 ^ 8 = m.length by omega] at h12
  have hf : ∀ x : MUDL_Link, x = s1 →
      x.incomingMessageStash = r.incomingMessageStash ∧
      x.incomingMessageStashLen = r.incomingMessageStashLen ∧
      x.incomingMessageSequenceNum = r.incomingMessageSequenceNum ∧
      x.ackRequired = r.ackRequired ∧ x.stats = r.stats := by
    intro x hx; rw [hx, hs1]; exact ⟨rfl, rfl, rfl, rfl, rfl⟩
  obtain ⟨f1, f2, f3, f4, f5⟩ := hf s1 rfl
  simp only [f1, f2, f3, f4] at h10 h11 h12
  rw [f5] at h6 h7
  refine ⟨g1, r1, s1, by rw [hrun, hrx], hpre, hl1, by omega, hrx, hPL, hok, hdt, hg,
    by rw [h1]; exact hdl, h3, h6, h7, ?_, ?_⟩
  · intro hne
    obtain ⟨e1, e2, e3, e4⟩ := h12 (by omega) hne
    refine ⟨?_, e2, e3, e4⟩
    rw [e1, memcpy, p0]
  · intro heq
    by_cases hst : r.incomingMessageStashLen = 0
    · obtain ⟨e1, e2, e3, e4⟩ := h11 (by omega) heq hst
      rw [if_pos hst]
      exact ⟨e1, e2, by rw [e3, heq], e4⟩
    · obtain ⟨e1, e2, e3, e4⟩ := h10 (Or.inr ⟨heq, hst⟩)
      rw [if_neg hst]
      exact ⟨e1, e2, by rw [e3, heq], e4⟩

theorem txPushLoop_txBuffer (k : Nat) :
    ∀ (s : MUDL_Link) (out : List Nat), (txPushLoop k s out).1.txBuffer = s.txBuffer := by
  induction k with
  | zero => intro s out; rfl
  | succ k ih =>
    intro s out
    simp only [txPushLoop]
    split_ifs
    · rfl
    · rw [ih]

theorem loopTxPush_txBuffer (s : MUDL_Link) (fifoAvail : Nat) :
    (loopTxPush s fifoAvail).1.txBuffer = s.txBuffer := by
  unfold loopTxPush
  split_ifs
  · exact txPushLoop_txBuffer _ _ _
  · rfl

theorem txPushLoop_stash (k : Nat) :
    ∀ (s : MUDL_Link) (out : List Nat),
      (txPushLoop k s out).1.outgoingMessageStash = s.outgoingMessageStash := by
  induction k with
  | zero => intro s out; rfl
  | succ k ih =>
    intro s out
    simp only [txPushLoop]
    split_ifs
    · rfl
    · rw [ih]

theorem loopTxPush_stash (s : MUDL_Link) (fifoAvail : Nat) :
    (loopTxPush s fifoAvail).1.outgoingMessageStash = s.outgoingMessageStash := by
  unfold loopTxPush
  split_ifs
  · exact txPushLoop_stash _ _ _
  · rfl

/-- The first branch of the TX section: a pending message that has not been sent yet is
loaded as a data frame. -/
theorem loopTxLoad_data (micros : Nat → Nat) (g : Globals) (s : MUDL_Link) (m : List Nat)
    (hwf : s.WF) (htx : s.txBufferLen = 0) (hm1 : 1 ≤ m.length) (hm2 : m.length ≤ 248)
    (hlen : s.outgoingMessageStashLen = m.length)
    (hst : s.outgoingMessageStash.take m.length = m) (hlast : s.outgoingLastTxTime = 0) :
    ∃ crc g1 s1,
      crc16_ccitt g.crcTable (m ++ [s.ackingSequenceNum, s.outgoingMessageSequenceNum])
        (m.length + 2) = some crc ∧
      loopTxLoad micros g s = some (g1, s1) ∧
      s1.txBufferLen = m.length + 6 ∧ s1.txBufferRp = 0 ∧
      (mudl_cobsEncode (m ++ [s.ackingSequenceNum, s.outgoingMessageSequenceNum,
          crc / 256, crc % 256]) (m.length + 4) s.txBuffer).2 = m.length + 5 ∧
      s1.txBuffer.take (m.length + 6)
        = (mudl_cobsEncode (m ++ [s.ackingSequenceNum, s.outgoingMessageSequenceNum,
              crc / 256, crc % 256]) (m.length + 4) s.txBuffer).1.take (m.length + 5) ++ [0] ∧
      s1.outgoingMessageStash.take (m.length + 4)
        = m ++ [s.ackingSequenceNum, s.outgoingMessageSequenceNum, crc / 256, crc % 256] := by
  obtain ⟨_, hsl, _, htl⟩ := hwf
  obtain ⟨crc, s1, hcrc, hload, h1, h2, _, h4, h5, _⟩ :=
    loadTxBufferFromStash_frame (microsBase64 micros g).1
      { s with outgoingLastTxTime := (microsBase64 micros g).2 % 2 ^ 32 } m hm2 hlen hst hsl htl
  simp only [] at hcrc h4 h5
  have hpl : (m ++ [s.ackingSequenceNum, s.outgoingMessageSequenceNum,
      crc / 256, crc % 256]).length = m.length + 4 := by simp
  have henc : mudl_cobsEncode (m ++ [s.ackingSequenceNum, s.outgoingMessageSequenceNum,
      crc / 256, crc % 256]) (m.length + 4) s.txBuffer
      = cobsEncodeLoop (m ++ [s.ackingSequenceNum, s.outgoingMessageSequenceNum,
          crc / 256, crc % 256]) s.txBuffer 1 0 1 := by
    unfold mudl_cobsEncode
    rw [← hpl, List.take_length]
  refine ⟨crc, (microsBase64 micros g).1,
    { s1 with ackRequired := false, lastEverOutgoing := (microsBase64 micros g).2 % 2 ^ 32 },
    ?_, ?_, h1, h2, ?_, ?_, h5⟩
  · unfold crc16_ccitt
    rw [if_pos (by simp), hcrc]
    congr 2
    have : (m ++ [s.ackingSequenceNum, s.outgoingMessageSequenceNum]).length
        = m.length + 2 := by simp
    rw [← this, List.take_length]
  · unfold loopTxLoad
    have hne : s.outgoingMessageStashLen ≠ 0 := by omega
    simp only []
    rw [if_pos htx, if_pos ⟨hne, hlast⟩]
    simp only [Option.bind_eq_bind, hload, Option.some_bind]
  · rw [henc, cobsEncodeLoop_short _ _ _ _ _ (by rw [hpl]; omega), hpl]; omega
  · rw [henc]; exact h4

/-- A tick whose TX section finds a pending, unsent message loads its data frame. -/
theorem loop_data (micros : Nat → Nat) (g : Globals) (s : MUDL_Link) (rx : List Nat)
    (fifoAvail : Nat) (g0 : Globals) (s0 : MUDL_Link) (m : List Nat)
    (hrx : loopRx micros g s rx = some (g0, s0))
    (hwf : s0.WF) (htx : s0.txBufferLen = 0) (hm1 : 1 ≤ m.length) (hm2 : m.length ≤ 248)
    (hlen : s0.outgoingMessageStashLen = m.length)
    (hst : s0.outgoingMessageStash.take m.length = m) (hlast : s0.outgoingLastTxTime = 0) :
    ∃ crc g1 sl s1 out,
      crc16_ccitt g0.crcTable (m ++ [s0.ackingSequenceNum, s0.outgoingMessageSequenceNum])
        (m.length + 2) = some crc ∧
      loopTxLoad micros g0 s0 = some (g1, sl) ∧
      sl.txBufferLen = m.length + 6 ∧ sl.txBufferRp = 0 ∧
      loop micros g s rx fifoAvail = some (g1, s1, out) ∧
      (mudl_cobsEncode (m ++ [s0.ackingSequenceNum, s0.outgoingMessageSequenceNum,
          crc / 256, crc % 256]) (m.length + 4) s0.txBuffer).2 = m.length + 5 ∧
      s1.txBuffer.take (m.length + 6)
        = (mudl_cobsEncode (m ++ [s0.ackingSequenceNum, s0.outgoingMessageSequenceNum,
              crc / 256, crc % 256]) (m.length + 4) s0.txBuffer).1.take (m.length + 5) ++ [0] ∧
      s1.outgoingMessageStash.take (m.length + 4)
        = m ++ [s0.ackingSequenceNum, s0.outgoingMessageSequenceNum, crc / 256, crc % 256] := by
  obtain ⟨crc, g1, sl, hcrc, hload, h1, h2, h3, h4, h5⟩ :=
    loopTxLoad_data micros g0 s0 m hwf htx hm1 hm2 hlen hst hlast
  refine ⟨crc, g1, sl, (loopTxPush sl fifoAvail).1, (loopTxPush sl fifoAvail).2, hcrc, hload,
    h1, h2, ?_, h3, ?_, ?_⟩
  · unfold loop
    simp only [hrx, hload, Option.bind_eq_bind, Option.some_bind]
  · rw [loopTxPush_txBuffer]; exact h4
  · rw [loopTxPush_stash]; exact h5

/-- The same data frame arriving again and again at a receiver that already holds its
sequence number: the inbound stash stays as it is. -/
theorem loopRx_data_frame_repeat (micros : Nat → Nat) (T : List Nat)
    (m txbuf : List Nat) (a q : Nat) (hm1 : 1 ≤ m.length) (hm2 : m.length ≤ 248)
    (htx : txbuf.length = 256) (N : Nat) :
    ∀ (g : Globals) (r : MUDL_Link), g.crcTable = T → r.rxBuffer.length = 256 →
      r.rxBufferWp = 0 → r.incomingMessageSequenceNum = q →
      ∃ g1 r1,
        loopRx micros g r (List.replicate N
          ((cobsEncodeLoop (m ++ [a, q,
              (m ++ [a, q]).foldl (crcUpdate T) initialValue / 256,
              (m ++ [a, q]).foldl (crcUpdate T) initialValue % 256])
            txbuf 1 0 1).1.take (m.length + 5) ++ [0])).flatten = some (g1, r1) ∧
        g1.crcTable = T ∧ r1.rxBuffer.length = 256 ∧ r1.rxBufferWp = 0 ∧
        r1.incomingMessageStash = r.incomingMessageStash ∧
        r1.incomingMessageStashLen = r.incomingMessageStashLen ∧
        r1.incomingMessageSequenceNum = q := by
  induction N with
  | zero =>
    intro g r hT hlen hwp hq
    exact ⟨g, r, by simp [loopRx], hT, hlen, hwp, rfl, rfl, hq⟩
  | succ N ih =>
    intro g r hT hlen hwp hq
    obtain ⟨g1, r1, _, hrun, _, _, _, _, _, _, _, hg1, hl1, hw1, _, _, _, hdup⟩ :=
      loopRx_data_frame micros g r m txbuf a q hm1 hm2 htx hlen hwp
    rw [hT] at hrun hg1
    obtain ⟨e1, e2, e3, _⟩ := hdup hq
    obtain ⟨g2, r2, hrun2, hg2, hl2, hw2, f1, f2, f3⟩ := ih g1 r1 hg1 hl1 hw1 e3
    refine ⟨g2, r2, ?_, hg2, hl2, hw2, by rw [f1, e1], by rw [f2, e2], f3⟩
    rw [List.replicate_succ, List.flatten_cons, loopRx_append, hrun]
    exact hrun2

/-- The fresh engine after `send([1, 2, 3])`. -/
theorem send_fresh (baud : Nat) (mc : Nat → Nat) (gg : Globals) :
    (send mc gg (MUDL_Link.new baud) [1, 2, 3] 3).2.WF ∧
    (send mc gg (MUDL_Link.new baud) [1, 2, 3] 3).2.outgoingMessageStash.take 3 = [1, 2, 3] := by
  have h1 : (send mc gg (MUDL_Link.new baud) [1, 2, 3] 3).2.outgoingMessageStash
      = [1, 2, 3] ++ (List.replicate 256 0).drop 3 := rfl
  have h2 : (send mc gg (MUDL_Link.new baud) [1, 2, 3] 3).2.incomingMessageStash
      = List.replicate 256 0 := rfl
  have h3 : (send mc gg (MUDL_Link.new baud) [1, 2, 3] 3).2.rxBuffer
      = List.replicate 256 0 := rfl
  have h4 : (send mc gg (MUDL_Link.new baud) [1, 2, 3] 3).2.txBuffer
      = List.replicate 256 0 := rfl
  refine ⟨⟨?_, ?_, ?_, ?_⟩, ?_⟩
  · rw [h2, List.length_replicate]
  · rw [h1, List.length_append, List.length_drop, List.length_replicate]; rfl
  · rw [h3, List.length_replicate]
  · rw [h4, List.length_replicate]
  · rw [h1]; exact List.take_left' rfl

/-- One call of `microsBase64` while the overflow counter stays below `2 ^ 32`. -/
theorem microsBase64_step (micros : Nat → Nat) (g : Globals)
    (ho : g.overflows + (if micros g.microsCalls % 2 ^ 32 < g.lastMicros then 1 else 0)
      < 2 ^ 32) :
    (microsBase64 micros g).1.lastMicros = micros g.microsCalls % 2 ^ 32 ∧
    (microsBase64 micros g).1.lastMicros < 2 ^ 32 ∧
    (microsBase64 micros g).1.overflows
      = g.overflows + (if micros g.microsCalls % 2 ^ 32 < g.lastMicros then 1 else 0) ∧
    (microsBase64 micros g).2
      = ((microsBase64 micros g).1.overflows <<< 32) ||| (microsBase64 micros g).1.lastMicros ∧
    (microsBase64 micros g).2
      = 2 ^ 32 * (microsBase64 micros g).1.overflows + (microsBase64 micros g).1.lastMicros := by
  have hcur : micros g.microsCalls % 2 ^ 32 < 2 ^ 32 := Nat.mod_lt _ (by norm_num)
  have hov : (microsBase64 micros g).1.overflows
      = g.overflows + (if micros g.microsCalls % 2 ^ 32 < g.lastMicros then 1 else 0) := by
    unfold microsBase64
    simp only []
    split_ifs with h
    · rw [if_pos h] at ho; omega
    · rfl
  have hlt : (microsBase64 micros g).1.overflows < 2 ^ 32 := by rw [hov]; exact ho
  have hval : (microsBase64 micros g).2
      = ((microsBase64 micros g).1.overflows <<< 32) ||| (microsBase64 micros g).1.lastMicros := by
    have hm : ((microsBase64 micros g).1.overflows <<< 32) % 2 ^ 64
        = (microsBase64 micros g).1.overflows <<< 32 := by
      rw [Nat.shiftLeft_eq]
      apply Nat.mod_eq_of_lt
      calc (microsBase64 micros g).1.overflows * 2 ^ 32 < 2 ^ 32 * 2 ^ 32 :=
            Nat.mul_lt_mul_of_pos_right hlt (by norm_num)
        _ = 2 ^ 64 := by norm_num
    rw [← hm]
    rfl
  refine ⟨rfl, hcur, hov, hval, ?_⟩
  rw [hval, Nat.shiftLeft_eq, Nat.mul_comm]
  exact (Nat.mul_add_lt_is_or (show (microsBase64 micros g).1.lastMicros < 2 ^ 32 from hcur)
    _).symm

theorem microsDecreases_succ (micros : Nat → Nat) (n : Nat) (g : Globals) :
    microsDecreases micros (n + 1) g
      = (if micros g.microsCalls % 2 ^ 32 < g.lastMicros then 1 else 0)
        + microsDecreases micros n (microsBase64 micros g).1 := rfl

/-- The bound on the overflow counter is kept along the calls. -/
theorem microsBase64Iter_bound (micros : Nat → Nat) (k : Nat) :
    ∀ (g : Globals) (r : Nat), g.overflows + microsDecreases micros (k + r) g < 2 ^ 32 →
      (microsBase64Iter micros k g).overflows
        + microsDecreases micros r (microsBase64Iter micros k g) < 2 ^ 32 := by
  induction k with
  | zero => intro g r h; simpa [microsBase64Iter] using h
  | succ k ih =>
    intro g r h
    rw [show k + 1 + r = (k + r) + 1 by omega, microsDecreases_succ] at h
    have hs := microsBase64_step micros g (by omega)
    simp only [microsBase64Iter]
    apply ih
    rw [hs.2.2.1]
    omega

/-- Two successive calls of `microsBase64`. -/
theorem microsBase64_pair (micros : Nat → Nat) (g : Globals)
    (hdec : g.overflows + microsDecreases micros 2 g < 2 ^ 32) :
    (microsBase64 micros g).2
      = ((microsBase64 micros g).1.overflows <<< 32) ||| (microsBase64 micros g).1.lastMicros ∧
    (microsBase64 micros g).2 ≤ (microsBase64 micros (microsBase64 micros g).1).2 ∧
    ((microsBase64 micros (microsBase64 micros g).1).1.lastMicros
        < (microsBase64 micros g).1.lastMicros →
      (microsBase64 micros g).2 < (microsBase64 micros (microsBase64 micros g).1).2) := by
  rw [microsDecreases_succ, microsDecreases_succ] at hdec
  simp only [microsDecreases, Nat.add_zero] at hdec
  obtain ⟨a1, a2, a3, a4, a5⟩ := microsBase64_step micros g (by omega)
  obtain ⟨b1, b2, b3, b4, b5⟩ := microsBase64_step micros (microsBase64 micros g).1
    (by rw [a3]; omega)
  refine ⟨a4, ?_, ?_⟩
  · rw [a5, b5, b3, b1]
    split_ifs with h
    · omega
    · omega
  · intro hlt
    rw [a5, b5, b3, b1]
    rw [b1] at hlt
    rw [if_pos hlt]
    omega

theorem set_agree (l1 l2 : List Nat) (i k v : Nat) (hlen : l1.length = l2.length)
    (h : k ≠ i → l1.getD k 0 = l2.getD k 0) :
    (l1.set i v).getD k 0 = (l2.set i v).getD k 0 := by
  rw [getD_set_eq, getD_set_eq, hlen]
  split_ifs with hc
  · rfl
  · by_cases hik : i = k
    · subst hik
      have hge : l2.length ≤ i := by
        by_contra hcon; exact hc ⟨rfl, by omega⟩
      rw [getD_of_length_le _ _ hge, getD_of_length_le _ _ (by omega)]
    · exact h (fun e => hik e.symm)

/-- The bytes the encoder produces do not depend on what the output buffer held before. -/
theorem cobsEncodeLoop_indep (rest : List Nat) :
    ∀ buf1 buf2 enc codep code, buf1.length = buf2.length →
      (∀ k, k < enc → k ≠ codep → buf1.getD k 0 = buf2.getD k 0) →
      (cobsEncodeLoop rest buf1 enc codep code).2 = (cobsEncodeLoop rest buf2 enc codep code).2 ∧
      ∀ k, k < (cobsEncodeLoop rest buf1 enc codep code).2 →
        (cobsEncodeLoop rest buf1 enc codep code).1.getD k 0
          = (cobsEncodeLoop rest buf2 enc codep code).1.getD k 0 := by
  induction rest with
  | nil =>
    intro buf1 buf2 enc codep code hlen h
    simp only [cobsEncodeLoop, true_and]
    intro k hk
    exact set_agree _ _ _ _ _ hlen (h k hk)
  | cons b rest ih =>
    intro buf1 buf2 enc codep code hlen h
    rcases cobsEncodeLoop_cases b code with hb | ⟨hb, hc⟩ | ⟨hb, hc⟩
    · subst hb
      rw [cobsEncodeLoop_zero, cobsEncodeLoop_zero]
      refine ih _ _ _ _ _ (by simp [hlen]) ?_
      intro k hk hne
      exact set_agree _ _ _ _ _ hlen (fun hkc => h k (by omega) hkc)
    · rw [cobsEncodeLoop_copy _ _ _ _ _ _ hb hc, cobsEncodeLoop_copy _ _ _ _ _ _ hb hc]
      refine ih _ _ _ _ _ (by simp [hlen]) ?_
      intro k hk hne
      exact set_agree _ _ _ _ _ hlen (fun hke => h k (by omega) hne)
    · rw [cobsEncodeLoop_full _ _ _ _ _ _ hb hc, cobsEncodeLoop_full _ _ _ _ _ _ hb hc]
      refine ih _ _ _ _ _ (by simp [hlen]) ?_
      intro k hk hne
      refine set_agree _ _ _ _ _ (by simp [hlen]) (fun hkc => ?_)
      exact set_agree _ _ _ _ _ hlen (fun hke => h k (by split_ifs at hk <;> omega) hkc)

theorem cobsEncodeLoop_take_indep (data buf1 buf2 : List Nat) (n : Nat)
    (hlen : buf1.length = buf2.length)
    (hn : n ≤ (cobsEncodeLoop data buf1 1 0 1).2) :
    (cobsEncodeLoop data buf1 1 0 1).1.take n = (cobsEncodeLoop data buf2 1 0 1).1.take n := by
  obtain ⟨_, h2⟩ := cobsEncodeLoop_indep data buf1 buf2 1 0 1 hlen
    (fun k hk hne => absurd (show k = 0 by omega) hne)
  exact take_eq_of_getD _ _ _ (by rw [cobsEncodeLoop_length, cobsEncodeLoop_length, hlen])
    (fun k hk => h2 k (by omega))

theorem onPacketRx_out (micros : Nat → Nat) (g : Globals) (s : MUDL_Link) (g1 : Globals)
    (s1 : MUDL_Link) (h : onPacketRx micros g s = some (g1, s1)) :
    g1.crcTable = g.crcTable ∧ s1.outgoingMessageStash = s.outgoingMessageStash ∧
    s1.txBuffer = s.txBuffer ∧
    s1.outgoingMessageSequenceNum = s.outgoingMessageSequenceNum ∧
    s1.ackingSequenceNum = s.ackingSequenceNum ∧
    ((s1.outgoingMessageStashLen = s.outgoingMessageStashLen ∧
        s1.outgoingLastTxTime = s.outgoingLastTxTime) ∨
      (s1.outgoingMessageStashLen = 0 ∧ s1.outgoingLastTxTime = 0)) := by
  unfold onPacketRx at h
  simp only [Option.bind_eq_bind, Option.bind_eq_some] at h
  obtain ⟨a, _, b, _, h⟩ := h
  by_cases hc : a = s.outgoingMessageSequenceNum ∧ s.outgoingMessageStashLen ≠ 0
  · rw [if_pos hc] at h
    simp only [resetAllOutgoingStates] at h
    split_ifs at h <;>
    · simp only [Option.some.injEq, Prod.mk.injEq] at h
      obtain ⟨h1, h2⟩ := h
      subst h1 h2
      exact ⟨rfl, rfl, rfl, rfl, rfl, Or.inr ⟨rfl, rfl⟩⟩
  · rw [if_neg hc] at h
    simp only [] at h
    split_ifs at h <;>
    · simp only [Option.some.injEq, Prod.mk.injEq] at h
      obtain ⟨h1, h2⟩ := h
      subst h1 h2
      exact ⟨rfl, rfl, rfl, rfl, rfl, Or.inl ⟨rfl, rfl⟩⟩

/-- One received byte leaves the outbound message, the transmit buffer and the ack number
alone; it can only drop the message from the outbound state. -/
theorem rxByte_out (micros : Nat → Nat) (g : Globals) (s : MUDL_Link) (b : Nat) (g1 : Globals)
    (s1 : MUDL_Link) (h : rxByte micros g s b = some (g1, s1)) :
    g1.crcTable = g.crcTable ∧ s1.outgoingMessageStash = s.outgoingMessageStash ∧
    s1.txBuffer = s.txBuffer ∧
    s1.outgoingMessageSequenceNum = s.outgoingMessageSequenceNum ∧
    s1.ackingSequenceNum = s.ackingSequenceNum ∧
    ((s1.outgoingMessageStashLen = s.outgoingMessageStashLen ∧
        s1.outgoingLastTxTime = s.outgoingLastTxTime) ∨
      (s1.outgoingMessageStashLen = 0 ∧ s1.outgoingLastTxTime = 0)) := by
  unfold rxByte at h
  simp only [Option.bind_eq_bind, Option.bind_eq_some] at h
  obtain ⟨buf, _, last, _, h⟩ := h
  by_cases h0 : last = 0
  · rw [if_pos h0] at h
    simp only [Option.bind_eq_some] at h
    obtain ⟨crc, _, hi, _, lo, _, h⟩ := h
    split at h
    · simp only [Option.bind_eq_some, Option.some.injEq, Prod.mk.injEq] at h
      obtain ⟨⟨pg, ps⟩, hp, h1, h2⟩ := h
      obtain ⟨e1, e2, e3, e4, e5, e6⟩ := onPacketRx_out micros _ _ pg ps hp
      subst h1 h2
      exact ⟨e1, e2, e3, e4, e5, e6⟩
    · simp only [Option.some.injEq, Prod.mk.injEq] at h
      obtain ⟨h1, h2⟩ := h
      subst h1 h2
      exact ⟨rfl, rfl, rfl, rfl, rfl, Or.inl ⟨rfl, rfl⟩⟩
  · rw [if_neg h0] at h
    simp only [Option.some.injEq, Prod.mk.injEq] at h
    obtain ⟨h1, h2⟩ := h
    subst h1 h2
    exact ⟨rfl, rfl, rfl, rfl, rfl, Or.inl ⟨rfl, rfl⟩⟩

theorem loopRx_out (micros : Nat → Nat) (rx : List Nat) :
    ∀ (g : Globals) (s : MUDL_Link) (g1 : Globals) (s1 : MUDL_Link),
      loopRx micros g s rx = some (g1, s1) →
      g1.crcTable = g.crcTable ∧ s1.outgoingMessageStash = s.outgoingMessageStash ∧
      s1.txBuffer = s.txBuffer ∧
      s1.outgoingMessageSequenceNum = s.outgoingMessageSequenceNum ∧
      s1.ackingSequenceNum = s.ackingSequenceNum ∧
      ((s1.outgoingMessageStashLen = s.outgoingMessageStashLen ∧
          s1.outgoingLastTxTime = s.outgoingLastTxTime) ∨
        (s1.outgoingMessageStashLen = 0 ∧ s1.outgoingLastTxTime = 0)) := by
  induction rx with
  | nil =>
    intro g s g1 s1 h
    simp only [loopRx, Option.some.injEq, Prod.mk.injEq] at h
    obtain ⟨h1, h2⟩ := h
    subst h1 h2
    exact ⟨rfl, rfl, rfl, rfl, rfl, Or.inl ⟨rfl, rfl⟩⟩
  | cons b rx ih =>
    intro g s g1 s1 h
    simp only [loopRx] at h
    cases hb : rxByte micros g s b with
    | none => rw [hb] at h; exact absurd h (by simp)
    | some p =>
      obtain ⟨pg, ps⟩ := p
      rw [hb] at h
      obtain ⟨a1, a2, a3, a4, a5, a6⟩ := rxByte_out micros g s b pg ps hb
      obtain ⟨b1, b2, b3, b4, b5, b6⟩ := ih pg ps g1 s1 h
      refine ⟨b1.trans a1, b2.trans a2, b3.trans a3, b4.trans a4, b5.trans a5, ?_⟩
      rcases b6 with ⟨c1, c2⟩ | c
      · rcases a6 with ⟨d1, d2⟩ | ⟨d1, d2⟩
        · exact Or.inl ⟨c1.trans d1, c2.trans d2⟩
        · exact Or.inr ⟨c1.trans d1, c2.trans d2⟩
      · exact Or.inr c

/-- The fields `loadTxBufferFromStash` leaves alone. -/
theorem loadTxBufferFromStash_out (g : Globals) (s s1 : MUDL_Link)
    (h : loadTxBufferFromStash g s = some s1) :
    s1.outgoingMessageStash.length = s.outgoingMessageStash.length ∧
    s1.outgoingMessageSequenceNum = s.outgoingMessageSequenceNum ∧
    s1.ackingSequenceNum = s.ackingSequenceNum ∧
    s1.outgoingMessageStashLen = s.outgoingMessageStashLen ∧
    s1.outgoingLastTxTime = s.outgoingLastTxTime := by
  unfold loadTxBufferFromStash at h
  simp only [Option.bind_eq_bind, Option.bind_eq_some, Option.some.injEq] at h
  obtain ⟨m0, h0, m1, h1, crc, _, m2, h2, m3, h3, b, _, h⟩ := h
  unfold arrayStore at h0 h1 h2 h3
  split_ifs at h0 h1 h2 h3
  simp only [Option.some.injEq] at h0 h1 h2 h3
  subst h
  unfold txTimeoutGenerator
  simp only []
  refine ⟨?_, ?_, ?_, ?_, ?_⟩
  · split_ifs <;> simp [← h3, ← h2, ← h1, ← h0]
  all_goals split_ifs <;> rfl

/-- The fields `loadTxBufferWithAck` leaves alone. -/
theorem loadTxBufferWithAck_out (g : Globals) (s s1 : MUDL_Link)
    (h : loadTxBufferWithAck g s = some s1) :
    s1.txBuffer.length = s.txBuffer.length ∧
    s1.outgoingMessageStash = s.outgoingMessageStash ∧
    s1.outgoingMessageSequenceNum = s.outgoingMessageSequenceNum ∧
    s1.ackingSequenceNum = s.ackingSequenceNum ∧
    s1.outgoingMessageStashLen = s.outgoingMessageStashLen ∧
    s1.outgoingLastTxTime = s.outgoingLastTxTime := by
  unfold loadTxBufferWithAck at h
  simp only [Option.bind_eq_bind, Option.bind_eq_some, Option.some.injEq] at h
  obtain ⟨b0, h0, b1, h1, crc, _, b2, h2, b3, h3, b4, h4, h⟩ := h
  unfold arrayStore at h0 h1 h2 h3 h4
  split_ifs at h0 h1 h2 h3 h4
  simp only [Option.some.injEq] at h0 h1 h2 h3 h4
  subst h
  refine ⟨?_, rfl, rfl, rfl, rfl, rfl⟩
  simp only [← h4, ← h3, ← h2, ← h1, ← h0, List.length_set, mudl_cobsEncode,
    cobsEncodeLoop_length]

/-- The byte push only moves the read pointer and, at the end of the frame, clears the
length. -/
theorem txPushLoop_out (k : Nat) :
    ∀ (s : MUDL_Link) (out : List Nat),
      ∃ rp len, (txPushLoop k s out).1 = { s with txBufferRp := rp, txBufferLen := len } := by
  induction k with
  | zero => intro s out; exact ⟨s.txBufferRp, s.txBufferLen, rfl⟩
  | succ k ih =>
    intro s out
    simp only [txPushLoop]
    split_ifs
    · exact ⟨0, 0, rfl⟩
    · obtain ⟨rp, len, h⟩ := ih { s with txBufferRp := (s.txBufferRp + 1) % 2 ^ 8 } (out ++ [s.txBuffer.getD s.txBufferRp 0])
      exact ⟨rp, len, h⟩

theorem loopTxPush_out (s : MUDL_Link) (fifoAvail : Nat) :
    ∃ rp len, (loopTxPush s fifoAvail).1 = { s with txBufferRp := rp, txBufferLen := len } := by
  unfold loopTxPush
  split_ifs
  · exact txPushLoop_out _ _ _
  · exact ⟨s.txBufferRp, s.txBufferLen, rfl⟩

/-- Loading the data frame keeps the message in the stash. -/
theorem loadTxBufferFromStash_holds (g : Globals) (s t : MUDL_Link) (m : List Nat)
    (hm : m.length ≤ 248) (hl : s.outgoingMessageStashLen = m.length)
    (hst : s.outgoingMessageStash.take m.length = m)
    (hsl : s.outgoingMessageStash.length = 256) (htl : s.txBuffer.length = 256)
    (ht : loadTxBufferFromStash g s = some t) :
    t.outgoingMessageStash.length = 256 ∧ t.txBuffer.length = 256 ∧
    t.outgoingMessageStash.take m.length = m ∧
    t.outgoingMessageSequenceNum = s.outgoingMessageSequenceNum ∧
    t.ackingSequenceNum = s.ackingSequenceNum ∧
    t.outgoingMessageStashLen = m.length ∧
    t.outgoingLastTxTime = s.outgoingLastTxTime := by
  obtain ⟨crc, t1, _, hload, _, _, h3, _, h5, h6⟩ :=
    loadTxBufferFromStash_frame g s m hm hl hst hsl htl
  rw [hload] at ht
  simp only [Option.some.injEq] at ht
  subst ht
  obtain ⟨e1, e2, e3, _, e5⟩ := loadTxBufferFromStash_out g s t1 hload
  refine ⟨by rw [e1, hsl], h3, ?_, e2, e3, h6, e5⟩
  have := congrArg (List.take m.length) h5
  rw [List.take_take, Nat.min_eq_left (by omega), List.take_left] at this
  exact this


/-- The TX load keeps the message in the stash and the ack number; it can only drop the
message from the outbound state (retries exhausted). -/
theorem loopTxLoad_holds (micros : Nat → Nat) (g : Globals) (s : MUDL_Link) (g1 : Globals)
    (s1 : MUDL_Link) (T m : List Nat) (q : Nat) (hm : m.length ≤ 248)
    (hH : HoldsMessage T m q g s) (h : loopTxLoad micros g s = some (g1, s1)) :
    HoldsMessage T m q g1 s1 ∧ s1.ackingSequenceNum = s.ackingSequenceNum := by
  obtain ⟨hT, hsl, htl, hst, hq, hor⟩ := hH
  unfold loopTxLoad at h
  by_cases htx : s.txBufferLen = 0
  · rw [if_pos htx] at h
    simp only [] at h
    split at h
    · next hc =>
      have hl : s.outgoingMessageStashLen = m.length := by
        rcases hor with h1 | ⟨h1, _⟩
        · exact h1
        · exact absurd h1 hc.1
      simp only [Option.bind_eq_bind, Option.bind_eq_some, Option.some.injEq,
        Prod.mk.injEq] at h
      obtain ⟨t, ht, hg, hs⟩ := h
      obtain ⟨a1, a2, a3, a4, a5, a6, _⟩ :=
        loadTxBufferFromStash_holds (microsBase64 micros g).1
          { s with outgoingLastTxTime := (microsBase64 micros g).2 % 2 ^ 32 } t m hm hl hst
          hsl htl ht
      subst hg hs
      exact ⟨⟨hT, a1, a2, a3, a4.trans hq, Or.inl a6⟩, a5⟩
    · split at h
      · next hc =>
        have hl : s.outgoingMessageStashLen = m.length := by
          rcases hor with h1 | ⟨_, h1⟩
          · exact h1
          · exact absurd h1 hc.1
        split at h
        · simp only [Option.some.injEq, Prod.mk.injEq] at h
          obtain ⟨hg, hs⟩ := h
          subst hg hs
          exact ⟨⟨hT, hsl, htl, hst, hq, Or.inr ⟨rfl, rfl⟩⟩, rfl⟩
        · simp only [Option.bind_eq_bind, Option.bind_eq_some, Option.some.injEq,
            Prod.mk.injEq] at h
          obtain ⟨t, ht, hg, hs⟩ := h
          obtain ⟨a1, a2, a3, a4, a5, a6, _⟩ :=
            loadTxBufferFromStash_holds (microsBase64 micros g).1
              { s with stats := { s.stats with
                         txTotalRetries := (s.stats.txTotalRetries + 1) % 2 ^ 32 }
                       outgoingRetryCount := (s.outgoingRetryCount + 1) % 2 ^ 8
                       outgoingLastTxTime := (microsBase64 micros g).2 % 2 ^ 32 } t m hm hl hst
              hsl htl ht
          subst hg hs
          exact ⟨⟨hT, a1, a2, a3, a4.trans hq, Or.inl a6⟩, a5⟩
      · split at h
        · simp only [Option.bind_eq_bind, Option.bind_eq_some, Option.some.injEq,
            Prod.mk.injEq] at h
          obtain ⟨t, ht, hg, hs⟩ := h
          obtain ⟨a1, a2, a3, a4, a5, a6⟩ := loadTxBufferWithAck_out _ _ t ht
          subst hg hs
          refine ⟨⟨hT, ?_, a1.trans htl, ?_, a3.trans hq, ?_⟩, a4⟩
          · exact (congrArg List.length a2).trans hsl
          · exact (congrArg (List.take m.length) a2).trans hst
          · rcases hor with h1 | ⟨h1, h2⟩
            · exact Or.inl (a5.trans h1)
            · exact Or.inr ⟨a5.trans h1, a6.trans h2⟩
        · split at h
          · simp only [Option.bind_eq_bind, Option.bind_eq_some, Option.some.injEq,
              Prod.mk.injEq] at h
            obtain ⟨t, ht, hg, hs⟩ := h
            obtain ⟨a1, a2, a3, a4, a5, a6⟩ := loadTxBufferWithAck_out _ _ t ht
            subst hg hs
            refine ⟨⟨hT, ?_, a1.trans htl, ?_, a3.trans hq, ?_⟩, a4⟩
            · exact (congrArg List.length a2).trans hsl
            · exact (congrArg (List.take m.length) a2).trans hst
            · rcases hor with h1 | ⟨h1, h2⟩
              · exact Or.inl (a5.trans h1)
              · exact Or.inr ⟨a5.trans h1, a6.trans h2⟩
          · simp only [Option.some.injEq, Prod.mk.injEq] at h
            obtain ⟨hg, hs⟩ := h
            subst hg hs
            exact ⟨⟨hT, hsl, htl, hst, hq, hor⟩, rfl⟩
  · rw [if_neg htx] at h
    simp only [Option.some.injEq, Prod.mk.injEq] at h
    obtain ⟨hg, hs⟩ := h
    subst hg hs
    exact ⟨⟨hT, hsl, htl, hst, hq, hor⟩, rfl⟩

theorem loopRx_holds (micros : Nat → Nat) (g : Globals) (s : MUDL_Link) (rx : List Nat)
    (g1 : Globals) (s1 : MUDL_Link) (T m : List Nat) (q : Nat)
    (hH : HoldsMessage T m q g s) (h : loopRx micros g s rx = some (g1, s1)) :
    HoldsMessage T m q g1 s1 ∧ s1.ackingSequenceNum = s.ackingSequenceNum := by
  obtain ⟨hT, hsl, htl, hst, hq, hor⟩ := hH
  obtain ⟨a1, a2, a3, a4, a5, a6⟩ := loopRx_out micros rx g s g1 s1 h
  refine ⟨⟨a1.trans hT, by rw [a2]; exact hsl, by rw [a3]; exact htl, by rw [a2]; exact hst,
    a4.trans hq, ?_⟩, a5⟩
  rcases a6 with ⟨c1, c2⟩ | c
  · rcases hor with h1 | ⟨h1, h2⟩
    · exact Or.inl (c1.trans h1)
    · exact Or.inr ⟨c1.trans h1, c2.trans h2⟩
  · exact Or.inr c

theorem loopTxPush_holds (s : MUDL_Link) (fifoAvail : Nat) (g : Globals) (T m : List Nat)
    (q : Nat) (hH : HoldsMessage T m q g s) :
    HoldsMessage T m q g (loopTxPush s fifoAvail).1 ∧
    (loopTxPush s fifoAvail).1.ackingSequenceNum = s.ackingSequenceNum ∧
    (loopTxPush s fifoAvail).1.txBuffer = s.txBuffer ∧
    (loopTxPush s fifoAvail).1.outgoingMessageStash = s.outgoingMessageStash ∧
    (loopTxPush s fifoAvail).1.outgoingRetryCount = s.outgoingRetryCount := by
  obtain ⟨rp, len, h⟩ := loopTxPush_out s fifoAvail
  rw [h]
  exact ⟨hH, rfl, rfl, rfl, rfl⟩

/-- A call of `loop()` keeps the message in the stash and the ack number. -/
theorem loop_holds (micros : Nat → Nat) (g : Globals) (s : MUDL_Link) (rx : List Nat)
    (fifoAvail : Nat) (g1 : Globals) (s1 : MUDL_Link) (out : List Nat) (T m : List Nat)
    (q : Nat) (hm : m.length ≤ 248) (hH : HoldsMessage T m q g s)
    (h : loop micros g s rx fifoAvail = some (g1, s1, out)) :
    HoldsMessage T m q g1 s1 ∧ s1.ackingSequenceNum = s.ackingSequenceNum := by
  unfold loop at h
  simp only [Option.bind_eq_bind, Option.bind_eq_some, Option.some.injEq, Prod.mk.injEq] at h
  obtain ⟨⟨pg, ps⟩, hp, ⟨qg, qs⟩, hq, hg, hs, _⟩ := h
  obtain ⟨b1, b2⟩ := loopRx_holds micros g s rx pg ps T m q hH hp
  obtain ⟨c1, c2⟩ := loopTxLoad_holds micros pg ps qg qs T m q hm b1 hq
  obtain ⟨d1, d2, _⟩ := loopTxPush_holds qs fifoAvail qg T m q c1
  simp only [] at hg hs
  subst hg hs
  exact ⟨d1, d2.trans (c2.trans b2)⟩

theorem read_holds (s : MUDL_Link) (dest : List Nat) (maxLen : Nat) (g : Globals)
    (T m : List Nat) (q : Nat) (hH : HoldsMessage T m q g s) :
    HoldsMessage T m q g (MUDL_Link.read s dest maxLen).1 := by
  unfold MUDL_Link.read
  split_ifs <;> exact hH

/-- Calls of `loop()` and `read()` keep the message in the stash. -/
theorem run_holds (micros : Nat → Nat) (T m : List Nat) (q : Nat) (hm : m.length ≤ 248)
    (ops : List Op) :
    ∀ (g : Globals) (s : MUDL_Link) (g1 : Globals) (s1 : MUDL_Link) (outs : List (List Nat)),
      HoldsMessage T m q g s → run micros ops g s = some (g1, s1, outs) →
      HoldsMessage T m q g1 s1 ∧
      ((∀ op ∈ ops, ∃ r f, op = Op.tick r f) → s1.ackingSequenceNum = s.ackingSequenceNum) := by
  induction ops with
  | nil =>
    intro g s g1 s1 outs hH h
    simp only [run, Option.some.injEq, Prod.mk.injEq] at h
    obtain ⟨hg, hs, _⟩ := h
    subst hg hs
    exact ⟨hH, fun _ => rfl⟩
  | cons op ops ih =>
    intro g s g1 s1 outs hH h
    simp only [run] at h
    cases hstep : step micros g s op with
    | none => rw [hstep] at h; exact absurd h (by simp)
    | some r =>
      obtain ⟨rg, rs, ro⟩ := r
      rw [hstep] at h
      simp only [] at h
      cases hrun : run micros ops rg rs with
      | none => rw [hrun] at h; exact absurd h (by simp)
      | some w =>
        obtain ⟨wg, ws, wo⟩ := w
        rw [hrun] at h
        simp only [Option.some.injEq, Prod.mk.injEq] at h
        obtain ⟨hg, hs, _⟩ := h
        subst hg hs
        cases op with
        | tick rx f =>
          simp only [step] at hstep
          obtain ⟨e1, e2⟩ := loop_holds micros g s rx f rg rs ro T m q hm hH hstep
          obtain ⟨f1, f2⟩ := ih rg rs wg ws wo e1 hrun
          refine ⟨f1, fun hall => ?_⟩
          rw [f2 (fun o ho => hall o (List.mem_cons_of_mem _ ho)), e2]
        | read dest maxLen =>
          simp only [step, Option.some.injEq, Prod.mk.injEq] at hstep
          obtain ⟨hg, hs, _⟩ := hstep
          subst hg hs
          obtain ⟨f1, _⟩ := ih _ _ wg ws wo (read_holds s dest maxLen g T m q hH) hrun
          refine ⟨f1, fun hall => ?_⟩
          obtain ⟨r, f, hrf⟩ := hall (Op.read dest maxLen) (List.mem_cons_self _ _)
          exact absurd hrf (by simp)

/-- The retransmission branch of the TX section: the pending message is loaded again as a
data frame, with the ack number the engine holds at that moment. -/
theorem loopTxLoad_retransmit (micros : Nat → Nat) (g : Globals) (s : MUDL_Link) (m : List Nat)
    (hsl : s.outgoingMessageStash.length = 256) (htl : s.txBuffer.length = 256)
    (htx : s.txBufferLen = 0) (hm2 : m.length ≤ 248)
    (hlen : s.outgoingMessageStashLen = m.length)
    (hst : s.outgoingMessageStash.take m.length = m) (hlast : s.outgoingLastTxTime ≠ 0)
    (hto : ((microsBase64 micros g).2 % 2 ^ 32 + 2 ^ 64 - s.outgoingLastTxTime) % 2 ^ 64
      > s.outgoingTimeoutLength)
    (hretry : (s.outgoingRetryCount + 1) % 2 ^ 8 ≤ 10) :
    ∃ crc g1 s1,
      crc16_ccitt g.crcTable (m ++ [s.ackingSequenceNum, s.outgoingMessageSequenceNum])
        (m.length + 2) = some crc ∧
      loopTxLoad micros g s = some (g1, s1) ∧
      s1.txBufferLen = m.length + 6 ∧
      s1.outgoingRetryCount = (s.outgoingRetryCount + 1) % 2 ^ 8 ∧
      s1.txBuffer.take (m.length + 6)
        = (cobsEncodeLoop (m ++ [s.ackingSequenceNum, s.outgoingMessageSequenceNum,
              crc / 256, crc % 256]) s.txBuffer 1 0 1).1.take (m.length + 5) ++ [0] ∧
      s1.outgoingMessageStash.take (m.length + 4)
        = m ++ [s.ackingSequenceNum, s.outgoingMessageSequenceNum, crc / 256, crc % 256] := by
  obtain ⟨crc, s1, hcrc, hload, h1, h2, _, h4, h5, _⟩ :=
    loadTxBufferFromStash_frame (microsBase64 micros g).1
      { s with stats := { s.stats with
                 txTotalRetries := (s.stats.txTotalRetries + 1) % 2 ^ 32 }
               outgoingRetryCount := (s.outgoingRetryCount + 1) % 2 ^ 8
               outgoingLastTxTime := (microsBase64 micros g).2 % 2 ^ 32 } m hm2 hlen hst hsl htl
  simp only [] at hcrc h4 h5
  have hrc : s1.outgoingRetryCount = (s.outgoingRetryCount + 1) % 2 ^ 8 := by
    unfold loadTxBufferFromStash at hload
    simp only [Option.bind_eq_bind, Option.bind_eq_some, Option.some.injEq] at hload
    obtain ⟨m0, _, m1, _, c, _, m2, _, m3, _, b, _, h⟩ := hload
    subst h
    unfold txTimeoutGenerator
    simp only []
    split_ifs <;> rfl
  refine ⟨crc, (microsBase64 micros g).1,
    { s1 with ackRequired := false, lastEverOutgoing := (microsBase64 micros g).2 % 2 ^ 32 },
    ?_, ?_, h1, hrc, h4, h5⟩
  · unfold crc16_ccitt
    rw [if_pos (by simp), hcrc]
    congr 2
    have : (m ++ [s.ackingSequenceNum, s.outgoingMessageSequenceNum]).length
        = m.length + 2 := by simp
    rw [← this, List.take_length]
  · unfold loopTxLoad
    have hnot : ¬ (s.outgoingMessageStashLen ≠ 0 ∧ s.outgoingLastTxTime = 0) :=
      fun hc => hlast hc.2
    have hgt : ¬ ((s.outgoingRetryCount + 1) % 2 ^ 8 > MUDL_MAX_NUM_RETRIES) := by
      simp only [MUDL_MAX_NUM_RETRIES]; omega
    simp only []
    rw [if_pos htx, if_neg hnot, if_pos ⟨hlast, hto⟩, if_neg hgt]
    simp only [Option.bind_eq_bind, hload, Option.some_bind]


/-! ## Claims on the COBS codec and the CRC -/

/-- C3. COBS round trip: for a byte sequence `s` of at most `MUDL_MAX_PACKET_SIZE = 248` bytes,
`mudl_cobsDecode` run on the output of `mudl_cobsEncode(s)`, with the length the encoder
returned, returns `|s|` and writes exactly the bytes of `s`. The two buffers must hold the
encoded bytes (`|s| + 1`) and the decoded bytes (`|s|`). -/
theorem C3_cobs_round_trip (s buffer data : List Nat)
    (hs : s.length ≤ MUDL_MAX_PACKET_SIZE) (hb : s.length + 1 ≤ buffer.length)
    (hd : s.length ≤ data.length) :
    (mudl_cobsDecode (mudl_cobsEncode s s.length buffer).1
        (mudl_cobsEncode s s.length buffer).2 data).2 = s.length ∧
    (mudl_cobsDecode (mudl_cobsEncode s s.length buffer).1
        (mudl_cobsEncode s s.length buffer).2 data).1.take s.length = s := by
  have hs248 : s.length ≤ 248 := hs
  simp only [mudl_cobsEncode, mudl_cobsDecode, List.take_length]
  have hn : (cobsEncodeLoop s buffer 1 0 1).2 = 1 + s.length :=
    cobsEncodeLoop_short s buffer 1 0 1 (by omega)
  obtain ⟨D', cf, _, ht, _, _, hrun⟩ :=
    cobs_decode_encoded (cobsEncodeLoop s buffer 1 0 1).1 (cobsEncodeLoop s buffer 1 0 1).1
      (cobsEncodeLoop s buffer 1 0 1).2 s buffer data rfl (by omega) (fun _ _ => rfl) hd
  rw [hrun _ (le_refl _)]
  simp only [Nat.sub_self, cobsDecodeLoop]
  exact ⟨trivial, ht⟩

/-- Witness of C3 on the message `[1, 0, 2, 0, 0, 255]`. -/
theorem C3_cobs_round_trip_witness :
    [1, 0, 2, 0, 0, 255].length ≤ MUDL_MAX_PACKET_SIZE ∧
    [1, 0, 2, 0, 0, 255].length + 1 ≤ (List.replicate 16 0).length ∧
    [1, 0, 2, 0, 0, 255].length ≤ (List.replicate 16 7).length ∧
    (mudl_cobsDecode
        (mudl_cobsEncode [1, 0, 2, 0, 0, 255] [1, 0, 2, 0, 0, 255].length (List.replicate 16 0)).1
        (mudl_cobsEncode [1, 0, 2, 0, 0, 255] [1, 0, 2, 0, 0, 255].length (List.replicate 16 0)).2
        (List.replicate 16 7)).2 = [1, 0, 2, 0, 0, 255].length ∧
    (mudl_cobsDecode
        (mudl_cobsEncode [1, 0, 2, 0, 0, 255] [1, 0, 2, 0, 0, 255].length (List.replicate 16 0)).1
        (mudl_cobsEncode [1, 0, 2, 0, 0, 255] [1, 0, 2, 0, 0, 255].length (List.replicate 16 0)).2
        (List.replicate 16 7)).1.take [1, 0, 2, 0, 0, 255].length = [1, 0, 2, 0, 0, 255] :=
  ⟨by decide, by decide, by decide,
    C3_cobs_round_trip [1, 0, 2, 0, 0, 255] (List.replicate 16 0) (List.replicate 16 7)
      (by decide) (by decide) (by decide)⟩

/-- C4. For an input `s` of any length, none of the first `n` bytes of the output of
`mudl_cobsEncode(s)` is `0x00`, `n` being the returned encoded length. The output buffer must
have room for the `n` bytes and the delimiter that follows them. -/
theorem C4_cobs_encode_no_zero (s buffer : List Nat)
    (hb : (mudl_cobsEncode s s.length buffer).2 < buffer.length) :
    0 ∉ (mudl_cobsEncode s s.length buffer).1.take (mudl_cobsEncode s s.length buffer).2 := by
  simp only [mudl_cobsEncode, List.take_length] at hb ⊢
  intro hmem
  obtain ⟨k, hk, hk0⟩ := List.getElem_of_mem hmem
  simp only [List.length_take, cobsEncodeLoop_length] at hk
  have hne := cobsEncodeLoop_nonzero s buffer 1 0 1 (by omega)
    (fun j hj hj0 => absurd (show j = 0 by omega) hj0) (le_of_lt hb) k (by omega)
  apply hne
  rw [List.getElem_take] at hk0
  rw [List.getD_eq_getElem?_getD, List.getElem?_eq_getElem (by rw [cobsEncodeLoop_length]; omega)]
  simpa using hk0

/-- Witness of C4 on an input with zeros at both ends. -/
theorem C4_cobs_encode_no_zero_witness :
    (mudl_cobsEncode [0, 5, 0, 0, 9, 0] [0, 5, 0, 0, 9, 0].length (List.replicate 16 0)).2
        < (List.replicate 16 0).length ∧
    0 ∉ (mudl_cobsEncode [0, 5, 0, 0, 9, 0] [0, 5, 0, 0, 9, 0].length (List.replicate 16 0)).1.take
        (mudl_cobsEncode [0, 5, 0, 0, 9, 0] [0, 5, 0, 0, 9, 0].length (List.replicate 16 0)).2 :=
  ⟨by decide, C4_cobs_encode_no_zero [0, 5, 0, 0, 9, 0] (List.replicate 16 0) (by decide)⟩

/-- C5. Once `crc16_generate_table` has run, the table-driven `crc16_ccitt` of a byte sequence
equals the bit-by-bit reference CRC-16/CCITT (polynomial 0x1021, initial value 0xFFFF, MSB
first, no reflection, no final xor); the ASCII bytes of "123456789" give 0x29B1. -/
theorem C5_crc16_table_matches_reference (g : Globals) (s : List Nat)
    (hs : ∀ b ∈ s, b < 256) :
    crc16_ccitt (crc16_generate_table g).crcTable s s.length = some (crc16_reference s) ∧
    crc16_ccitt (crc16_generate_table g).crcTable
      [0x31, 0x32, 0x33, 0x34, 0x35, 0x36, 0x37, 0x38, 0x39] 9 = some 0x29B1 := by
  have key : ∀ t : List Nat, (∀ b ∈ t, b < 256) →
      crc16_ccitt (crc16_generate_table g).crcTable t t.length = some (crc16_reference t) := by
    intro t ht
    unfold crc16_ccitt crc16_generate_table crc16_reference
    simp only [le_refl, if_true, List.take_length]
    rw [foldl_crcUpdate_eq_reference t ht _ (by norm_num)]
  refine ⟨key s hs, ?_⟩
  have h9 := key [0x31, 0x32, 0x33, 0x34, 0x35, 0x36, 0x37, 0x38, 0x39] (by decide)
  rw [show ([0x31, 0x32, 0x33, 0x34, 0x35, 0x36, 0x37, 0x38, 0x39] : List Nat).length = 9
    from rfl] at h9
  rw [h9, crc16_reference_check]

/-- Witness of C5 on the bytes `[0x00, 0xFF, 0x10, 0x21]`. -/
theorem C5_crc16_table_matches_reference_witness :
    (∀ b ∈ [0x00, 0xFF, 0x10, 0x21], b < 256) ∧
    (crc16_ccitt (crc16_generate_table {}).crcTable [0x00, 0xFF, 0x10, 0x21]
        [0x00, 0xFF, 0x10, 0x21].length = some (crc16_reference [0x00, 0xFF, 0x10, 0x21]) ∧
      crc16_ccitt (crc16_generate_table {}).crcTable
        [0x31, 0x32, 0x33, 0x34, 0x35, 0x36, 0x37, 0x38, 0x39] 9 = some 0x29B1) :=
  ⟨by decide, C5_crc16_table_matches_reference {} [0x00, 0xFF, 0x10, 0x21] (by decide)⟩


/-! ## Claims on the link engine -/

/-- C1. In every engine state the TX section of a tick can find (the state `s0` that the RX
loop of the tick leaves) with an empty transmit buffer, a pending outbound message `m`
(`1 ≤ |m| ≤ 248`) and `outgoingLastTxTime == 0`, the tick loads the transmit buffer with exactly
the `n` bytes of `mudl_cobsEncode(m ++ [ack_seq, our_seq, crc_hi, crc_lo])` followed by one
`0x00`, where `crc_hi = crc / 256` and `crc_lo = crc % 256` for `crc` the `crc16_ccitt` of
`m ++ [ack_seq, our_seq]`; the frame length loaded is `n + 1`, and the byte push that ends the
tick leaves these bytes in place. In particular a fresh engine, after `send([1, 2, 3])` and a
tick without inbound bytes, has the pre-encoding payload `[1, 2, 3, 0, 13, crc_hi, crc_lo]`. -/
theorem C1_tick_loads_data_frame (micros : Nat → Nat) (g : Globals) (s : MUDL_Link)
    (rx : List Nat) (fifoAvail : Nat) (g0 : Globals) (s0 : MUDL_Link) (m : List Nat)
    (hrx : loopRx micros g s rx = some (g0, s0))
    (hwf : s0.WF) (htx : s0.txBufferLen = 0)
    (hm1 : 1 ≤ m.length) (hm2 : m.length ≤ MUDL_MAX_PACKET_SIZE)
    (hlen : s0.outgoingMessageStashLen = m.length)
    (hst : s0.outgoingMessageStash.take m.length = m)
    (hlast : s0.outgoingLastTxTime = 0) :
    (∃ crc n g1 sl s1 out,
      crc16_ccitt g0.crcTable (m ++ [s0.ackingSequenceNum, s0.outgoingMessageSequenceNum])
        (m.length + 2) = some crc ∧
      (mudl_cobsEncode (m ++ [s0.ackingSequenceNum, s0.outgoingMessageSequenceNum,
          crc / 256, crc % 256]) (m.length + 4) s0.txBuffer).2 = n ∧
      loopTxLoad micros g0 s0 = some (g1, sl) ∧
      sl.txBufferLen = n + 1 ∧ sl.txBufferRp = 0 ∧
      loop micros g s rx fifoAvail = some (g1, s1, out) ∧
      s1.txBuffer.take (n + 1)
        = (mudl_cobsEncode (m ++ [s0.ackingSequenceNum, s0.outgoingMessageSequenceNum,
              crc / 256, crc % 256]) (m.length + 4) s0.txBuffer).1.take n ++ [0] ∧
      s1.outgoingMessageStash.take (m.length + 4)
        = m ++ [s0.ackingSequenceNum, s0.outgoingMessageSequenceNum, crc / 256, crc % 256]) ∧
    (∀ (baud : Nat) (mc : Nat → Nat) (gg : Globals) (fifo : Nat),
      ∃ crc g1 s1 out,
        crc16_ccitt gg.crcTable [1, 2, 3, 0, 13] 5 = some crc ∧
        loop mc (send mc gg (MUDL_Link.new baud) [1, 2, 3] 3).1
          (send mc gg (MUDL_Link.new baud) [1, 2, 3] 3).2 [] fifo = some (g1, s1, out) ∧
        s1.outgoingMessageStash.take 7 = [1, 2, 3, 0, 13, crc / 256, crc % 256]) := by
  constructor
  · obtain ⟨crc, g1, sl, s1, out, h1, h2, h3, h4, h5, h6, h7, h8⟩ :=
      loop_data micros g s rx fifoAvail g0 s0 m hrx hwf htx hm1 hm2 hlen hst hlast
    exact ⟨crc, m.length + 5, g1, sl, s1, out, h1, h6, h2, h3, h4, h5, h7, h8⟩
  · intro baud mc gg fifo
    obtain ⟨crc, g1, sl, s1, out, h1, _, _, _, h5, _, _, h8⟩ :=
      loop_data mc (send mc gg (MUDL_Link.new baud) [1, 2, 3] 3).1
        (send mc gg (MUDL_Link.new baud) [1, 2, 3] 3).2 [] fifo
        (send mc gg (MUDL_Link.new baud) [1, 2, 3] 3).1
        (send mc gg (MUDL_Link.new baud) [1, 2, 3] 3).2 [1, 2, 3] rfl
        (send_fresh baud mc gg).1 rfl (by decide) (by decide) rfl (send_fresh baud mc gg).2 rfl
    exact ⟨crc, g1, s1, out, h1, h5, h8⟩

/-- Witness of C1: `sampleSender` during a tick without inbound bytes and a transport that
takes four bytes. -/
theorem C1_tick_loads_data_frame_witness :
    loopRx sampleMicros sampleGlobals sampleSender [] = some (sampleGlobals, sampleSender) ∧
    sampleSender.WF ∧ sampleSender.txBufferLen = 0 ∧
    1 ≤ [1, 2, 3].length ∧ [1, 2, 3].length ≤ MUDL_MAX_PACKET_SIZE ∧
    sampleSender.outgoingMessageStashLen = [1, 2, 3].length ∧
    sampleSender.outgoingMessageStash.take [1, 2, 3].length = [1, 2, 3] ∧
    sampleSender.outgoingLastTxTime = 0 ∧
    ((∃ crc n g1 sl s1 out,
      crc16_ccitt sampleGlobals.crcTable
        ([1, 2, 3] ++ [sampleSender.ackingSequenceNum, sampleSender.outgoingMessageSequenceNum])
        ([1, 2, 3].length + 2) = some crc ∧
      (mudl_cobsEncode ([1, 2, 3] ++ [sampleSender.ackingSequenceNum,
          sampleSender.outgoingMessageSequenceNum, crc / 256, crc % 256])
          ([1, 2, 3].length + 4) sampleSender.txBuffer).2 = n ∧
      loopTxLoad sampleMicros sampleGlobals sampleSender = some (g1, sl) ∧
      sl.txBufferLen = n + 1 ∧ sl.txBufferRp = 0 ∧
      loop sampleMicros sampleGlobals sampleSender [] 4 = some (g1, s1, out) ∧
      s1.txBuffer.take (n + 1)
        = (mudl_cobsEncode ([1, 2, 3] ++ [sampleSender.ackingSequenceNum,
              sampleSender.outgoingMessageSequenceNum, crc / 256, crc % 256])
              ([1, 2, 3].length + 4) sampleSender.txBuffer).1.take n ++ [0] ∧
      s1.outgoingMessageStash.take ([1, 2, 3].length + 4)
        = [1, 2, 3] ++ [sampleSender.ackingSequenceNum,
            sampleSender.outgoingMessageSequenceNum, crc / 256, crc % 256]) ∧
    (∀ (baud : Nat) (mc : Nat → Nat) (gg : Globals) (fifo : Nat),
      ∃ crc g1 s1 out,
        crc16_ccitt gg.crcTable [1, 2, 3, 0, 13] 5 = some crc ∧
        loop mc (send mc gg (MUDL_Link.new baud) [1, 2, 3] 3).1
          (send mc gg (MUDL_Link.new baud) [1, 2, 3] 3).2 [] fifo = some (g1, s1, out) ∧
        s1.outgoingMessageStash.take 7 = [1, 2, 3, 0, 13, crc / 256, crc % 256])) :=
  ⟨rfl, by decide!, by decide!, by decide, by decide, by decide!, by decide!, by decide!,
    C1_tick_loads_data_frame sampleMicros sampleGlobals sampleSender [] 4 sampleGlobals
      sampleSender [1, 2, 3] rfl (by decide!) (by decide!) (by decide) (by decide)
      (by decide!) (by decide!) (by decide!)⟩

/-- C2. Frame round trip between two engines that use the same CRC table (in particular when
both have run `crc16_generate_table`): for a message `m` with `1 ≤ |m| ≤ 248` pending in the
sender `t` (any `ack_seq`, any `our_seq`), `loadTxBufferFromStash` builds a frame `t1`; fed byte
by byte into the RX loop of a receiver `r` with `rxBufferWp == 0` whose
`incomingMessageSequenceNum` differs from the sender's `our_seq`, the frame reaches its
delimiter in a state `s1` where the in-place decode gives `L = |m| + 4` and the CRC test
passes; afterwards `rxSuccessCount` is one more (in `uint32_t`), `rxFailureCount` is unchanged,
the inbound stash holds exactly `m` with length `|m|`, and `incomingMessageSequenceNum` is the
sender's `our_seq`. -/
theorem C2_frame_round_trip (micros : Nat → Nat) (gs gr : Globals) (t r : MUDL_Link)
    (m : List Nat) (hm1 : 1 ≤ m.length) (hm2 : m.length ≤ MUDL_MAX_PACKET_SIZE)
    (htl : t.outgoingMessageStashLen = m.length)
    (hts : t.outgoingMessageStash.take m.length = m)
    (htwf : t.WF) (hrwf : r.WF) (hwp : r.rxBufferWp = 0)
    (htab : gs.crcTable = gr.crcTable)
    (hseq : r.incomingMessageSequenceNum ≠ t.outgoingMessageSequenceNum) :
    ∃ t1 s1 g1 r1,
      loadTxBufferFromStash gs t = some t1 ∧
      loopRx micros gr r (t1.txBuffer.take t1.txBufferLen).dropLast = some (gr, s1) ∧
      rxPayloadLen s1 = m.length + 4 ∧ rxCrcOk gr s1 ∧
      loopRx micros gr r (t1.txBuffer.take t1.txBufferLen) = some (g1, r1) ∧
      r1.stats.rxSuccessCount = (r.stats.rxSuccessCount + 1) % 2 ^ 32 ∧
      r1.stats.rxFailureCount = r.stats.rxFailureCount ∧
      r1.incomingMessageStashLen = m.length ∧
      r1.incomingMessageStash.take m.length = m ∧
      r1.incomingMessageSequenceNum = t.outgoingMessageSequenceNum := by
  obtain ⟨_, hsl, _, httx⟩ := htwf
  obtain ⟨_, _, hrl, _⟩ := hrwf
  obtain ⟨crc, t1, hcrc, hload, hlen1, _, _, hframe, _, _⟩ :=
    loadTxBufferFromStash_frame gs t m hm2 htl hts hsl httx
  obtain ⟨g1, r1, s1, hrun, hpre, _, _, _, hPL, hok, _, _, _, _, hok1, hfail1, hnew, _⟩ :=
    loopRx_data_frame micros gr r m t.txBuffer t.ackingSequenceNum
      t.outgoingMessageSequenceNum hm1 hm2 httx hrl hwp
  rw [← htab, ← hcrc] at hrun hpre
  obtain ⟨e1, e2, e3, _⟩ := hnew hseq
  refine ⟨t1, s1, g1, r1, hload, ?_, hPL, hok, ?_, hok1, hfail1, e2, ?_, e3⟩
  · rw [hlen1, hframe, List.dropLast_concat]; exact hpre
  · rw [hlen1, hframe]; exact hrun
  · rw [e1, List.take_left]

/-- Witness of C2: `sampleSender` transmits `[1, 2, 3]` to a fresh receiver. -/
theorem C2_frame_round_trip_witness :
    1 ≤ [1, 2, 3].length ∧ [1, 2, 3].length ≤ MUDL_MAX_PACKET_SIZE ∧
    sampleSender.outgoingMessageStashLen = [1, 2, 3].length ∧
    sampleSender.outgoingMessageStash.take [1, 2, 3].length = [1, 2, 3] ∧
    sampleSender.WF ∧ (MUDL_Link.new 115200).WF ∧ (MUDL_Link.new 115200).rxBufferWp = 0 ∧
    sampleGlobals.crcTable = sampleGlobals.crcTable ∧
    (MUDL_Link.new 115200).incomingMessageSequenceNum
      ≠ sampleSender.outgoingMessageSequenceNum ∧
    ∃ t1 s1 g1 r1,
      loadTxBufferFromStash sampleGlobals sampleSender = some t1 ∧
      loopRx sampleMicros sampleGlobals (MUDL_Link.new 115200)
        (t1.txBuffer.take t1.txBufferLen).dropLast = some (sampleGlobals, s1) ∧
      rxPayloadLen s1 = [1, 2, 3].length + 4 ∧ rxCrcOk sampleGlobals s1 ∧
      loopRx sampleMicros sampleGlobals (MUDL_Link.new 115200)
        (t1.txBuffer.take t1.txBufferLen) = some (g1, r1) ∧
      r1.stats.rxSuccessCount = ((MUDL_Link.new 115200).stats.rxSuccessCount + 1) % 2 ^ 32 ∧
      r1.stats.rxFailureCount = (MUDL_Link.new 115200).stats.rxFailureCount ∧
      r1.incomingMessageStashLen = [1, 2, 3].length ∧
      r1.incomingMessageStash.take [1, 2, 3].length = [1, 2, 3] ∧
      r1.incomingMessageSequenceNum = sampleSender.outgoingMessageSequenceNum :=
  ⟨by decide, by decide, by decide!, by decide!, by decide!, by decide!, by decide!, rfl,
    by decide!,
    C2_frame_round_trip sampleMicros sampleGlobals sampleGlobals sampleSender
      (MUDL_Link.new 115200) [1, 2, 3] (by decide) (by decide) (by decide!) (by decide!)
      (by decide!) (by decide!) (by decide!) rfl (by decide!)⟩

/-- C6 (the code at the failing input). The wire bytes `03 FF FF 00` decode to a payload of
`L = 2 < 4` bytes, `0xFFFF`; the CRC test of `loop()` passes, since the CRC of zero bytes is the
initial value `0xFFFF`; the frame is therefore counted as received and handed to `onPacketRx`,
whose read of `rxBuffer[rxBufferLen - 4]` is outside the array: the embedding returns `none`,
not the state with `rxFailureCount + 1` the specification asks for. -/
theorem C6_short_frame_passes_crc :
    rxPayloadLen sampleShortFrame = 2 ∧ rxCrcOk sampleGlobals sampleShortFrame ∧
    arrayLoad (rxDecoded sampleShortFrame).1 ((rxPayloadLen sampleShortFrame : Int) - 4) = none ∧
    rxByte sampleMicros sampleGlobals sampleShortFrame 0 = none ∧
    loopRx sampleMicros sampleGlobals (MUDL_Link.new 115200) [3, 255, 255, 0] = none := by
  decide!

/-- C7. For every received frame held inside the receive buffer (`rxBufferWp < 256` when the
delimiter arrives) whose decoded payload length is `L ≥ 4` and whose CRC-16 over the first
`L - 2` payload bytes differs from the big-endian value of the last two, the RX path adds one
to `rxFailureCount` (in `uint32_t`) and resets `rxBufferLen` and `rxBufferWp` to 0; apart from
the receive buffer, decoded in place, every other field of the engine and the globals are
unchanged: `rxSuccessCount`, `lastEverIncoming`, the inbound stash and its length,
`incomingMessageSequenceNum`, `ackingSequenceNum`, `ackRequired`, `outgoingMessageSequenceNum`
and all outbound state. -/
theorem C7_crc_mismatch_counts_rx_fail (micros : Nat → Nat) (g : Globals) (s : MUDL_Link)
    (hwp : s.rxBufferWp < MUDL_BUFFERS_SIZE) (hlen : s.rxBuffer.length = MUDL_BUFFERS_SIZE)
    (hL : 4 ≤ rxPayloadLen s) (hcrc : ¬ rxCrcOk g s) :
    rxByte micros g s 0 =
      some (g, { s with rxBuffer := (rxDecoded s).1, rxBufferLen := 0, rxBufferWp := 0
                        stats := { s.stats with
                          rxFailureCount := (s.stats.rxFailureCount + 1) % 2 ^ 32 } }) := by
  have hle := rxDecoded_le s
  have hL2 : 4 ≤ (rxDecoded s).2 - 1 := hL
  rw [rxByte_delimiter micros g s hwp hlen (by omega),
    if_neg (fun h => hcrc ((rxCrcOk_iff g s hlen).mpr h))]

/-- Witness of C7: the delimiter arrives at `sampleBadCrc`. -/
theorem C7_crc_mismatch_counts_rx_fail_witness :
    sampleBadCrc.rxBufferWp < MUDL_BUFFERS_SIZE ∧
    sampleBadCrc.rxBuffer.length = MUDL_BUFFERS_SIZE ∧
    4 ≤ rxPayloadLen sampleBadCrc ∧ ¬ rxCrcOk sampleGlobals sampleBadCrc ∧
    rxByte sampleMicros sampleGlobals sampleBadCrc 0 =
      some (sampleGlobals,
        { sampleBadCrc with
          rxBuffer := (rxDecoded sampleBadCrc).1, rxBufferLen := 0, rxBufferWp := 0
          stats := { sampleBadCrc.stats with
            rxFailureCount := (sampleBadCrc.stats.rxFailureCount + 1) % 2 ^ 32 } }) :=
  ⟨by decide!, by decide!, by decide!, by decide!,
    C7_crc_mismatch_counts_rx_fail sampleMicros sampleGlobals sampleBadCrc (by decide!)
      (by decide!) (by decide!) (by decide!)⟩

/-- C8. For every CRC-valid received frame (held inside the receive buffer, payload length
`L ≥ 4`), with `incoming_ack` the payload byte at `L - 4`: if the outbound stash is non-empty
and `incoming_ack == outgoingMessageSequenceNum`, then `txSuccessCount` is one more (in
`uint32_t`) and `outgoingMessageStashLen`, `outgoingLastTxTime` and `outgoingRetryCount` are 0;
otherwise these four are unchanged. -/
theorem C8_ack_handling (micros : Nat → Nat) (g : Globals) (s : MUDL_Link)
    (hwp : s.rxBufferWp < MUDL_BUFFERS_SIZE) (hlen : s.rxBuffer.length = MUDL_BUFFERS_SIZE)
    (hL : 4 ≤ rxPayloadLen s) (hcrc : rxCrcOk g s) :
    ∃ g1 s1, rxByte micros g s 0 = some (g1, s1) ∧
      (s.outgoingMessageStashLen ≠ 0 ∧
          (rxDecoded s).1.getD (rxPayloadLen s - 4) 0 = s.outgoingMessageSequenceNum →
        s1.stats.txSuccessCount = (s.stats.txSuccessCount + 1) % 2 ^ 32 ∧
        s1.outgoingMessageStashLen = 0 ∧ s1.outgoingLastTxTime = 0 ∧
        s1.outgoingRetryCount = 0) ∧
      (¬ (s.outgoingMessageStashLen ≠ 0 ∧
          (rxDecoded s).1.getD (rxPayloadLen s - 4) 0 = s.outgoingMessageSequenceNum) →
        s1.stats.txSuccessCount = s.stats.txSuccessCount ∧
        s1.outgoingMessageStashLen = s.outgoingMessageStashLen ∧
        s1.outgoingLastTxTime = s.outgoingLastTxTime ∧
        s1.outgoingRetryCount = s.outgoingRetryCount) := by
  obtain ⟨g1, s1, hrun, _, _, _, _, _, _, _, _, ⟨hack, hnack⟩, _, _, _⟩ :=
    rxByte_valid micros g s hwp hlen hL hcrc
  exact ⟨g1, s1, hrun, fun h => hack ⟨h.2, h.1⟩, fun h => hnack (fun h2 => h ⟨h2.2, h2.1⟩)⟩

/-- Witness of C8: the delimiter of the ack-only frame arrives at `sampleAcked`. -/
theorem C8_ack_handling_witness :
    sampleAcked.rxBufferWp < MUDL_BUFFERS_SIZE ∧
    sampleAcked.rxBuffer.length = MUDL_BUFFERS_SIZE ∧
    4 ≤ rxPayloadLen sampleAcked ∧ rxCrcOk sampleGlobals sampleAcked ∧
    ∃ g1 s1, rxByte sampleMicros sampleGlobals sampleAcked 0 = some (g1, s1) ∧
      (sampleAcked.outgoingMessageStashLen ≠ 0 ∧
          (rxDecoded sampleAcked).1.getD (rxPayloadLen sampleAcked - 4) 0
            = sampleAcked.outgoingMessageSequenceNum →
        s1.stats.txSuccessCount = (sampleAcked.stats.txSuccessCount + 1) % 2 ^ 32 ∧
        s1.outgoingMessageStashLen = 0 ∧ s1.outgoingLastTxTime = 0 ∧
        s1.outgoingRetryCount = 0) ∧
      (¬ (sampleAcked.outgoingMessageStashLen ≠ 0 ∧
          (rxDecoded sampleAcked).1.getD (rxPayloadLen sampleAcked - 4) 0
            = sampleAcked.outgoingMessageSequenceNum) →
        s1.stats.txSuccessCount = sampleAcked.stats.txSuccessCount ∧
        s1.outgoingMessageStashLen = sampleAcked.outgoingMessageStashLen ∧
        s1.outgoingLastTxTime = sampleAcked.outgoingLastTxTime ∧
        s1.outgoingRetryCount = sampleAcked.outgoingRetryCount) :=
  ⟨by decide!, by decide!, by decide!, by decide!,
    C8_ack_handling sampleMicros sampleGlobals sampleAcked (by decide!) (by decide!)
      (by decide!) (by decide!)⟩

/-- C9. Duplicate delivery is idempotent. For every engine state and every CRC-valid data
frame (held inside the receive buffer, `L > 4`) whose `incoming_seq`, the payload byte at
`L - 3`, equals `incomingMessageSequenceNum`, processing the frame leaves the inbound stash, its
length and `incomingMessageSequenceNum` unchanged; `ackRequired` becomes true if the stash is
empty and is unchanged if the stash is occupied. Hence a frame built by `loadTxBufferFromStash`
for a message `m` that arrives `N + 1` times in a row at a receiver to which it is new leaves
one copy of `m` in the inbound stash, as a single arrival does. -/
theorem C9_duplicate_delivery_idempotent (micros : Nat → Nat) (g : Globals) (s : MUDL_Link)
    (hwp : s.rxBufferWp < MUDL_BUFFERS_SIZE) (hlen : s.rxBuffer.length = MUDL_BUFFERS_SIZE)
    (hL : 4 < rxPayloadLen s) (hcrc : rxCrcOk g s)
    (hseq : (rxDecoded s).1.getD (rxPayloadLen s - 3) 0 = s.incomingMessageSequenceNum) :
    (∃ g1 s1, rxByte micros g s 0 = some (g1, s1) ∧
      s1.incomingMessageStash = s.incomingMessageStash ∧
      s1.incomingMessageStashLen = s.incomingMessageStashLen ∧
      s1.incomingMessageSequenceNum = s.incomingMessageSequenceNum ∧
      s1.ackRequired = (if s.incomingMessageStashLen = 0 then true else s.ackRequired)) ∧
    (∀ (mc : Nat → Nat) (gs gr : Globals) (t r : MUDL_Link) (m : List Nat) (N : Nat),
      1 ≤ m.length → m.length ≤ MUDL_MAX_PACKET_SIZE →
      t.outgoingMessageStashLen = m.length → t.outgoingMessageStash.take m.length = m →
      t.WF → r.WF → r.rxBufferWp = 0 → gs.crcTable = gr.crcTable →
      r.incomingMessageSequenceNum ≠ t.outgoingMessageSequenceNum →
      ∃ t1 g1 r1,
        loadTxBufferFromStash gs t = some t1 ∧
        loopRx mc gr r (List.replicate (N + 1) (t1.txBuffer.take t1.txBufferLen)).flatten
          = some (g1, r1) ∧
        r1.incomingMessageStashLen = m.length ∧
        r1.incomingMessageStash.take m.length = m ∧
        r1.incomingMessageSequenceNum = t.outgoingMessageSequenceNum) := by
  constructor
  · obtain ⟨g1, s1, hrun, _, _, _, _, _, _, _, _, _, hocc, hemp, _⟩ :=
      rxByte_valid micros g s hwp hlen (le_of_lt hL) hcrc
    refine ⟨g1, s1, hrun, ?_⟩
    by_cases hst : s.incomingMessageStashLen = 0
    · rw [if_pos hst]
      exact hemp hL hseq.symm hst
    · rw [if_neg hst]
      exact hocc (Or.inr ⟨hseq.symm, hst⟩)
  · intro mc gs gr t r m N hm1 hm2 htl hts htwf hrwf hwp0 htab hne
    obtain ⟨_, hsl, _, httx⟩ := htwf
    obtain ⟨_, _, hrl, _⟩ := hrwf
    obtain ⟨crc, t1, hcrc1, hload, hlen1, _, _, hframe, _, _⟩ :=
      loadTxBufferFromStash_frame gs t m hm2 htl hts hsl httx
    obtain ⟨g1, r1, _, hrun, _, _, _, _, _, _, _, hg1, hl1, hw1, _, _, hnew, _⟩ :=
      loopRx_data_frame mc gr r m t.txBuffer t.ackingSequenceNum
        t.outgoingMessageSequenceNum hm1 hm2 httx hrl hwp0
    obtain ⟨e1, e2, e3, _⟩ := hnew hne
    obtain ⟨g2, r2, hrun2, _, _, _, f1, f2, f3⟩ :=
      loopRx_data_frame_repeat mc gr.crcTable m t.txBuffer t.ackingSequenceNum
        t.outgoingMessageSequenceNum hm1 hm2 httx N g1 r1 hg1 hl1 hw1 e3
    rw [← htab, ← hcrc1] at hrun hrun2
    refine ⟨t1, g2, r2, hload, ?_, by rw [f2, e2], by rw [f1, e1, List.take_left], f3⟩
    rw [hlen1, hframe, List.replicate_succ, List.flatten_cons, loopRx_append, hrun]
    exact hrun2

/-- Witness of C9: the delimiter of the repeated data frame arrives at `sampleDuplicate`. -/
theorem C9_duplicate_delivery_idempotent_witness :
    sampleDuplicate.rxBufferWp < MUDL_BUFFERS_SIZE ∧
    sampleDuplicate.rxBuffer.length = MUDL_BUFFERS_SIZE ∧
    4 < rxPayloadLen sampleDuplicate ∧ rxCrcOk sampleGlobals sampleDuplicate ∧
    (rxDecoded sampleDuplicate).1.getD (rxPayloadLen sampleDuplicate - 3) 0
      = sampleDuplicate.incomingMessageSequenceNum ∧
    ((∃ g1 s1, rxByte sampleMicros sampleGlobals sampleDuplicate 0 = some (g1, s1) ∧
      s1.incomingMessageStash = sampleDuplicate.incomingMessageStash ∧
      s1.incomingMessageStashLen = sampleDuplicate.incomingMessageStashLen ∧
      s1.incomingMessageSequenceNum = sampleDuplicate.incomingMessageSequenceNum ∧
      s1.ackRequired
        = (if sampleDuplicate.incomingMessageStashLen = 0 then true
           else sampleDuplicate.ackRequired)) ∧
    (∀ (mc : Nat → Nat) (gs gr : Globals) (t r : MUDL_Link) (m : List Nat) (N : Nat),
      1 ≤ m.length → m.length ≤ MUDL_MAX_PACKET_SIZE →
      t.outgoingMessageStashLen = m.length → t.outgoingMessageStash.take m.length = m →
      t.WF → r.WF → r.rxBufferWp = 0 → gs.crcTable = gr.crcTable →
      r.incomingMessageSequenceNum ≠ t.outgoingMessageSequenceNum →
      ∃ t1 g1 r1,
        loadTxBufferFromStash gs t = some t1 ∧
        loopRx mc gr r (List.replicate (N + 1) (t1.txBuffer.take t1.txBufferLen)).flatten
          = some (g1, r1) ∧
        r1.incomingMessageStashLen = m.length ∧
        r1.incomingMessageStash.take m.length = m ∧
        r1.incomingMessageSequenceNum = t.outgoingMessageSequenceNum)) :=
  ⟨by decide!, by decide!, by decide!, by decide!, by decide!,
    C9_duplicate_delivery_idempotent sampleMicros sampleGlobals sampleDuplicate (by decide!)
      (by decide!) (by decide!) (by decide!) (by decide!)⟩

/-- C10. Stop-and-wait: in every engine state whose outbound stash is non-empty,
`clearToSend()` is false and `send`, for every buffer and length, changes nothing: the engine
state (`outgoingMessageSequenceNum`, the outbound stash and its length,
`outgoingMessageStartTime` and every other field) and the globals are returned as they were. -/
theorem C10_send_while_pending_is_noop (micros : Nat → Nat) (g : Globals) (s : MUDL_Link)
    (data : List Nat) (len : Nat) (h : s.outgoingMessageStashLen ≠ 0) :
    s.clearToSend = false ∧ send micros g s data len = (g, s) := by
  have hc : s.clearToSend = false := by
    unfold clearToSend
    exact decide_eq_false h
  refine ⟨hc, ?_⟩
  unfold send
  rw [hc]
  rfl

/-- Witness of C10: a second `send` on `sampleSender`. -/
theorem C10_send_while_pending_is_noop_witness :
    sampleSender.outgoingMessageStashLen ≠ 0 ∧
    (sampleSender.clearToSend = false ∧
      send sampleMicros sampleGlobals sampleSender [9, 9] 2 = (sampleGlobals, sampleSender)) :=
  ⟨by decide!, C10_send_while_pending_is_noop sampleMicros sampleGlobals sampleSender [9, 9] 2
    (by decide!)⟩


/-! ## Claims on `read`, the retries, the clock and the receive buffer -/

/-- C11. `read(dest, maxLen)`: with an empty inbound stash it returns 0 and changes neither the
engine nor `dest`; with a stash of length `n > 0` it returns `k = min(n, maxLen, 248)`, the first
`k` bytes of `dest` are the first `k` stash bytes (the rest of `dest` is untouched), and
afterwards the stash is empty (`clearToRead()` is false), `ackRequired` is true and
`ackingSequenceNum == incomingMessageSequenceNum`. -/
theorem C11_read (s : MUDL_Link) (dest : List Nat) (maxLen : Nat)
    (hlen : s.incomingMessageStash.length = MUDL_BUFFERS_SIZE) :
    (s.incomingMessageStashLen = 0 → MUDL_Link.read s dest maxLen = (s, dest, 0)) ∧
    (0 < s.incomingMessageStashLen →
      (MUDL_Link.read s dest maxLen).2.2
        = min s.incomingMessageStashLen (min maxLen MUDL_MAX_PACKET_SIZE) ∧
      (MUDL_Link.read s dest maxLen).2.1.take (MUDL_Link.read s dest maxLen).2.2
        = s.incomingMessageStash.take (MUDL_Link.read s dest maxLen).2.2 ∧
      (MUDL_Link.read s dest maxLen).2.1.drop (MUDL_Link.read s dest maxLen).2.2
        = dest.drop (MUDL_Link.read s dest maxLen).2.2 ∧
      (MUDL_Link.read s dest maxLen).1.clearToRead = false ∧
      (MUDL_Link.read s dest maxLen).1.incomingMessageStashLen = 0 ∧
      (MUDL_Link.read s dest maxLen).1.ackRequired = true ∧
      (MUDL_Link.read s dest maxLen).1.ackingSequenceNum
        = (MUDL_Link.read s dest maxLen).1.incomingMessageSequenceNum) := by
  have hlen256 : s.incomingMessageStash.length = 256 := hlen
  constructor
  · intro h0
    unfold MUDL_Link.read clearToRead
    simp [h0]
  · intro hpos
    have hc : s.clearToRead = true := by
      unfold clearToRead
      exact decide_eq_true hpos
    have hk : (MUDL_Link.read s dest maxLen).2.2
        = min s.incomingMessageStashLen (min maxLen MUDL_MAX_PACKET_SIZE) := by
      unfold MUDL_Link.read
      simp only [hc, not_true_eq_false, if_false, MUDL_MAX_PACKET_SIZE]
      split_ifs <;> omega
    have hd : (MUDL_Link.read s dest maxLen).2.1
        = memcpy dest s.incomingMessageStash (MUDL_Link.read s dest maxLen).2.2 := by
      unfold MUDL_Link.read
      simp only [hc, not_true_eq_false, if_false]
    have hk248 : (MUDL_Link.read s dest maxLen).2.2 ≤ 248 := by
      rw [hk]; simp only [MUDL_MAX_PACKET_SIZE]; omega
    have htl : (s.incomingMessageStash.take (MUDL_Link.read s dest maxLen).2.2).length
        = (MUDL_Link.read s dest maxLen).2.2 := by
      rw [List.length_take, hlen256]; omega
    refine ⟨hk, ?_, ?_, ?_, ?_, ?_, ?_⟩
    · rw [hd, memcpy]
      exact List.take_left' htl
    · rw [hd, memcpy]
      exact List.drop_left' htl
    · unfold MUDL_Link.read
      simp only [hc, not_true_eq_false, if_false]
      simp [clearToRead]
    · unfold MUDL_Link.read
      simp only [hc, not_true_eq_false, if_false]
    · unfold MUDL_Link.read
      simp only [hc, not_true_eq_false, if_false]
    · unfold MUDL_Link.read
      simp only [hc, not_true_eq_false, if_false]

/-- Witness of C11: `sampleDuplicate`, which holds the unread message `[1, 2, 3]`, read
into a buffer of four bytes with `maxLen = 2`. -/
theorem C11_read_witness :
    sampleDuplicate.incomingMessageStash.length = MUDL_BUFFERS_SIZE ∧
    ((sampleDuplicate.incomingMessageStashLen = 0 →
      MUDL_Link.read sampleDuplicate [9, 9, 9, 9] 2 = (sampleDuplicate, [9, 9, 9, 9], 0)) ∧
    (0 < sampleDuplicate.incomingMessageStashLen →
      (MUDL_Link.read sampleDuplicate [9, 9, 9, 9] 2).2.2
        = min sampleDuplicate.incomingMessageStashLen (min 2 MUDL_MAX_PACKET_SIZE) ∧
      (MUDL_Link.read sampleDuplicate [9, 9, 9, 9] 2).2.1.take (MUDL_Link.read sampleDuplicate [9, 9, 9, 9] 2).2.2
        = sampleDuplicate.incomingMessageStash.take (MUDL_Link.read sampleDuplicate [9, 9, 9, 9] 2).2.2 ∧
      (MUDL_Link.read sampleDuplicate [9, 9, 9, 9] 2).2.1.drop (MUDL_Link.read sampleDuplicate [9, 9, 9, 9] 2).2.2
        = [9, 9, 9, 9].drop (MUDL_Link.read sampleDuplicate [9, 9, 9, 9] 2).2.2 ∧
      (MUDL_Link.read sampleDuplicate [9, 9, 9, 9] 2).1.clearToRead = false ∧
      (MUDL_Link.read sampleDuplicate [9, 9, 9, 9] 2).1.incomingMessageStashLen = 0 ∧
      (MUDL_Link.read sampleDuplicate [9, 9, 9, 9] 2).1.ackRequired = true ∧
      (MUDL_Link.read sampleDuplicate [9, 9, 9, 9] 2).1.ackingSequenceNum
        = (MUDL_Link.read sampleDuplicate [9, 9, 9, 9] 2).1.incomingMessageSequenceNum)) :=
  ⟨by decide!, C11_read sampleDuplicate [9, 9, 9, 9] 2 (by decide!)⟩

/-- C12 (the code at the failing input). `outgoingLastTxTime == 0` doubles as "not sent
yet". When the call of `loop()` that first loads the frame reads the clock value 0, the next
call takes the first-transmission branch again, without counting a retry: with the clock
`sampleZeroMicros`, which advances ten seconds per call (more than every timeout issued), a
transport that takes 256 bytes per call and no inbound byte, the data frame of `[1, 2, 3]` is
loaded and written 12 times, not 11, before the thirteenth call abandons the message. -/
theorem C12_twelve_loads_when_clock_reads_zero :
    (tickRun sampleZeroMicros 256 13 sampleZeroSender.1 sampleZeroSender.2).map
      (fun r => (r.2.2, r.2.1.outgoingMessageStashLen, r.2.1.outgoingLastTxTime,
        r.2.1.outgoingRetryCount, r.2.1.stats.txFailureCount, r.2.1.stats.txSuccessCount))
      = some (List.replicate 12 [4, 1, 2, 3, 4, 13, 0xDE, 0xC8, 0] ++ [[]], 0, 0, 0, 1, 0) := by
  decide!

/-- C13 (counterexample). A fresh engine at 115200 baud has `lastEverIncoming = 0` and
`keepAliveRxInterval = 4300000`; at the clock value `now = 4300000`, where
`now - last_rx = keepalive_rx_interval`, `isOpen()` returns false. -/
theorem C13_isOpen_counterexample :
    ¬ ((isOpen (fun _ => 4300000) {} (MUDL_Link.new 115200)).2 = true ↔
        (microsBase64 (fun _ => 4300000) {}).2 - (MUDL_Link.new 115200).lastEverIncoming
          ≤ (MUDL_Link.new 115200).keepAliveRxInterval) := by
  decide!

/-- C13 (amended). `isOpen()` returns true if and only if
`now - lastEverIncoming < keepAliveRxInterval`, `now` being the 64-bit value `microsBase64()`
returns, for every `now ≥ lastEverIncoming` (and `lastEverIncoming + keepAliveRxInterval`
within 64 bits). -/
theorem C13_isOpen_strict (micros : Nat → Nat) (g : Globals) (s : MUDL_Link)
    (hnow : s.lastEverIncoming ≤ (microsBase64 micros g).2)
    (hov : s.lastEverIncoming + s.keepAliveRxInterval < 2 ^ 64) :
    (isOpen micros g s).2 = true ↔
      (microsBase64 micros g).2 - s.lastEverIncoming < s.keepAliveRxInterval := by
  unfold isOpen
  simp only [decide_eq_true_eq, Nat.mod_eq_of_lt hov]
  omega

/-- Witness of C13 (amended): a fresh engine one microsecond before the interval ends. -/
theorem C13_isOpen_strict_witness :
    (MUDL_Link.new 115200).lastEverIncoming ≤ (microsBase64 (fun _ => 4299999) {}).2 ∧
    (MUDL_Link.new 115200).lastEverIncoming + (MUDL_Link.new 115200).keepAliveRxInterval
      < 2 ^ 64 ∧
    ((isOpen (fun _ => 4299999) {} (MUDL_Link.new 115200)).2 = true ↔
      (microsBase64 (fun _ => 4299999) {}).2 - (MUDL_Link.new 115200).lastEverIncoming
        < (MUDL_Link.new 115200).keepAliveRxInterval) :=
  ⟨by decide!, by decide!,
    C13_isOpen_strict (fun _ => 4299999) {} (MUDL_Link.new 115200) (by decide!) (by decide!)⟩

/-- C14 (the code at the failing input). At 300 baud `retryAbsMaxInterval` is 3 333 300 000,
above `2 ^ 31`; with a loaded frame of 254 bytes the interval for `outgoingRetryCount = 6` is
3 263 967 360, and doubling it for `outgoingRetryCount = 7` wraps the `uint32_t` before the
comparison with the ceiling: the interval falls to 2 232 967 424. -/
theorem C14_backoff_decreases_at_300_baud :
    (backoffState 300 254 6).retryAbsMaxInterval = 3333300000 ∧
    (txTimeoutGenerator (backoffState 300 254 6)).2 = 3263967360 ∧
    (txTimeoutGenerator (backoffState 300 254 7)).2 = 2232967424 ∧
    (txTimeoutGenerator (backoffState 300 254 7)).2
      < (txTimeoutGenerator (backoffState 300 254 6)).2 := by
  decide!

/-- C15 (the code at the failing input). At 230 baud `microsecondsPerByte` is 43478 and the
product `microsecondsPerByte * 100000` wraps the `uint32_t`: `retryAbsMaxInterval` is
52 832 704; with a loaded frame of 254 bytes the first interval (`outgoingRetryCount = 0`),
66 521 340, is above it. -/
theorem C15_backoff_above_cap_at_230_baud :
    (backoffState 230 254 0).microsecondsPerByte = 43478 ∧
    (backoffState 230 254 0).retryAbsMaxInterval = 52832704 ∧
    (txTimeoutGenerator (backoffState 230 254 0)).2 = 66521340 ∧
    (backoffState 230 254 0).retryAbsMaxInterval
      < (txTimeoutGenerator (backoffState 230 254 0)).2 := by
  decide!

/-- C16. 64-bit clock extension. Take any sequence of readings of the 32-bit counter, fed to
`microsBase64` from the statics `g` on, with fewer than `2 ^ 32` decreases in total (counted
with the overflows `g` already holds). For every `n`, the value returned by call `n` equals
`(overflows << 32) | current`, it is at most the value returned by call `n + 1`, and it is
strictly below it when the reading of call `n + 1` is smaller than the reading of call `n`
(after a call, `lastMicros` holds its reading). -/
theorem C16_clock_extension (micros : Nat → Nat) (g : Globals) (n : Nat)
    (hdec : g.overflows + microsDecreases micros (n + 2) g < 2 ^ 32) :
    (microsBase64 micros (microsBase64Iter micros n g)).2
      = ((microsBase64 micros (microsBase64Iter micros n g)).1.overflows <<< 32)
          ||| (microsBase64 micros (microsBase64Iter micros n g)).1.lastMicros ∧
    (microsBase64 micros (microsBase64Iter micros n g)).2
      ≤ (microsBase64 micros (microsBase64Iter micros (n + 1) g)).2 ∧
    ((microsBase64 micros (microsBase64Iter micros (n + 1) g)).1.lastMicros
        < (microsBase64 micros (microsBase64Iter micros n g)).1.lastMicros →
      (microsBase64 micros (microsBase64Iter micros n g)).2
        < (microsBase64 micros (microsBase64Iter micros (n + 1) g)).2) := by
  have hb := microsBase64Iter_bound micros n g 2 hdec
  have hnext : microsBase64Iter micros (n + 1) g
      = (microsBase64 micros (microsBase64Iter micros n g)).1 := by
    clear hdec hb
    induction n generalizing g with
    | zero => rfl
    | succ k ih =>
      rw [microsBase64Iter, ih (microsBase64 micros g).1]
      rfl
  rw [hnext]
  exact microsBase64_pair micros _ hb

/-- Witness of C16: the readings 4 294 967 000, 5, 6, 2 from the initial statics; the second
and the fourth are decreases. -/
theorem C16_clock_extension_witness :
    ({} : Globals).overflows
      + microsDecreases (fun k => [4294967000, 5, 6, 2].getD k 0) (1 + 2) {} < 2 ^ 32 ∧
    ((microsBase64 (fun k => [4294967000, 5, 6, 2].getD k 0)
        (microsBase64Iter (fun k => [4294967000, 5, 6, 2].getD k 0) 1 {})).2
      = ((microsBase64 (fun k => [4294967000, 5, 6, 2].getD k 0)
          (microsBase64Iter (fun k => [4294967000, 5, 6, 2].getD k 0) 1 {})).1.overflows <<< 32)
          ||| (microsBase64 (fun k => [4294967000, 5, 6, 2].getD k 0)
          (microsBase64Iter (fun k => [4294967000, 5, 6, 2].getD k 0) 1 {})).1.lastMicros ∧
    (microsBase64 (fun k => [4294967000, 5, 6, 2].getD k 0)
        (microsBase64Iter (fun k => [4294967000, 5, 6, 2].getD k 0) 1 {})).2
      ≤ (microsBase64 (fun k => [4294967000, 5, 6, 2].getD k 0)
        (microsBase64Iter (fun k => [4294967000, 5, 6, 2].getD k 0) (1 + 1) {})).2 ∧
    ((microsBase64 (fun k => [4294967000, 5, 6, 2].getD k 0)
        (microsBase64Iter (fun k => [4294967000, 5, 6, 2].getD k 0) (1 + 1) {})).1.lastMicros
        < (microsBase64 (fun k => [4294967000, 5, 6, 2].getD k 0)
        (microsBase64Iter (fun k => [4294967000, 5, 6, 2].getD k 0) 1 {})).1.lastMicros →
      (microsBase64 (fun k => [4294967000, 5, 6, 2].getD k 0)
        (microsBase64Iter (fun k => [4294967000, 5, 6, 2].getD k 0) 1 {})).2
        < (microsBase64 (fun k => [4294967000, 5, 6, 2].getD k 0)
        (microsBase64Iter (fun k => [4294967000, 5, 6, 2].getD k 0) (1 + 1) {})).2)) :=
  ⟨by decide!, C16_clock_extension (fun k => [4294967000, 5, 6, 2].getD k 0) {} 1 (by decide!)⟩

/-- C17 (the code at the failing input). `loop()` stores the 64-bit clock value in a
`uint32_t now`. The idle engine `sampleIdle` sent its last frame at 4 294 000 000 us; the
32-bit counter then wraps and `microsBase64()` returns 4 296 467 296, which is 2 467 296 us
later, more than `keepAliveTxInterval = 2 150 000`. The transmit buffer and the outbound
stash are empty and `ackRequired` is false, yet the call of `loop()` loads no frame: it
compares `lastEverOutgoing + keepAliveTxInterval` with the truncated value 1 500 000. -/
theorem C17_keepalive_missed_after_wrap :
    (microsBase64 sampleWrappedMicros sampleLateGlobals).2 = 4296467296 ∧
    sampleIdle.keepAliveTxInterval
      < (microsBase64 sampleWrappedMicros sampleLateGlobals).2 - sampleIdle.lastEverOutgoing ∧
    sampleIdle.txBufferLen = 0 ∧ sampleIdle.outgoingMessageStashLen = 0 ∧
    sampleIdle.outgoingLastTxTime = 0 ∧ sampleIdle.ackRequired = false ∧
    loop sampleWrappedMicros sampleLateGlobals sampleIdle [] 256
      = some ((microsBase64 sampleWrappedMicros sampleLateGlobals).1, sampleIdle, []) := by
  decide!

/-- C18 (counterexample). `sampleSender` loads and writes the data frame of `[1, 2, 3]`
(`ack_seq = 0`, `our_seq = 13`); the next call of `loop()` receives the data frame of a peer
(`our_seq = 7`, body `[9]`), the application reads it with `read()`, which sets
`ackingSequenceNum` to 7, and the following call of `loop()`, past the timeout, retransmits:
`outgoingRetryCount` and `txTotalRetries` become 1 and the bytes written are
`08 01 02 03 07 0D 47 5F 00`, not the `04 01 02 03 04 0D DE C8 00` of the first transmission. -/
theorem C18_retransmission_counterexample :
    (run sampleJumpMicros
        [Op.tick [] 256, Op.tick [2, 9, 4, 7, 0x22, 0xEA, 0] 256, Op.read [] 248,
          Op.tick [] 256] sampleGlobals sampleSender).map
      (fun r => (r.2.2, r.2.1.outgoingRetryCount, r.2.1.stats.txTotalRetries,
        r.2.1.ackingSequenceNum))
      = some ([[4, 1, 2, 3, 4, 13, 0xDE, 0xC8, 0], [], [],
               [8, 1, 2, 3, 7, 13, 0x47, 0x5F, 0]], 1, 1, 7) := by
  decide!

/-- C18 (amended). A retransmission loads the pending message with the ack number the engine
holds at that moment. Let a call of `loop()` load a message `m` (`1 ≤ |m| ≤ 248`) for the first
time (`s0` is the state its TX section finds, `s1` the state it leaves), let any sequence `ops`
of calls of `loop()` (with any inbound bytes and any transport capacity) and `read()` follow,
and let a later call of `loop()` find, after its RX loop, the state `s3` of a retransmission:
empty transmit buffer, `outgoingLastTxTime != 0`, the timeout elapsed and at most
`MUDL_MAX_NUM_RETRIES` retries counted. Then this call returns, counts the retry, and leaves in
the stash the pre-encoding payload `m ++ [ack_seq, our_seq, crc_hi, crc_lo]` with `our_seq`
unchanged and `ack_seq` the current `ackingSequenceNum`, and in the transmit buffer its
`mudl_cobsEncode` followed by `0x00`; if `ackingSequenceNum` has the value it had at the first
transmission, these `|m| + 6` frame bytes equal those of the first transmission; and this is
the case whenever `ops` holds no call of `read()`. -/
theorem C18_retransmission_frame (micros : Nat → Nat) (g : Globals) (s : MUDL_Link)
    (rx : List Nat) (fifoAvail : Nat) (g0 : Globals) (s0 : MUDL_Link) (m : List Nat)
    (g1 : Globals) (s1 : MUDL_Link) (out : List Nat)
    (ops : List Op) (g2 : Globals) (s2 : MUDL_Link) (outs : List (List Nat))
    (rx2 : List Nat) (fifo2 : Nat) (g3 : Globals) (s3 : MUDL_Link)
    (hrx : loopRx micros g s rx = some (g0, s0))
    (hwf : s0.WF) (htx : s0.txBufferLen = 0)
    (hm1 : 1 ≤ m.length) (hm2 : m.length ≤ MUDL_MAX_PACKET_SIZE)
    (hlen : s0.outgoingMessageStashLen = m.length)
    (hst : s0.outgoingMessageStash.take m.length = m)
    (hlast : s0.outgoingLastTxTime = 0)
    (hinit : loop micros g s rx fifoAvail = some (g1, s1, out))
    (hrun : run micros ops g1 s1 = some (g2, s2, outs))
    (hrx2 : loopRx micros g2 s2 rx2 = some (g3, s3))
    (htx3 : s3.txBufferLen = 0) (hlast3 : s3.outgoingLastTxTime ≠ 0)
    (hto : ((microsBase64 micros g3).2 % 2 ^ 32 + 2 ^ 64 - s3.outgoingLastTxTime) % 2 ^ 64
      > s3.outgoingTimeoutLength)
    (hretry : (s3.outgoingRetryCount + 1) % 2 ^ 8 ≤ MUDL_MAX_NUM_RETRIES) :
    ∃ crc g4 s4 out2,
      loop micros g2 s2 rx2 fifo2 = some (g4, s4, out2) ∧
      s4.outgoingRetryCount = (s3.outgoingRetryCount + 1) % 2 ^ 8 ∧
      crc16_ccitt g0.crcTable (m ++ [s3.ackingSequenceNum, s0.outgoingMessageSequenceNum])
        (m.length + 2) = some crc ∧
      s4.outgoingMessageStash.take (m.length + 4)
        = m ++ [s3.ackingSequenceNum, s0.outgoingMessageSequenceNum, crc / 256, crc % 256] ∧
      s4.txBuffer.take (m.length + 6)
        = (mudl_cobsEncode (m ++ [s3.ackingSequenceNum, s0.outgoingMessageSequenceNum,
              crc / 256, crc % 256]) (m.length + 4) s3.txBuffer).1.take (m.length + 5) ++ [0] ∧
      (s3.ackingSequenceNum = s0.ackingSequenceNum →
        s4.txBuffer.take (m.length + 6) = s1.txBuffer.take (m.length + 6)) ∧
      ((∀ op ∈ ops, ∃ r f, op = Op.tick r f) →
        s3.ackingSequenceNum = s0.ackingSequenceNum) := by
  have hm248 : m.length ≤ 248 := hm2
  obtain ⟨hil0, hsl0, hrl0, htl0⟩ := hwf
  -- the first transmission
  obtain ⟨crc0, ga, sla, hcrc0, hloada, _, _, hn0, hframe0, _⟩ :=
    loopTxLoad_data micros g0 s0 m ⟨hil0, hsl0, hrl0, htl0⟩ htx hm1 hm248 hlen hst hlast
  have hH0 : HoldsMessage g0.crcTable m s0.outgoingMessageSequenceNum g0 s0 :=
    ⟨rfl, hsl0, htl0, hst, rfl, Or.inl hlen⟩
  obtain ⟨hHa, hacka⟩ := loopTxLoad_holds micros g0 s0 ga sla _ m _ hm248 hH0 hloada
  obtain ⟨hHp, hackp, htxp, _, _⟩ := loopTxPush_holds sla fifoAvail ga _ m _ hHa
  have hs1 : g1 = ga ∧ s1 = (loopTxPush sla fifoAvail).1 := by
    unfold loop at hinit
    simp only [hrx, hloada, Option.bind_eq_bind, Option.some_bind, Option.some.injEq,
      Prod.mk.injEq] at hinit
    exact ⟨hinit.1.symm, hinit.2.1.symm⟩
  obtain ⟨hg1, hs1e⟩ := hs1
  subst hg1 hs1e
  -- the calls in between
  obtain ⟨hH2, hack2⟩ := run_holds micros _ m _ hm248 ops g1 _ g2 s2 outs hHp hrun
  obtain ⟨hH3, hack3⟩ := loopRx_holds micros g2 s2 rx2 g3 s3 _ m _ hH2 hrx2
  obtain ⟨hT3, hsl3, htl3, hst3, hq3, hor3⟩ := hH3
  have hlen3 : s3.outgoingMessageStashLen = m.length := by
    rcases hor3 with h | ⟨_, h⟩
    · exact h
    · exact absurd h hlast3
  -- the retransmission
  obtain ⟨crc, g4, sl4, hcrc, hload4, _, hrc4, hframe4, hstash4⟩ :=
    loopTxLoad_retransmit micros g3 s3 m hsl3 htl3 htx3 hm248 hlen3 hst3 hlast3 hto hretry
  obtain ⟨rp, len, hpush⟩ := loopTxPush_out sl4 fifo2
  rw [hT3, hq3] at hcrc
  rw [hq3] at hstash4 hframe4
  refine ⟨crc, g4, (loopTxPush sl4 fifo2).1, (loopTxPush sl4 fifo2).2, ?_, ?_, hcrc, ?_, ?_,
    ?_, ?_⟩
  · unfold loop
    simp only [hrx2, hload4, Option.bind_eq_bind, Option.some_bind]
  · rw [hpush]; exact hrc4
  · rw [hpush]; exact hstash4
  · have hpl3 : (m ++ [s3.ackingSequenceNum, s0.outgoingMessageSequenceNum,
        crc / 256, crc % 256]).length = m.length + 4 := by simp
    rw [hpush]
    simp only []
    rw [hframe4]
    unfold mudl_cobsEncode
    rw [← hpl3, List.take_length]
  · intro hack
    rw [hpush]
    simp only []
    rw [htxp, hframe4, hframe0]
    rw [hack] at hcrc
    have hc : crc = crc0 := by
      rw [hcrc0] at hcrc
      exact (Option.some.inj hcrc).symm
    subst hc
    rw [hack]
    have hpl : (m ++ [s0.ackingSequenceNum, s0.outgoingMessageSequenceNum,
        crc / 256, crc % 256]).length = m.length + 4 := by simp
    have henc : mudl_cobsEncode (m ++ [s0.ackingSequenceNum, s0.outgoingMessageSequenceNum,
        crc / 256, crc % 256]) (m.length + 4) s0.txBuffer
        = cobsEncodeLoop (m ++ [s0.ackingSequenceNum, s0.outgoingMessageSequenceNum,
            crc / 256, crc % 256]) s0.txBuffer 1 0 1 := by
      unfold mudl_cobsEncode
      rw [← hpl, List.take_length]
    rw [henc] at hn0 ⊢
    rw [cobsEncodeLoop_take_indep _ s3.txBuffer s0.txBuffer (m.length + 5)
      (by rw [htl3]; exact htl0.symm) ?_]
    rw [cobsEncodeLoop_short _ _ _ _ _ (by rw [hpl]; omega), hpl]
    omega
  · intro hall
    rw [hack3, hack2 hall, hackp, hacka]

/-- Witness of C18 (amended): `sampleSender` loads `[1, 2, 3]`, the next call of `loop()`
receives the data frame of `samplePeer`, nothing is read, and the call after it, at the clock
value 50 000, retransmits. -/
theorem C18_retransmission_frame_witness :
    loopRx sampleJumpMicros sampleGlobals sampleSender [] = some (sampleGlobals, sampleSender) ∧
    sampleSender.WF ∧ sampleSender.txBufferLen = 0 ∧
    1 ≤ [1, 2, 3].length ∧ [1, 2, 3].length ≤ MUDL_MAX_PACKET_SIZE ∧
    sampleSender.outgoingMessageStashLen = [1, 2, 3].length ∧
    sampleSender.outgoingMessageStash.take [1, 2, 3].length = [1, 2, 3] ∧
    sampleSender.outgoingLastTxTime = 0 ∧
    loop sampleJumpMicros sampleGlobals sampleSender [] 256
      = some (sampleLoaded.1, sampleLoaded.2.1, sampleLoaded.2.2) ∧
    run sampleJumpMicros [Op.tick [2, 9, 4, 7, 0x22, 0xEA, 0] 256] sampleLoaded.1
        sampleLoaded.2.1
      = some (sampleLoadedInbound.1, sampleLoadedInbound.2.1, sampleLoadedInbound.2.2) ∧
    loopRx sampleJumpMicros sampleLoadedInbound.1 sampleLoadedInbound.2.1 []
      = some (sampleLoadedInbound.1, sampleLoadedInbound.2.1) ∧
    sampleLoadedInbound.2.1.txBufferLen = 0 ∧
    sampleLoadedInbound.2.1.outgoingLastTxTime ≠ 0 ∧
    ((microsBase64 sampleJumpMicros sampleLoadedInbound.1).2 % 2 ^ 32 + 2 ^ 64
        - sampleLoadedInbound.2.1.outgoingLastTxTime) % 2 ^ 64
      > sampleLoadedInbound.2.1.outgoingTimeoutLength ∧
    (sampleLoadedInbound.2.1.outgoingRetryCount + 1) % 2 ^ 8 ≤ MUDL_MAX_NUM_RETRIES ∧
    ∃ crc g4 s4 out2,
      loop sampleJumpMicros sampleLoadedInbound.1 sampleLoadedInbound.2.1 [] 256
        = some (g4, s4, out2) ∧
      s4.outgoingRetryCount = (sampleLoadedInbound.2.1.outgoingRetryCount + 1) % 2 ^ 8 ∧
      crc16_ccitt sampleGlobals.crcTable
        ([1, 2, 3] ++ [sampleLoadedInbound.2.1.ackingSequenceNum,
          sampleSender.outgoingMessageSequenceNum]) ([1, 2, 3].length + 2) = some crc ∧
      s4.outgoingMessageStash.take ([1, 2, 3].length + 4)
        = [1, 2, 3] ++ [sampleLoadedInbound.2.1.ackingSequenceNum,
            sampleSender.outgoingMessageSequenceNum, crc / 256, crc % 256] ∧
      s4.txBuffer.take ([1, 2, 3].length + 6)
        = (mudl_cobsEncode ([1, 2, 3] ++ [sampleLoadedInbound.2.1.ackingSequenceNum,
              sampleSender.outgoingMessageSequenceNum, crc / 256, crc % 256])
              ([1, 2, 3].length + 4) sampleLoadedInbound.2.1.txBuffer).1.take
            ([1, 2, 3].length + 5) ++ [0] ∧
      (sampleLoadedInbound.2.1.ackingSequenceNum = sampleSender.ackingSequenceNum →
        s4.txBuffer.take ([1, 2, 3].length + 6)
          = sampleLoaded.2.1.txBuffer.take ([1, 2, 3].length + 6)) ∧
      ((∀ op ∈ [Op.tick [2, 9, 4, 7, 0x22, 0xEA, 0] 256], ∃ r f, op = Op.tick r f) →
        sampleLoadedInbound.2.1.ackingSequenceNum = sampleSender.ackingSequenceNum) :=
  ⟨rfl, by decide!, by decide!, by decide, by decide, by decide!, by decide!, by decide!,
    by decide!, by decide!, rfl, by decide!, by decide!, by decide!, by decide!,
    C18_retransmission_frame sampleJumpMicros sampleGlobals sampleSender [] 256 sampleGlobals
      sampleSender [1, 2, 3] sampleLoaded.1 sampleLoaded.2.1 sampleLoaded.2.2
      [Op.tick [2, 9, 4, 7, 0x22, 0xEA, 0] 256] sampleLoadedInbound.1 sampleLoadedInbound.2.1
      sampleLoadedInbound.2.2 [] 256 sampleLoadedInbound.1 sampleLoadedInbound.2.1
      rfl (by decide!) (by decide!) (by decide) (by decide) (by decide!) (by decide!)
      (by decide!) (by decide!) (by decide!) rfl (by decide!) (by decide!) (by decide!)
      (by decide!)⟩

/-- C19 (the code at the failing input). The write pointer is reset at
`MUDL_BUFFERS_SIZE * 2 = 512`, not at 256. After 256 non-zero bytes a fresh engine has
`rxBufferWp = 256`, and the next byte is stored at `rxBuffer[256]`, outside the array: the
embedding returns `none`. -/
theorem C19_write_pointer_leaves_buffer :
    (loopRx sampleMicros sampleGlobals (MUDL_Link.new 115200) (List.replicate 256 1)).map
      (fun r => r.2.rxBufferWp) = some 256 ∧
    arrayStore (List.replicate 256 1) 256 1 = none ∧
    loopRx sampleMicros sampleGlobals (MUDL_Link.new 115200) (List.replicate 257 1) = none := by
  decide!

/-- C20 (counterexample). A sender whose `our_seq` is 0 builds the data frame of `[1, 2, 3]`;
a fresh engine receives it, the CRC test passes (`rxSuccessCount = 1`), and the frame is taken
for a retransmission because `incomingMessageSequenceNum` starts at 0: `clearToRead()` is
false, the stash is empty and only `ackRequired` is set. -/
theorem C20_first_delivery_counterexample :
    (loadTxBufferFromStash sampleGlobals sampleSeqZeroSender).bind
      (fun t1 =>
        (loopRx sampleMicros sampleGlobals (MUDL_Link.new 115200)
          (t1.txBuffer.take t1.txBufferLen)).map
          (fun r => (r.2.stats.rxSuccessCount, r.2.clearToRead, r.2.incomingMessageStashLen,
            r.2.ackRequired)))
      = some (1, false, 0, true) := by
  decide!

/-- C20 (amended). First delivery on a fresh engine: for a freshly constructed engine
(`incomingMessageSequenceNum = 0`, inbound stash empty) and a CRC-valid data frame with a body
`m` (`1 ≤ |m| ≤ 248`) built by a sender with the same CRC table, if `incoming_seq` is not 0
then after the frame is processed `clearToRead()` is true and the inbound stash holds `m`; if
`incoming_seq` is 0, the value `incomingMessageSequenceNum` starts with, the frame is taken for
a retransmission: the stash stays empty and `ackRequired` is set. -/
theorem C20_first_delivery (micros : Nat → Nat) (gs gr : Globals) (t : MUDL_Link)
    (baud : Nat) (m : List Nat) (hm1 : 1 ≤ m.length) (hm2 : m.length ≤ MUDL_MAX_PACKET_SIZE)
    (htl : t.outgoingMessageStashLen = m.length)
    (hts : t.outgoingMessageStash.take m.length = m)
    (htwf : t.WF) (htab : gs.crcTable = gr.crcTable) :
    ∃ t1 g1 r1,
      loadTxBufferFromStash gs t = some t1 ∧
      loopRx micros gr (MUDL_Link.new baud) (t1.txBuffer.take t1.txBufferLen)
        = some (g1, r1) ∧
      (t.outgoingMessageSequenceNum ≠ 0 →
        r1.clearToRead = true ∧ r1.incomingMessageStashLen = m.length ∧
        r1.incomingMessageStash.take m.length = m) ∧
      (t.outgoingMessageSequenceNum = 0 →
        r1.clearToRead = false ∧ r1.incomingMessageStashLen = 0 ∧ r1.ackRequired = true) := by
  obtain ⟨_, hsl, _, httx⟩ := htwf
  obtain ⟨crc, t1, hcrc, hload, hlen1, _, _, hframe, _, _⟩ :=
    loadTxBufferFromStash_frame gs t m hm2 htl hts hsl httx
  obtain ⟨g1, r1, _, hrun, _, _, _, _, _, _, _, _, _, _, _, _, hnew, hdup⟩ :=
    loopRx_data_frame micros gr (MUDL_Link.new baud) m t.txBuffer t.ackingSequenceNum
      t.outgoingMessageSequenceNum hm1 hm2 httx (List.length_replicate _ _) rfl
  rw [← htab, ← hcrc] at hrun
  refine ⟨t1, g1, r1, hload, by rw [hlen1, hframe]; exact hrun, ?_, ?_⟩
  · intro hne
    obtain ⟨e1, e2, _, _⟩ := hnew (fun h => hne h.symm)
    refine ⟨?_, e2, by rw [e1, List.take_left]⟩
    unfold clearToRead
    rw [e2]
    exact decide_eq_true hm1
  · intro heq
    obtain ⟨_, e2, _, e4⟩ := hdup heq.symm
    have e2b : r1.incomingMessageStashLen = 0 := e2
    refine ⟨?_, e2b, ?_⟩
    · unfold clearToRead
      rw [e2b]
      rfl
    · rw [e4]
      rfl

/-- Witness of C20 (amended): `sampleSender` (`our_seq = 13`) and a fresh receiver. -/
theorem C20_first_delivery_witness :
    1 ≤ [1, 2, 3].length ∧ [1, 2, 3].length ≤ MUDL_MAX_PACKET_SIZE ∧
    sampleSender.outgoingMessageStashLen = [1, 2, 3].length ∧
    sampleSender.outgoingMessageStash.take [1, 2, 3].length = [1, 2, 3] ∧
    sampleSender.WF ∧ sampleGlobals.crcTable = sampleGlobals.crcTable ∧
    ∃ t1 g1 r1,
      loadTxBufferFromStash sampleGlobals sampleSender = some t1 ∧
      loopRx sampleMicros sampleGlobals (MUDL_Link.new 115200)
        (t1.txBuffer.take t1.txBufferLen) = some (g1, r1) ∧
      (sampleSender.outgoingMessageSequenceNum ≠ 0 →
        r1.clearToRead = true ∧ r1.incomingMessageStashLen = [1, 2, 3].length ∧
        r1.incomingMessageStash.take [1, 2, 3].length = [1, 2, 3]) ∧
      (sampleSender.outgoingMessageSequenceNum = 0 →
        r1.clearToRead = false ∧ r1.incomingMessageStashLen = 0 ∧ r1.ackRequired = true) :=
  ⟨by decide, by decide, by decide!, by decide!, by decide!, rfl,
    C20_first_delivery sampleMicros sampleGlobals sampleGlobals sampleSender 115200 [1, 2, 3]
      (by decide) (by decide) (by decide!) (by decide!) (by decide!) rfl⟩

end Mudlink
